import Mathlib

/-!
# Calorimetry module (`calo::Calorimetry::produce`) and the hit order of `TrajCluster`

Shallow embedding of `calo::Calorimetry::produce` and `calo::Calorimetry::GetPitch`
(`src/larana/Calorimetry/Calorimetry_module.cc`), and of `cluster::SortHits`, the
sorting step and the conversion of a trajectory to a cluster in
`cluster::TrajCluster::produce` (`src/larreco/ClusterFinder/TrajCluster_module.cc`).

Conventions of the embedding.

* A C++ `double` is an element of a linearly ordered field `K` (exact
  arithmetic).  The library functions `sqrt` and `pow` are parameters.  The last
  lines of `GetPitch` are also given with every operation rounded to binary64
  (`pitchFromSlopesDouble`).
* A `std::vector` is a `List`; `push_back x` is `v ++ [x]`.  A read `v[i]` is
  `vecRead junk v i`: the element when `i` is inside the vector, and the
  value `junk` that happens to lie behind the vector otherwise.
* A `std::stack` is a `List` whose head is the top.
* Every loop is a recursive function on the number of iterations that are
  left, carrying the loop variables.
* A loop whose counter is an `unsigned short` is run with the counter
  incremented modulo `2^16` and an explicit bound on the number of passes
  (`cluster.loopU16`); `none` means that the loop has not ended.
* The external calls (the calibration, the geometry, the channel status, the
  ROOT fit, `std::sort`, `MergeTPHits`) and the constant `util::kBogusD` are
  parameters.
-/

set_option autoImplicit false

namespace calo

/-- Three coordinates, as held by a ROOT `TVector3`. -/
structure TVector3 (K : Type) where
  x : K
  y : K
  z : K
deriving DecidableEq, Repr

/-- The `geo::PlaneID` filled from the first hit of the plane. -/
structure PlaneID where
  Cryostat : Nat
  TPC : Nat
  Plane : Nat
deriving DecidableEq, Repr

/-- The members of a `recob::Hit` that `produce` reads. -/
structure Hit (K : Type) where
  Channel : Nat
  Cryostat : Nat
  TPC : Nat
  Plane : Nat
  Wire : Nat
  PeakTime : K
  PeakTimeMinusRMS : K
  PeakTimePlusRMS : K
  PeakAmplitude : K
  Integral : K
deriving DecidableEq, Repr

/-- What `GetPitch` hands back through `xyz3d` and `pitch`. -/
structure PitchResult (K : Type) where
  xyz3d : TVector3 K
  pitch : K
deriving DecidableEq, Repr

/-- The module configuration (`fUseArea`, `fFlipTrack_dQdx`) and the calls made
inside the hit loop: the library functions, the calibration algorithm, and the
member function `GetPitch` as called with the track points of the plane (see
`servicesOfPlane`). -/
structure Services (K : Type) where
  fUseArea : Bool
  fFlipTrack_dQdx : Bool
  sqrt : K → K
  pow : K → K → K
  GetPitch : Hit K → PitchResult K
  dEdx_AREA : Hit K → K → K → K
  dEdx_AMP : Hit K → K → K → K
  kBogusD : K

/-- The variables of `produce` that the hit loop of one plane reads and writes
(lines 215-250 give their values at the start of the plane). -/
structure PlaneState (K : Type) where
  planeID : Option PlaneID
  wire : Nat
  time : K
  stime : K
  etime : K
  fnsps : Nat
  xx : K
  yy : K
  zz : K
  spdelta : List K
  Trk_Length : K
  ChargeBeg : List K
  ChargeEnd : List K
  Kin_En : K
  wire0 : Nat
  wire1 : Nat
  fMIPs : List K
  fdEdx : List K
  fdQdx : List K
  fwire : List Nat
  ftime : List K
  fstime : List K
  fetime : List K
  fpitch : List K
  fXYZ : List (TVector3 K)

/-- The `anab::Calorimetry` record pushed onto `calorimetrycol`, together with
the value of `PIDA` at that moment (which is only logged). -/
structure Calorimetry (K : Type) where
  KineticEnergy : K
  dEdx : List K
  dQdx : List K
  ResidualRange : List K
  DeadWireResR : List K
  Range : K
  TrkPitch : List K
  XYZ : List (TVector3 K)
  planeID : Option PlaneID
  PIDA : K

section Model

variable {K : Type} [LinearOrderedField K]

/-- The read `v[i]` of a `std::vector`. -/
def vecRead {α : Type} (junk : α) (v : List α) (i : Nat) : α :=
  v.getD i junk

/-- The state at line 251, before the first hit of the plane.  The scalars
`wire`, `time`, `stime`, `etime` are declared per track and keep what the
previous plane left in them. -/
def initState (wire : Nat) (time stime etime : K) : PlaneState K :=
  { planeID := none, wire := wire, time := time, stime := stime, etime := etime,
    fnsps := 0, xx := 0, yy := 0, zz := 0, spdelta := [], Trk_Length := 0,
    ChargeBeg := [], ChargeEnd := [], Kin_En := 0, wire0 := 100000, wire1 := 0,
    fMIPs := [], fdEdx := [], fdQdx := [], fwire := [], ftime := [], fstime := [],
    fetime := [], fpitch := [], fXYZ := [] }

/-- One pass through the body of the hit loop (lines 301-374). -/
def hitStep (sv : Services K) (fTrkPitch T0 : K) (s : PlaneState K) (hit : Hit K) :
    PlaneState K :=
  let s := { s with planeID := if s.planeID.isNone then
                                 some ⟨hit.Cryostat, hit.TPC, hit.Plane⟩ else s.planeID }
  let s := { s with wire := hit.Wire, time := hit.PeakTime,
                    stime := hit.PeakTimeMinusRMS, etime := hit.PeakTimePlusRMS }
  let charge := if sv.fUseArea then hit.Integral else hit.PeakAmplitude
  let r := sv.GetPitch hit
  let xyz3d := r.xyz3d
  let pitch := r.pitch
  if xyz3d.z < -100 then s
  else
    let pitch := if pitch ≤ 0 then fTrkPitch else pitch
    if pitch = 0 then s
    else
      let s :=
        if s.fnsps = 0 then
          { s with xx := xyz3d.x, yy := xyz3d.y, zz := xyz3d.z,
                   spdelta := s.spdelta ++ [0] }
        else
          let dx := xyz3d.x - s.xx
          let dy := xyz3d.y - s.yy
          let dz := xyz3d.z - s.zz
          let d := sv.sqrt (dx * dx + dy * dy + dz * dz)
          { s with spdelta := s.spdelta ++ [d], Trk_Length := s.Trk_Length + d,
                   xx := xyz3d.x, yy := xyz3d.y, zz := xyz3d.z }
      let s := { s with ChargeBeg := s.ChargeBeg ++ [charge],
                        ChargeEnd := charge :: s.ChargeEnd }
      let MIPs := charge
      let dQdx := MIPs / pitch
      let dEdx := if sv.fUseArea then sv.dEdx_AREA hit pitch T0
                  else sv.dEdx_AMP hit pitch T0
      let s := { s with Kin_En := s.Kin_En + dEdx * pitch }
      let s := { s with wire0 := if hit.Wire < s.wire0 then hit.Wire else s.wire0 }
      let s := { s with wire1 := if hit.Wire > s.wire1 then hit.Wire else s.wire1 }
      { s with fMIPs := s.fMIPs ++ [MIPs], fdEdx := s.fdEdx ++ [dEdx],
               fdQdx := s.fdQdx ++ [dQdx], fwire := s.fwire ++ [s.wire],
               ftime := s.ftime ++ [s.time], fstime := s.fstime ++ [s.stime],
               fetime := s.fetime ++ [s.etime], fpitch := s.fpitch ++ [pitch],
               fXYZ := s.fXYZ ++ [⟨xyz3d.x, xyz3d.y, xyz3d.z⟩],
               fnsps := s.fnsps + 1 }

/-- The hit loop of one plane: `hitStep` over the hits of the plane, in order. -/
def hitLoop (sv : Services K) (fTrkPitch T0 : K) (s : PlaneState K) (hits : List (Hit K)) :
    PlaneState K :=
  hits.foldl (hitStep sv fTrkPitch T0) s

/-- The loop of lines 389-392, `for (isp; isp<fnsps; ++isp){ if (isp>3) break;
USChg += ChargeBeg[isp]; }`, with `todo = fnsps - isp` passes left. -/
def USChgLoop (junk : K) (ChargeBeg : List K) : Nat → Nat → K → K
  | 0, _, USChg => USChg
  | todo + 1, isp, USChg =>
      if isp > 3 then USChg
      else USChgLoop junk ChargeBeg todo (isp + 1) (USChg + vecRead junk ChargeBeg isp)

/-- The loop of lines 393-399 over the stack `ChargeEnd`. -/
def DSChgLoop : List K → Nat → K → K
  | [], _, DSChg => DSChg
  | top :: rest, countsp, DSChg =>
      if countsp > 3 then DSChg
      else DSChgLoop rest (countsp + 1) (DSChg + top)

/-- Line 401: `GoingDS = (DSChg > USChg) || (!fFlipTrack_dQdx)`. -/
def GoingDS (DSChg USChg : K) (fFlipTrack_dQdx : Bool) : Bool :=
  decide (DSChg > USChg) || !fFlipTrack_dQdx

/-- Lines 389-401: the two charge sums over the buffers the hit loop left,
and the direction taken from them. -/
def resolveDirection (sv : Services K) (junk : K) (s : PlaneState K) : Bool :=
  let USChg := USChgLoop junk s.ChargeBeg s.fnsps 0 0
  let DSChg := DSChgLoop s.ChargeEnd 0 0
  GoingDS DSChg USChg sv.fFlipTrack_dQdx

/-- The loop of lines 406-408, `for (isp = fnsps-2; isp > -1; isp--)
fResRng[isp] = fResRng[isp+1] + spdelta[isp+1]`; the first argument is
`isp + 1`. -/
def resRngDown (junk : K) (spdelta : List K) : Nat → List K → List K
  | 0, fResRng => fResRng
  | isp + 1, fResRng =>
      resRngDown junk spdelta isp
        (fResRng.set isp (vecRead junk fResRng (isp + 1) + vecRead junk spdelta (isp + 1)))

/-- The loop of lines 411-413, `for (isp; isp < fnsps; isp++)
fResRng[isp] = fResRng[isp-1] + spdelta[isp]`, with `todo = fnsps - isp`
passes left. -/
def resRngUp (junk : K) (spdelta : List K) : Nat → Nat → List K → List K
  | 0, _, fResRng => fResRng
  | todo + 1, isp, fResRng =>
      resRngUp junk spdelta todo (isp + 1)
        (fResRng.set isp (vecRead junk fResRng (isp - 1) + vecRead junk spdelta isp))

/-- Lines 403-414: the residual range array.  `fResRng` was cleared at the
start of the plane, so `resize(fnsps)` leaves `fnsps` zeros. -/
def fillResRng (junk : K) (goingDS : Bool) (spdelta : List K) (fnsps : Nat) : List K :=
  let fResRng : List K := List.replicate fnsps 0
  if goingDS then
    let fResRng := fResRng.set (fnsps - 1) (vecRead junk spdelta (fnsps - 1) / 2)
    resRngDown junk spdelta (fnsps - 1) fResRng
  else
    let fResRng := fResRng.set 0 (vecRead junk spdelta 1 / 2)
    resRngUp junk spdelta (fnsps - 1) 1 fResRng

/-- The variables written by the loop over the 3D points (lines 419-449). -/
structure PointLoopState (K : Type) where
  vresRange : List K
  vdEdx : List K
  vdQdx : List K
  vXYZ : List (TVector3 K)
  Ai : K
  nPIDA : Nat
  PIDA : K

/-- The loop of lines 419-449 over the 3D points, with `todo = fnsps - i`
passes left. -/
def pointLoop (sv : Services K) (junk : K) (s : PlaneState K) (fResRng : List K) :
    Nat → Nat → PointLoopState K → PointLoopState K
  | 0, _, p => p
  | todo + 1, i, p =>
      let p := { p with vresRange := p.vresRange ++ [vecRead junk fResRng i],
                        vdEdx := p.vdEdx ++ [vecRead junk s.fdEdx i],
                        vdQdx := p.vdQdx ++ [vecRead junk s.fdQdx i],
                        vXYZ := p.vXYZ ++ [vecRead ⟨junk, junk, junk⟩ s.fXYZ i] }
      let p :=
        if i ≠ 0 ∧ i ≠ s.fnsps - 1 then
          let Ai := vecRead junk s.fdEdx i * sv.pow (vecRead junk fResRng i) 0.42
          { p with Ai := Ai, nPIDA := p.nPIDA + 1, PIDA := p.PIDA + Ai }
        else p
      pointLoop sv junk s fResRng todo (i + 1) p

/-- What `produce` does with the state `s` left by the hit loop of a plane
(lines 375-532).  `deadwire` is the vector filled by the dead-wire scan of
lines 470-521, which writes no other variable that is emitted. -/
def finishPlane (sv : Services K) (junk : K) (deadwire : List K) (s : PlaneState K) :
    Calorimetry K :=
  if s.fnsps = 0 then
    { KineticEnergy := sv.kBogusD, dEdx := [], dQdx := [], ResidualRange := [],
      DeadWireResR := [], Range := sv.kBogusD, TrkPitch := s.fpitch, XYZ := [],
      planeID := s.planeID, PIDA := 0 }
  else
    let goingDS := resolveDirection sv junk s
    let fResRng := fillResRng junk goingDS s.spdelta s.fnsps
    let p := pointLoop sv junk s fResRng s.fnsps 0
      { vresRange := [], vdEdx := [], vdQdx := [], vXYZ := [], Ai := -1, nPIDA := 0, PIDA := 0 }
    let PIDA := if p.nPIDA > 0 then p.PIDA / (p.nPIDA : K) else -1
    { KineticEnergy := s.Kin_En, dEdx := p.vdEdx, dQdx := p.vdQdx,
      ResidualRange := p.vresRange, DeadWireResR := deadwire, Range := s.Trk_Length,
      TrkPitch := s.fpitch, XYZ := p.vXYZ, planeID := s.planeID, PIDA := PIDA }

/-- The state the hit loop leaves for the hits of a plane. -/
def planeState (sv : Services K) (fTrkPitch T0 : K) (wire : Nat) (time stime etime : K)
    (hits : List (Hit K)) : PlaneState K :=
  hitLoop sv fTrkPitch T0 (initState wire time stime etime) hits

/-- The body of the plane loop for one (track, plane): the hit loop over the
hits of the plane, then `finishPlane`. -/
def producePlane (sv : Services K) (junk : K) (fTrkPitch T0 : K) (wire : Nat)
    (time stime etime : K) (deadwire : List K) (hits : List (Hit K)) : Calorimetry K :=
  finishPlane sv junk deadwire (planeState sv fTrkPitch T0 wire time stime etime hits)

/-! ### `GetPitch` -/

/-- The external calls made by `GetPitch` and by the loop of lines 281-300 that
collects the track points: the geometry and detector-properties services and
the ROOT fit.  `Fit deg vs v` stands for
`TGraph(np, vs, v).Fit("pol<deg>")` followed by `Eval(0)` and `GetParameter(1)`
of the fitted function; it is `none` when that sequence throws. -/
structure PitchServices (K : Type) where
  wire_pitch : K
  WirePitch : Nat → Nat → Nat → K
  sinAngleToVert : Nat → Nat → Nat → K
  cosAngleToVert : Nat → Nat → Nat → K
  ConvertTicksToX : K → Nat → Nat → Nat → K
  Fit : Nat → List K → List K → Option (K × K)

/-- The vectors `trkx`, `trky`, `trkz`, `trkw`, `trkx0` of lines 276-280. -/
structure TrackPoints (K : Type) where
  trkx : List K
  trky : List K
  trkz : List K
  trkw : List K
  trkx0 : List K

/-- A hit of the plane together with the space points `fmspts.at(...)` associated
with it. -/
structure PlaneHit (K : Type) where
  hit : Hit K
  sptv : List (TVector3 K)

/-- The inner loop of lines 284-299 over the space points of one hit. -/
def pushSpacePoints (ps : PitchServices K) (TickT0 : K) (hit : Hit K) :
    List (TVector3 K) → TrackPoints K → TrackPoints K
  | [], tp => tp
  | sp :: rest, tp =>
      let t := hit.PeakTime - TickT0
      let x := ps.ConvertTicksToX t hit.Plane hit.TPC hit.Cryostat
      let w : K := (hit.Wire : K)
      let tp :=
        if TickT0 ≠ 0 then
          { tp with trkx := tp.trkx ++
              [sp.x - ps.ConvertTicksToX TickT0 hit.Plane hit.TPC hit.Cryostat] }
        else { tp with trkx := tp.trkx ++ [sp.x] }
      let tp := { tp with trky := tp.trky ++ [sp.y], trkz := tp.trkz ++ [sp.z],
                          trkw := tp.trkw ++ [w], trkx0 := tp.trkx0 ++ [x] }
      pushSpacePoints ps TickT0 hit rest tp

/-- The loop of lines 281-300 over the hits of the plane. -/
def collectTrackPoints (ps : PitchServices K) (TickT0 : K) :
    List (PlaneHit K) → TrackPoints K → TrackPoints K
  | [], tp => tp
  | ph :: rest, tp =>
      collectTrackPoints ps TickT0 rest (pushSpacePoints ps TickT0 ph.hit ph.sptv tp)

/-- The call `std::map<double,size_t>::insert`: the entries stay ordered by key, and
an entry whose key is already present is not inserted. -/
def sptmapInsert (distance : K) (i : Nat) : List (K × Nat) → List (K × Nat)
  | [] => [(distance, i)]
  | (d, j) :: rest =>
      if distance < d then (distance, i) :: (d, j) :: rest
      else if distance = d then (d, j) :: rest
      else (d, j) :: sptmapInsert distance i rest

/-- The read `sptsignmap[i]` of the `std::map<size_t,int>`. -/
def sptsignmapAt (sptsignmap : List (Nat × Int)) (i : Nat) : Int :=
  match sptsignmap.find? (fun e => e.1 == i) with
  | some e => e.2
  | none => 0

/-- Lines 565-566: the distance of the track point `i` from the hit at wire `w0`
and drift coordinate `x0`. -/
def distanceTo (sqrt : K → K) (ps : PitchServices K) (junk : K) (tp : TrackPoints K)
    (w0 x0 : K) (i : Nat) : K :=
  let distance := ((vecRead junk tp.trkw i - w0) * ps.wire_pitch) ^ 2
    + (vecRead junk tp.trkx0 i - x0) ^ 2
  if distance > 0 then sqrt distance else distance

/-- Lines 569-570: the sign stored in `sptsignmap` for the track point `i`. -/
def signTo (junk : K) (tp : TrackPoints K) (w0 : K) (i : Nat) : Int :=
  if w0 - vecRead junk tp.trkw i > 0 then 1 else -1

/-- The loop of lines 564-571 with `todo = trkx.size() - i` passes left.  The keys
of `sptsignmap` are inserted in increasing order, each once. -/
def fillMaps (sqrt : K → K) (ps : PitchServices K) (junk : K) (tp : TrackPoints K) (w0 x0 : K) :
    Nat → Nat → List (K × Nat) → List (Nat × Int) → List (K × Nat) × List (Nat × Int)
  | 0, _, sptmap, sptsignmap => (sptmap, sptsignmap)
  | todo + 1, i, sptmap, sptsignmap =>
      let distance := distanceTo sqrt ps junk tp w0 x0 i
      let sptmap := sptmapInsert distance i sptmap
      let sptsignmap := sptsignmap ++ [(i, signTo junk tp w0 i)]
      fillMaps sqrt ps junk tp w0 x0 todo (i + 1) sptmap sptsignmap

/-- The variables written by the loop of lines 582-611. -/
structure NearPoints (K : Type) where
  vx : List K
  vy : List K
  vz : List K
  vs : List K
  np : Nat

/-- The loop of lines 582-611 over `sptmap` in key order; `none` is the early
return of lines 592-598 (hit not on track). -/
def nearLoop (junk : K) (tp : TrackPoints K) (sptsignmap : List (Nat × Int)) :
    List (K × Nat) → NearPoints K → Option (NearPoints K)
  | [], n => some n
  | (first, second) :: rest, n =>
      let distancesign : K := ((sptsignmapAt sptsignmap second : Int) : K)
      if n.np = 0 ∧ first > 30 then none
      else if n.np < 5 then
        nearLoop junk tp sptsignmap rest
          { vx := n.vx ++ [vecRead junk tp.trkx second],
            vy := n.vy ++ [vecRead junk tp.trky second],
            vz := n.vz ++ [vecRead junk tp.trkz second],
            vs := n.vs ++ [first * distancesign],
            np := n.np + 1 }
      else some n

/-- One of the three fits of lines 615-675: the coordinate at distance 0 and the
slope; when the fit throws, the coordinate of the first point and the slope
left at 0. -/
def fitCoordinate (ps : PitchServices K) (junk : K) (np : Nat) (vs v : List K) : K × K :=
  match ps.Fit (if np > 2 then 2 else 1) vs v with
  | some (value, slope) => (value, slope)
  | none => (vecRead junk v 0, 0)

/-- Lines 553-611 of `GetPitch`: the distances to the track points, and the
nearest points taken from them; `none` is the early return of lines 592-598. -/
def selectNearest (sqrt : K → K) (ps : PitchServices K) (junk : K) (tp : TrackPoints K)
    (TickT0 : K) (hit : Hit K) : Option (NearPoints K) :=
  let t0 := hit.PeakTime - TickT0
  let x0 := ps.ConvertTicksToX t0 hit.Plane hit.TPC hit.Cryostat
  let w0 : K := (hit.Wire : K)
  let maps := fillMaps sqrt ps junk tp w0 x0 tp.trkx.length 0 [] []
  nearLoop junk tp maps.2 maps.1 { vx := [], vy := [], vz := [], vs := [], np := 0 }

/-- Lines 689-701 of `GetPitch`: the pitch from the slopes `kx`, `ky`, `kz`. -/
def pitchFromSlopes (sqrt : K → K) (ps : PitchServices K) (hit : Hit K) (kx ky kz : K) : K :=
  if kx * kx + ky * ky + kz * kz ≠ 0 then
    let tot := sqrt (kx * kx + ky * ky + kz * kz)
    let ky := ky / tot
    let kz := kz / tot
    let wirePitch := ps.WirePitch hit.Plane hit.TPC hit.Cryostat
    let cosgamma := |ps.sinAngleToVert hit.Plane hit.TPC hit.Cryostat * ky
      + ps.cosAngleToVert hit.Plane hit.TPC hit.Cryostat * kz|
    if cosgamma > 0 then wirePitch / cosgamma else -1
  else -1

/-- The function `calo::Calorimetry::GetPitch` (lines 543-703). -/
def GetPitch (sqrt : K → K) (ps : PitchServices K) (junk : K) (tp : TrackPoints K) (TickT0 : K)
    (hit : Hit K) : PitchResult K :=
  match selectNearest sqrt ps junk tp TickT0 hit with
  | none => { xyz3d := ⟨-1000, -1000, -1000⟩, pitch := -1 }
  | some n =>
    if n.np ≥ 2 then
      let fx := fitCoordinate ps junk n.np n.vs n.vx
      let fy := fitCoordinate ps junk n.np n.vs n.vy
      let fz := fitCoordinate ps junk n.np n.vs n.vz
      { xyz3d := ⟨fx.1, fy.1, fz.1⟩,
        pitch := pitchFromSlopes sqrt ps hit fx.2 fy.2 fz.2 }
    else if n.np ≠ 0 then
      { xyz3d := ⟨vecRead junk n.vx 0, vecRead junk n.vy 0, vecRead junk n.vz 0⟩,
        pitch := pitchFromSlopes sqrt ps hit 0 0 0 }
    else { xyz3d := ⟨-1000, -1000, -1000⟩, pitch := -1 }

/-- The track points that lines 276-300 collect from the hits of a plane. -/
def trackPointsOf (ps : PitchServices K) (TickT0 : K) (hits : List (PlaneHit K)) :
    TrackPoints K :=
  collectTrackPoints ps TickT0 hits
    { trkx := [], trky := [], trkz := [], trkw := [], trkx0 := [] }

/-- The distance of the candidate track point `i` from a hit, as `GetPitch`
computes it at lines 560-566. -/
def candidateDistance (sqrt : K → K) (ps : PitchServices K) (junk : K) (tp : TrackPoints K)
    (TickT0 : K) (hit : Hit K) (i : Nat) : K :=
  distanceTo sqrt ps junk tp (hit.Wire : K)
    (ps.ConvertTicksToX (hit.PeakTime - TickT0) hit.Plane hit.TPC hit.Cryostat) i

/-- The services of a plane whose `GetPitch` entry is the function `GetPitch`
called with the track points that lines 276-300 collect from the hits of the
plane and their space points. -/
def servicesOfPlane (sv : Services K) (ps : PitchServices K) (junk TickT0 : K)
    (hits : List (PlaneHit K)) : Services K :=
  { sv with GetPitch := GetPitch sv.sqrt ps junk (trackPointsOf ps TickT0 hits) TickT0 }

/-- The body of the plane loop for the hits of a plane with their space points:
lines 276-300 collect the track points, the hit loop calls `GetPitch` with them,
and the plane is finished as in `producePlane`. -/
def producePlaneOfHits (sv : Services K) (ps : PitchServices K) (junk : K)
    (fTrkPitch T0 TickT0 : K) (wire : Nat) (time stime etime : K) (deadwire : List K)
    (hits : List (PlaneHit K)) : Calorimetry K :=
  producePlane (servicesOfPlane sv ps junk TickT0 hits) junk fTrkPitch T0
    wire time stime etime deadwire (hits.map (fun ph => ph.hit))

/-! ### The dead-wire scan -/

/-- The external calls of the dead-wire scan (lines 470-521): the geometry and the
channel status provider, and the two library calls on an `unsigned int`:
`stdAbs x` is the value of `std::abs(x)` at line 506, which is compared with the
`int dwire`, and `absInt x` is the value that `dwire = abs(x)` stores at line 508. -/
structure ChannelServices where
  PlaneWireToChannel : Nat → Nat → Nat → Nat → Nat
  IsBad : Nat → Bool
  stdAbs : Nat → Int
  absInt : Nat → Int

/-- The difference `a - b` of two `unsigned int`. -/
def u32sub (a b : Nat) : Nat :=
  (a + 2 ^ 32 - b % 2 ^ 32) % 2 ^ 32

/-- The variables of the scan over the hits for one dead wire (lines 478-482). -/
structure ScanState (K : Type) where
  closestwire : Nat
  endwire : Nat
  dwire : Int
  mindis : K
  goodresrange : K

/-- The values of lines 478-482 before the scan over the hits. -/
def scanInit : ScanState K :=
  { closestwire := 0, endwire := 0, dwire := 100000, mindis := 100000, goodresrange := 0 }

/-- One pass through the loop of lines 484-511 for the dead wire `iw`.  `wire` is
the variable of that name, which the hit loop set last at line 315. -/
def scanStep (cs : ChannelServices) (sqrt : K → K) (larEnd : TVector3 K) (wire iw : Nat)
    (st : ScanState K) (ph : PlaneHit K) : ScanState K :=
  if cs.IsBad ph.hit.Channel then st
  else
    match ph.sptv with
    | [] => st
    | sp :: _ =>
      let dis1 := (larEnd.x - sp.x) * (larEnd.x - sp.x) + (larEnd.y - sp.y) * (larEnd.y - sp.y)
        + (larEnd.z - sp.z) * (larEnd.z - sp.z)
      let dis1 := if dis1 ≠ 0 then sqrt dis1 else dis1
      let st := if dis1 < st.mindis then { st with endwire := ph.hit.Wire, mindis := dis1 } else st
      if ((cs.stdAbs (u32sub wire iw) : Int) < st.dwire) then
        { st with closestwire := ph.hit.Wire, dwire := cs.absInt (u32sub ph.hit.Wire iw),
                  goodresrange := dis1 }
      else st

/-- The loop of lines 484-511 over the hits of the plane for the dead wire `iw`. -/
def scanHits (cs : ChannelServices) (sqrt : K → K) (larEnd : TVector3 K) (wire iw : Nat)
    (hits : List (PlaneHit K)) : ScanState K :=
  hits.foldl (scanStep cs sqrt larEnd wire iw) scanInit

/-- Lines 512-519: what the scan for the dead wire `iw` appends to `deadwire`. -/
def deadWireEntry (fTrkPitch : K) (iw : Nat) (st : ScanState K) : List K :=
  if st.closestwire ≠ 0 then
    if iw < st.endwire then
      [st.goodresrange + (((st.closestwire : Int) - (iw : Int) : Int) : K) * fTrkPitch]
    else
      [st.goodresrange + (((iw : Int) - (st.closestwire : Int) : Int) : K) * fTrkPitch]
  else []

/-- The loop of lines 470-521 over the wires `iw = wire0, ..., wire1`, with
`todo = wire1 + 1 - iw` passes left.  `first` is the hit `allHits[hits[ipl][0]]`. -/
def deadWireLoop (cs : ChannelServices) (sqrt : K → K) (fTrkPitch : K) (larEnd : TVector3 K)
    (wire : Nat) (first : Hit K) (hits : List (PlaneHit K)) :
    Nat → Nat → List K → List K
  | 0, _, deadwire => deadwire
  | todo + 1, iw, deadwire =>
      let channel := cs.PlaneWireToChannel first.Plane iw first.TPC first.Cryostat
      let deadwire :=
        if cs.IsBad channel then
          deadwire ++ deadWireEntry fTrkPitch iw (scanHits cs sqrt larEnd wire iw hits)
        else deadwire
      deadWireLoop cs sqrt fTrkPitch larEnd wire first hits todo (iw + 1) deadwire

/-- What the pass for the wire `iw` of the loop of lines 470-521 appends. -/
def deadWireAt (cs : ChannelServices) (sqrt : K → K) (fTrkPitch : K) (larEnd : TVector3 K)
    (wire : Nat) (first : Hit K) (hits : List (PlaneHit K)) (iw : Nat) : List K :=
  if cs.IsBad (cs.PlaneWireToChannel first.Plane iw first.TPC first.Cryostat) then
    deadWireEntry fTrkPitch iw (scanHits cs sqrt larEnd wire iw hits)
  else []

/-- The dead-wire scan of lines 470-521 after the hit loop left the state `s`.  It
is reached only with `fnsps > 0`, when the plane has a first hit. -/
def deadWireScan (cs : ChannelServices) (sqrt : K → K) (fTrkPitch : K) (larEnd : TVector3 K)
    (s : PlaneState K) (hits : List (PlaneHit K)) : List K :=
  match hits with
  | [] => []
  | first :: _ =>
      deadWireLoop cs sqrt fTrkPitch larEnd s.wire first.hit hits (s.wire1 + 1 - s.wire0) s.wire0 []

/-- The body of the plane loop from line 276 on, for the hits of a plane with
their space points and any services `sv`: the hit loop, the dead-wire scan, and
the emitted record. -/
def producePlaneFull (sv : Services K) (cs : ChannelServices) (junk : K)
    (fTrkPitch T0 : K) (wire : Nat) (time stime etime : K) (larEnd : TVector3 K)
    (hits : List (PlaneHit K)) : Calorimetry K :=
  producePlane sv junk fTrkPitch T0 wire time stime etime
    (deadWireScan cs sv.sqrt fTrkPitch larEnd
      (planeState sv fTrkPitch T0 wire time stime etime (hits.map (fun ph => ph.hit))) hits)
    (hits.map (fun ph => ph.hit))

/-! ### The loops over the tracks and the planes -/

/-- What `produce` reads of a track: its trajectory points, the end of its extent,
the hits associated with it, each with its space points, and the time of its
first `anab::T0` (`0` when it has none). -/
structure Track (K : Type) where
  LocationAtPoint : List (TVector3 K)
  larEnd : TVector3 K
  allHits : List (PlaneHit K)
  T0 : K

/-- The external calls of the loops over the tracks and the planes.
`FindTPCAtPosition pos` is the flag `isValid` of the answer, and
`TrackPitchInView trk ipl itp` is `none` when the call throws `cet::exception`. -/
structure EventServices (K : Type) where
  nplanes : Nat
  SamplingRate : K
  FindTPCAtPosition : TVector3 K → Bool
  TrackPitchInView : Track K → Nat → Nat → Option K

/-- The loop of lines 253-270 over the trajectory points from `itp` on: the track
pitch `fTrkPitch` of the plane `ipl`. -/
def trackPitchLoop (es : EventServices K) (trk : Track K) (ipl : Nat) :
    List (TVector3 K) → Nat → K
  | [], _ => 0
  | pos :: rest, itp =>
      if es.FindTPCAtPosition pos then
        match es.TrackPitchInView trk ipl itp with
        | some pitch => pitch
        | none => 0
      else trackPitchLoop es trk ipl rest (itp + 1)

/-- The variables `wire`, `time`, `stime`, `etime` of lines 186-192, which are
declared once per track. -/
structure HitScalars (K : Type) where
  wire : Nat
  time : K
  stime : K
  etime : K

/-- Lines 204-209: the hits of the track on the plane `ipl`, in the order of
`allHits`. -/
def hitsOnPlane (trk : Track K) (ipl : Nat) : List (PlaneHit K) :=
  trk.allHits.filter (fun ph => ph.hit.Plane == ipl)

/-- The state the hit loop leaves for the plane `ipl` of a track. -/
def planeStateOfTrack (sv : Services K) (ps : PitchServices K) (es : EventServices K) (junk : K)
    (trk : Track K) (ipl : Nat) (sc : HitScalars K) : PlaneState K :=
  planeState (servicesOfPlane sv ps junk (trk.T0 / es.SamplingRate) (hitsOnPlane trk ipl))
    (trackPitchLoop es trk ipl trk.LocationAtPoint 0) trk.T0 sc.wire sc.time sc.stime sc.etime
    ((hitsOnPlane trk ipl).map (fun ph => ph.hit))

/-- The body of the plane loop (lines 211-534) for the plane `ipl` of a track: the
record pushed onto `calorimetrycol`. -/
def planeOfTrack (sv : Services K) (ps : PitchServices K) (cs : ChannelServices)
    (es : EventServices K) (junk : K) (trk : Track K) (ipl : Nat) (sc : HitScalars K) :
    Calorimetry K :=
  producePlaneFull (servicesOfPlane sv ps junk (trk.T0 / es.SamplingRate) (hitsOnPlane trk ipl))
    cs junk (trackPitchLoop es trk ipl trk.LocationAtPoint 0) trk.T0
    sc.wire sc.time sc.stime sc.etime trk.larEnd (hitsOnPlane trk ipl)

/-- The plane loop of a track (line 211), with `todo = nplanes - ipl` passes left:
the records pushed, in order.  The scalars of lines 186-192 pass from one plane
to the next. -/
def planeLoop (sv : Services K) (ps : PitchServices K) (cs : ChannelServices)
    (es : EventServices K) (junk : K) (trk : Track K) :
    Nat → Nat → HitScalars K → List (Calorimetry K)
  | 0, _, _ => []
  | todo + 1, ipl, sc =>
      let s := planeStateOfTrack sv ps es junk trk ipl sc
      planeOfTrack sv ps cs es junk trk ipl sc
        :: planeLoop sv ps cs es junk trk todo (ipl + 1)
            { wire := s.wire, time := s.time, stime := s.stime, etime := s.etime }

/-- The track loop (line 174) from the track `trkIter` on: the records pushed onto
`calorimetrycol`, each with the index of the track that `util::CreateAssn`
associates with it.  `wire` starts at `0` for each track; `time`, `stime` and
`etime` start with whatever the memory holds. -/
def trackLoop (sv : Services K) (ps : PitchServices K) (cs : ChannelServices)
    (es : EventServices K) (junk : K) : List (Track K) → Nat → List (Nat × Calorimetry K)
  | [], _ => []
  | trk :: rest, trkIter =>
      (planeLoop sv ps cs es junk trk es.nplanes 0
          { wire := 0, time := junk, stime := junk, etime := junk }).map
        (fun r => (trkIter, r))
        ++ trackLoop sv ps cs es junk rest (trkIter + 1)

/-- The function `calo::Calorimetry::produce`: the collection put into the event,
each record with the index of its track. -/
def produce (sv : Services K) (ps : PitchServices K) (cs : ChannelServices)
    (es : EventServices K) (junk : K) (tracklist : List (Track K)) :
    List (Nat × Calorimetry K) :=
  trackLoop sv ps cs es junk tracklist 0

/-! ### Vocabulary for the statements

The quantities the hit loop computes for a single hit, named so that the
theorems can speak about "the accepted hits", "the raw charge" and "the pitch
used". -/

/-- Lines 320-321: the raw charge of a hit, `PeakAmplitude()`, or
`Integral()` when `fUseArea` is set. -/
def chargeOf (sv : Services K) (hit : Hit K) : K :=
  if sv.fUseArea then hit.Integral else hit.PeakAmplitude

/-- Line 329: the pitch used for a hit, the one of `GetPitch`, or `fTrkPitch`
when that one is `<= 0`. -/
def usedPitch (sv : Services K) (fTrkPitch : K) (hit : Hit K) : K :=
  if (sv.GetPitch hit).pitch ≤ 0 then fTrkPitch else (sv.GetPitch hit).pitch

/-- Lines 328 and 330: the hit passes both `continue` statements. -/
def accepted (sv : Services K) (fTrkPitch : K) (hit : Hit K) : Bool :=
  !decide ((sv.GetPitch hit).xyz3d.z < -100) && !decide (usedPitch sv fTrkPitch hit = 0)

/-- Lines 353-355: the calibrated energy loss of a hit at the pitch used. -/
def dEdxOf (sv : Services K) (fTrkPitch T0 : K) (hit : Hit K) : K :=
  if sv.fUseArea then sv.dEdx_AREA hit (usedPitch sv fTrkPitch hit) T0
  else sv.dEdx_AMP hit (usedPitch sv fTrkPitch hit) T0

/-- Lines 338-341: the separation `sqrt(dx*dx + dy*dy + dz*dz)` of two points. -/
def dist3D (sv : Services K) (p q : TVector3 K) : K :=
  sv.sqrt ((q.x - p.x) * (q.x - p.x) + (q.y - p.y) * (q.y - p.y) + (q.z - p.z) * (q.z - p.z))

/-- The accepted hits of a plane, in the order of the hit loop. -/
def acceptedHits (sv : Services K) (fTrkPitch : K) (hits : List (Hit K)) : List (Hit K) :=
  hits.filter (accepted sv fTrkPitch)

/-- The separations pushed onto `spdelta` for the points after `prev`. -/
def deltasFrom (sv : Services K) : TVector3 K → List (TVector3 K) → List K
  | _, [] => []
  | prev, p :: ps => dist3D sv prev p :: deltasFrom sv p ps

/-- The content of `spdelta` for a sequence of accepted points: `0` for the
first point, then the separation of each point from the one before it. -/
def deltas (sv : Services K) : List (TVector3 K) → List K
  | [] => []
  | p :: ps => 0 :: deltasFrom sv p ps

/-- The relation the hit loop keeps between the working buffers `s` and the
hits `acc` accepted so far. -/
structure Holds (sv : Services K) (fTrkPitch T0 : K) (s : PlaneState K) (acc : List (Hit K)) :
    Prop where
  fnsps : s.fnsps = acc.length
  fpitch : s.fpitch = acc.map (usedPitch sv fTrkPitch)
  fMIPs : s.fMIPs = acc.map (chargeOf sv)
  fdQdx : s.fdQdx = acc.map (fun h => chargeOf sv h / usedPitch sv fTrkPitch h)
  fdEdx : s.fdEdx = acc.map (dEdxOf sv fTrkPitch T0)
  fXYZ : s.fXYZ = acc.map (fun h => (sv.GetPitch h).xyz3d)
  ChargeBeg : s.ChargeBeg = acc.map (chargeOf sv)
  ChargeEnd : s.ChargeEnd = (acc.map (chargeOf sv)).reverse
  spdelta : s.spdelta = deltas sv (acc.map (fun h => (sv.GetPitch h).xyz3d))
  lastPos : ∀ p, (acc.map (fun h => (sv.GetPitch h).xyz3d)).getLast? = some p →
    p = ⟨s.xx, s.yy, s.zz⟩
  Trk_Length : s.Trk_Length = s.spdelta.sum
  Kin_En : s.Kin_En = (acc.map (fun h => dEdxOf sv fTrkPitch T0 h * usedPitch sv fTrkPitch h)).sum

/-- The term `Ai` of line 426 for the point `i`. -/
def termAi (sv : Services K) (dEdx R : List K) (junk : K) (i : Nat) : K :=
  vecRead junk dEdx i * sv.pow (vecRead junk R i) 0.42

/-! ### Concrete planes

Inputs over the rationals on which the statements are evaluated. -/

/-- The largest `r` up to the bound with `r * r ≤ n`. -/
def sqrtBelow (n : Nat) : Nat → Nat
  | 0 => 0
  | r + 1 => if (r + 1) * (r + 1) ≤ n then r + 1 else sqrtBelow n r

/-- A square root on the rationals, exact on the squares of rationals. -/
def sqrtQ (q : ℚ) : ℚ :=
  (sqrtBelow q.num.toNat q.num.toNat : ℚ) / (sqrtBelow q.den q.den : ℚ)

/-- The services of the test planes: `GetPitch` puts a hit at
`(PeakTime, 0, Wire)` and reports the pitch `gp`; the calibration returns the
charge per pitch; `pow` stands for any implementation of the library call. -/
def testServices (useArea flip : Bool) (gp : ℚ) : Services ℚ :=
  { fUseArea := useArea, fFlipTrack_dQdx := flip, sqrt := sqrtQ, pow := fun x _ => x,
    GetPitch := fun h => ⟨⟨h.PeakTime, 0, (h.Wire : ℚ)⟩, gp⟩,
    dEdx_AREA := fun h p _ => h.Integral / p,
    dEdx_AMP := fun h p _ => h.PeakAmplitude / p,
    kBogusD := -999 }

/-- A hit on wire `wire` (channel `wire`) with peak amplitude `amp` and
integral `2 * amp`. -/
def testHit (wire : Nat) (amp : ℚ) : Hit ℚ :=
  { Channel := wire, Cryostat := 0, TPC := 0, Plane := 0, Wire := wire, PeakTime := 0,
    PeakTimeMinusRMS := 0, PeakTimePlusRMS := 0, PeakAmplitude := amp, Integral := 2 * amp }

/-- The straight line through two points `(s0, v0)`, `(s1, v1)`: its value at `0`
and its slope; no fit for any other input. -/
def lineFit : List ℚ → List ℚ → Option (ℚ × ℚ)
  | [s0, s1], [v0, v1] =>
      if s0 = s1 then none
      else some (v0 - (v1 - v0) / (s1 - s0) * s0, (v1 - v0) / (s1 - s0))
  | _, _ => none

/-- The geometry of the test planes: wire pitch 0.3, wires along the vertical,
drift coordinate equal to the tick.  The linear fit of two points is the line
through them; the quadratic fit is not reached on the planes used below. -/
def testPitchServices : PitchServices ℚ :=
  { wire_pitch := 3 / 10, WirePitch := fun _ _ _ => 3 / 10,
    sinAngleToVert := fun _ _ _ => 0, cosAngleToVert := fun _ _ _ => 1,
    ConvertTicksToX := fun t _ _ _ => t,
    Fit := fun deg vs v => if deg = 1 then lineFit vs v else none }

/-- The channel services of the test planes: the channel of a wire is its number,
the channels in `bad` are bad, `std::abs` of an `unsigned int` is its value, and
`abs` of an `unsigned int` is the absolute value of the `int` with the same bits. -/
def testChannelServices (bad : List Nat) : ChannelServices :=
  { PlaneWireToChannel := fun _ wire _ _ => wire,
    IsBad := fun channel => bad.contains channel,
    stdAbs := fun x => (x : Int),
    absInt := fun x => if x < 2 ^ 31 then (x : Int) else (2 ^ 32 : Int) - (x : Int) }

/-- A hit on wire `wire` at the tick `tick`, with amplitude 10. -/
def testHitAt (wire : Nat) (tick : ℚ) : Hit ℚ :=
  { Channel := wire, Cryostat := 0, TPC := 0, Plane := 0, Wire := wire, PeakTime := tick,
    PeakTimeMinusRMS := tick, PeakTimePlusRMS := tick, PeakAmplitude := 10, Integral := 20 }

/-- The event services of the test tracks: one plane, sampling rate 1, every
position in a valid TPC, and track pitch 0.3 at every trajectory point. -/
def testEventServices : EventServices ℚ :=
  { nplanes := 1, SamplingRate := 1, FindTPCAtPosition := fun _ => true,
    TrackPitchInView := fun _ _ _ => some (3 / 10) }

/-- A track with one trajectory point, the end `larEnd`, the hits `hits` and no
`anab::T0`. -/
def testTrack (larEnd : TVector3 ℚ) (hits : List (PlaneHit ℚ)) : Track ℚ :=
  { LocationAtPoint := [⟨0, 0, 0⟩], larEnd := larEnd, allHits := hits, T0 := 0 }

/-- A plane with one hit that has no space point. -/
def noSpacePointPlane : List (PlaneHit ℚ) :=
  [{ hit := testHit 5 10, sptv := [] }]

/-- A plane with two hits on wire 5: one at the tick 0 with the space point
`(0, 0, 5)`, one at the tick 100 without a space point. -/
def farPlane : List (PlaneHit ℚ) :=
  [{ hit := testHitAt 5 0, sptv := [⟨0, 0, 5⟩] },
   { hit := testHitAt 5 100, sptv := [] }]

/-- A track at constant drift: hits on the wires 4, 5, 6 at the same tick; the
hits on the wires 4 and 6 have the space points `(0, 0, 4)` and `(0, 0, 6)`, the
hit on wire 5 has none. -/
def symmetricPlane : List (PlaneHit ℚ) :=
  [{ hit := testHitAt 4 0, sptv := [⟨0, 0, 4⟩] },
   { hit := testHitAt 5 0, sptv := [] },
   { hit := testHitAt 6 0, sptv := [⟨0, 0, 6⟩] }]

/-- A track along the drift direction: three hits on wire 5, at the ticks 0, 10
and 4; the first two have the space points `(0, 0, 5)` and `(10, 0, 5)`, the
third has none. -/
def driftPlane : List (PlaneHit ℚ) :=
  [{ hit := testHitAt 5 0, sptv := [⟨0, 0, 5⟩] },
   { hit := testHitAt 5 10, sptv := [⟨10, 0, 5⟩] },
   { hit := testHitAt 5 4, sptv := [] }]

/-- A plane scanned for dead wires: hits on the wires 9, 6, 4, 10 in this order,
with space points on the wires 9, 6 and 10. -/
def scanPlane : List (PlaneHit ℚ) :=
  [{ hit := testHit 9 10, sptv := [⟨0, 0, 9⟩] },
   { hit := testHit 6 10, sptv := [⟨0, 0, 6⟩] },
   { hit := testHit 4 10, sptv := [] },
   { hit := testHit 10 10, sptv := [⟨0, 0, 10⟩] }]

/-- A plane scanned for dead wires: hits on the wires 6, 4, 7 in this order, each
with a space point at `(0, 0, wire)`. -/
def gapPlane : List (PlaneHit ℚ) :=
  [{ hit := testHit 6 10, sptv := [⟨0, 0, 6⟩] },
   { hit := testHit 4 10, sptv := [⟨0, 0, 4⟩] },
   { hit := testHit 7 10, sptv := [⟨0, 0, 7⟩] }]

/-- A plane whose only hit with a space point, on wire 6, is on a bad channel;
the hit on wire 4 has no space point. -/
def badChannelPlane : List (PlaneHit ℚ) :=
  [{ hit := testHit 4 10, sptv := [] },
   { hit := testHit 6 10, sptv := [⟨0, 0, 6⟩] }]

/-- A plane with a single hit, on wire 5 with amplitude 10, whose only space
point is `(0, 0, 5)`. -/
def singleHitPlane : List (PlaneHit ℚ) :=
  [{ hit := testHit 5 10, sptv := [⟨0, 0, 5⟩] }]

/-- Scenario B of the specification: five hits on consecutive wires with the
charges 10, 12, 15, 20, 25. -/
def scenarioB : List (Hit ℚ) :=
  [testHit 1 10, testHit 2 12, testHit 3 15, testHit 4 20, testHit 5 25]

/-- A track with hits on two planes: on the wires 4 and 5 of plane 0 and, between
them in the order of the hits, on wire 7 of plane 1; each hit has the space point
`(0, 0, wire)`. -/
def twoPlaneTrack : Track ℚ :=
  testTrack ⟨0, 0, 5⟩
    [{ hit := testHit 4 10, sptv := [⟨0, 0, 4⟩] },
     { hit := { testHit 7 10 with Plane := 1 }, sptv := [⟨0, 0, 7⟩] },
     { hit := testHit 5 10, sptv := [⟨0, 0, 5⟩] }]

/-! ### Double precision

The lines 689-701 of `GetPitch` once more, with every arithmetic operation rounded
to the nearest binary64 number (ties to even), as the operations on `double` are
when no operation is fused and none is carried out in extended precision.  The
range of the exponent is not bounded: overflow, underflow and subnormal numbers
are not modelled. -/

end Model

end calo

/-! ## The module `TrajCluster`: the order of the hits and the conversion to clusters -/

namespace cluster

/-- The struct `HitLoc` (lines 99-105): `index` is the position of the entry in the
sort vector, `ctp` the encoded cryostat, TPC and plane, `tick` the start tick
(an `int`) and `localIndex` the local index of the hit (a `short`). -/
structure HitLoc where
  index : Nat
  ctp : Nat
  wire : Nat
  tick : Int
  localIndex : Int
deriving DecidableEq, Repr

/-- The function `cluster::SortHits` (lines 108-115). -/
def SortHits (h1 h2 : HitLoc) : Bool :=
  if h1.ctp ≠ h2.ctp then decide (h1.ctp < h2.ctp)
  else if h1.wire ≠ h2.wire then decide (h1.wire < h2.wire)
  else if h1.tick ≠ h2.tick then decide (h1.tick < h2.tick)
  else decide (h1.localIndex < h2.localIndex)

/-- The members of a `recob::Hit` of the input collection that the sorting step of
`TrajCluster::produce` reads. -/
structure InputHit where
  Cryostat : Nat
  TPC : Nat
  Plane : Nat
  Wire : Nat
  StartTick : Int
  LocalIndex : Int
deriving DecidableEq, Repr

/-- The library calls of the sorting step: `stdSort v` is the content of the vector
`v` after `std::sort(v.begin(), v.end(), SortHits)`, and `EncodeCTP` is
`tca::EncodeCTP` of the cryostat, TPC and plane of a wire. -/
structure SortServices where
  stdSort : List HitLoc → List HitLoc
  EncodeCTP : Nat → Nat → Nat → Nat

/-- What reads outside a vector find, for each of the three element types. -/
structure SortJunk where
  hit : InputHit
  loc : HitLoc
  idx : Nat

/-- A loop `for(unsigned short i = i0; i < n; ++i)` whose body maps the state `s` to
`(body i s).1` and leaves the loop by `break` when `(body i s).2` is set.  The
counter is incremented modulo `2^16`.  The loop is run for at most `fuel` passes
and tests of the condition; `none` means that it has not ended by then. -/
def loopU16 {σ : Type} (n : Nat) (body : Nat → σ → σ × Bool) : Nat → Nat → σ → Option σ
  | 0, _, _ => none
  | fuel + 1, i, s =>
      if i < n then
        if (body i s).2 then some (body i s).1
        else loopU16 n body fuel ((i + 1) % 65536) (body i s).1
      else some s

/-- The entry written to `sortVec[indx]` at lines 289-293. -/
def hitLocOf (sv : SortServices) (junk : SortJunk) (inputHits : List InputHit)
    (slhits : List Nat) (indx : Nat) : HitLoc :=
  let hit := calo.vecRead junk.hit inputHits (calo.vecRead junk.idx slhits indx)
  { index := indx, ctp := sv.EncodeCTP hit.Cryostat hit.TPC hit.Plane, wire := hit.Wire,
    tick := hit.StartTick, localIndex := hit.LocalIndex }

/-- The body of the loop of lines 283-294 on the state `(sortVec, badHit)`. -/
def fillBody (sv : SortServices) (junk : SortJunk) (nInputHits : Nat)
    (inputHits : List InputHit) (slhits : List Nat) (indx : Nat) (st : List HitLoc × Bool) :
    (List HitLoc × Bool) × Bool :=
  if calo.vecRead junk.idx slhits indx > calo.u32sub nInputHits 1 then ((st.1, true), true)
  else ((st.1.set indx (hitLocOf sv junk inputHits slhits indx), st.2), false)

/-- The body of the loop of line 303: `slhits[ii] = tmp[sortVec[ii].index]`. -/
def reorderBody (junk : SortJunk) (tmp : List Nat) (sortVec : List HitLoc) (ii : Nat)
    (slhits : List Nat) : List Nat × Bool :=
  (slhits.set ii (calo.vecRead junk.idx tmp (calo.vecRead junk.loc sortVec ii).index), false)

/-- The sorting step of `TrajCluster::produce` for one slice (lines 279-305), with
`fuel` passes allowed to each loop: `none` when a loop has not ended, otherwise
the flag `badHit` (the slice is then ignored) and the content of `slhits`. -/
def sortSlice (sv : SortServices) (junk : SortJunk) (nInputHits : Nat)
    (inputHits : List InputHit) (fuel : Nat) (slhits : List Nat) : Option (Bool × List Nat) :=
  match loopU16 slhits.length (fillBody sv junk nInputHits inputHits slhits) fuel 0
      (List.replicate slhits.length ⟨0, 0, 0, 0, 0⟩, false) with
  | none => none
  | some (sortVec, badHit) =>
      if badHit then some (true, slhits)
      else
        match loopU16 slhits.length (reorderBody junk slhits (sv.stdSort sortVec)) fuel 0
            slhits with
        | none => none
        | some slhits => some (false, slhits)

/-- The key `(ctp, wire, tick, localIndex)` of an entry, in the lexicographic
order of its four fields. -/
def sortKey (h : HitLoc) : Lex (ℕ × Lex (ℕ × Lex (ℤ × ℤ))) :=
  toLex (h.ctp, toLex (h.wire, toLex (h.tick, h.localIndex)))

/-- The key of a hit of the input collection: its encoded cryostat, TPC and plane,
its wire, its start tick and its local index. -/
def hitKey (sv : SortServices) (hit : InputHit) : Lex (ℕ × Lex (ℕ × Lex (ℤ × ℤ))) :=
  toLex (sv.EncodeCTP hit.Cryostat hit.TPC hit.Plane,
    toLex (hit.Wire, toLex (hit.StartTick, hit.LocalIndex)))

/-! ### The conversion of a trajectory to a cluster -/

/-- The members of the `recob::Hit` returned by `MergeTPHits` that are read. -/
structure OutHit (K : Type) where
  Channel : Nat
  Integral : K
  SummedADC : K
deriving DecidableEq, Repr

/-- The members of a trajectory point that are read: its charge, the indices of its
hits in the slice, and `UseHit i` for the value of `tp.UseHit[i]`. -/
structure TrajPoint (K : Type) where
  Chg : K
  Hits : List Nat
  UseHit : Nat → Bool

/-- The members of a trajectory that are read: the flag `AlgMod[tca::kKilled]` and
the trajectory points. -/
structure Trajectory (K : Type) where
  Killed : Bool
  Pts : List (TrajPoint K)

/-- The external calls of the conversion: `TrajClusterAlg::MergeTPHits`, the
constant `raw::InvalidChannelID`, and the answer of `util::CreateAssn` for the
range of hits `[first, last)`. -/
structure ClusterServices (K : Type) where
  MergeTPHits : List Nat → OutHit K
  InvalidChannelID : Nat
  CreateAssn : Nat → Nat → Bool

/-- The variables written while the points of one trajectory are converted. -/
structure TjState (K : Type) where
  hitCol : List (OutHit K)
  newIndex : List Nat
  sumChg : K
  sumADC : K
  badSlice : Bool
deriving DecidableEq, Repr

/-- The arguments `integral`, `summed ADC` and `n hits` of the cluster constructed
at lines 406-432. -/
structure ClusterRecord (K : Type) where
  integral : K
  summedADC : K
  nHits : Nat
deriving DecidableEq, Repr

/-- What the pass of the loop over the trajectories does for one trajectory: it
skips a killed trajectory, leaves the loop on a bad slice, throws when the
association fails, or appends a cluster associated with the hits
`[hitColBeginIndex, hitColEnd)` of the output collection. -/
inductive TjResult (K : Type) where
  | skipped : TjResult K
  | badSlice : List (OutHit K) → List Nat → TjResult K
  | threw : TjResult K
  | cluster : ClusterRecord K → Nat → Nat → List (OutHit K) → List Nat → TjResult K
deriving DecidableEq, Repr

/-- The body of the loop of lines 370-394 over the hits of a trajectory point, on
the state `(tpHits, newIndex, badSlice)`.  `slHits` holds the `allHitsIndex` of
each hit of the slice, and `hitColSize` is `hitCol.size()`.  The text written to
`std::cout` at lines 384-392 is not modelled. -/
def useHitsBody {K : Type} (junk : Nat) (slHits : List Nat) (nInputHits : Nat) (tp : TrajPoint K)
    (hitColSize : Nat) (ii : Nat) (st : List Nat × List Nat × Bool) :
    (List Nat × List Nat × Bool) × Bool :=
  if !tp.UseHit ii then (st, false)
  else if calo.vecRead junk tp.Hits ii > (slHits.length + 2 ^ 64 - 1) % 2 ^ 64 then
    ((st.1, st.2.1, true), true)
  else
    let allHitsIndex := calo.vecRead junk slHits (calo.vecRead junk tp.Hits ii)
    if allHitsIndex > calo.u32sub nInputHits 1 then ((st.1, st.2.1, true), true)
    else ((st.1 ++ [allHitsIndex], st.2.1.set allHitsIndex (hitColSize % 2 ^ 32), st.2.2), false)

/-- The loop of lines 366-406 over the points of a trajectory. -/
def pointsLoop {K : Type} [LinearOrderedField K] (sv : ClusterServices K) (junk : Nat)
    (slHits : List Nat) (nInputHits fuel : Nat) :
    List (TrajPoint K) → TjState K → Option (TjState K)
  | [], s => some s
  | tp :: rest, s =>
      if tp.Chg ≤ 0 then pointsLoop sv junk slHits nInputHits fuel rest s
      else
        match loopU16 tp.Hits.length
            (useHitsBody junk slHits nInputHits tp s.hitCol.length) fuel 0
            ([], s.newIndex, false) with
        | none => none
        | some (tpHits, newIndex, badSlice) =>
            if badSlice then some { s with newIndex := newIndex, badSlice := true }
            else
              let newHit := sv.MergeTPHits tpHits
              if newHit.Channel = sv.InvalidChannelID then
                some { s with newIndex := newIndex, badSlice := true }
              else
                pointsLoop sv junk slHits nInputHits fuel rest
                  { s with newIndex := newIndex, sumChg := s.sumChg + newHit.Integral,
                           sumADC := s.sumADC + newHit.SummedADC,
                           hitCol := s.hitCol ++ [newHit] }

/-- The pass of the loop of lines 361-437 for the trajectory `tj`, up to the call
of `util::CreateAssn`, with the output hit collection `hitCol` and the vector
`newIndex` as they are at the start of the pass; `none` when a loop over the hits
of a point has not ended with the fuel given. -/
def convertTj {K : Type} [LinearOrderedField K] (sv : ClusterServices K) (junk : Nat)
    (slHits : List Nat) (nInputHits fuel : Nat) (hitCol : List (OutHit K))
    (newIndex : List Nat) (tj : Trajectory K) : Option (TjResult K) :=
  if tj.Killed then some TjResult.skipped
  else
    let hitColBeginIndex := hitCol.length % 2 ^ 32
    match pointsLoop sv junk slHits nInputHits fuel tj.Pts
        { hitCol := hitCol, newIndex := newIndex, sumChg := 0, sumADC := 0,
          badSlice := false } with
    | none => none
    | some s =>
        if s.badSlice then some (TjResult.badSlice s.hitCol s.newIndex)
        else
          let nclhits := (s.hitCol.length + 2 ^ 64 - hitColBeginIndex + 1) % 2 ^ 64 % 65536
          if sv.CreateAssn hitColBeginIndex s.hitCol.length then
            some (TjResult.cluster
              { integral := s.sumChg, summedADC := s.sumADC, nHits := nclhits }
              hitColBeginIndex s.hitCol.length s.hitCol s.newIndex)
          else some TjResult.threw

/-! ### Concrete slices and trajectories -/

/-- The services of the test slices: `std::sort` is an insertion sort, and the
encoded cryostat, TPC and plane is `cryostat * 100 + tpc * 10 + plane`. -/
def testSortServices : SortServices :=
  { stdSort := List.insertionSort (fun a b => SortHits b a = false),
    EncodeCTP := fun c t p => c * 100 + t * 10 + p }

/-- The junk values of the test slices. -/
def testSortJunk : SortJunk :=
  { hit := ⟨9, 9, 9, 9, 9, 9⟩, loc := ⟨9, 9, 9, 9, 9⟩, idx := 9 }

/-- Three input hits on plane 0: on wire 7 at tick 5, on wire 3 at tick 8, and on
wire 3 at tick 2. -/
def testInputHits : List InputHit :=
  [⟨0, 0, 0, 7, 5, 0⟩, ⟨0, 0, 0, 3, 8, 0⟩, ⟨0, 0, 0, 3, 2, 0⟩]

/-- The services of the test trajectory: the merged hit has the channel of its
first input hit, integral 10 and summed ADC 20; the association succeeds. -/
def testClusterServices : ClusterServices ℚ :=
  { MergeTPHits := fun tpHits => ⟨tpHits.headD 0, 10, 20⟩,
    InvalidChannelID := 4294967295,
    CreateAssn := fun _ _ => true }

/-- A trajectory with two points of charge 5, each with one hit that is used: the
hits 0 and 1 of the slice. -/
def testTrajectory : Trajectory ℚ :=
  { Killed := false,
    Pts := [{ Chg := 5, Hits := [0], UseHit := fun _ => true },
            { Chg := 5, Hits := [1], UseHit := fun _ => true }] }

end cluster

namespace calo

/-! ## The hit loop -/

section HitLoop

variable {K : Type} [LinearOrderedField K]

theorem deltasFrom_append (sv : Services K) (prev : TVector3 K) (ps : List (TVector3 K))
    (q : TVector3 K) :
    deltasFrom sv prev (ps ++ [q]) = deltasFrom sv prev ps ++ [dist3D sv (ps.getLast?.getD prev) q] := by
  induction ps generalizing prev with
  | nil => simp [deltasFrom]
  | cons p ps ih =>
    rw [List.cons_append, deltasFrom, ih p, deltasFrom, List.cons_append]
    cases ps with
    | nil => simp
    | cons a as => simp [List.getLast?_cons_cons, List.getLast?_eq_getLast]

theorem deltas_append (sv : Services K) (p : TVector3 K) (ps : List (TVector3 K))
    (q : TVector3 K) :
    deltas sv ((p :: ps) ++ [q]) = deltas sv (p :: ps) ++ [dist3D sv ((p :: ps).getLast?.getD p) q] := by
  rw [List.cons_append, deltas, deltasFrom_append, deltas, List.cons_append]
  cases ps with
  | nil => simp
  | cons a as => simp [List.getLast?_cons_cons]

theorem holds_init (sv : Services K) (fTrkPitch T0 : K) (wire : Nat) (time stime etime : K) :
    Holds sv fTrkPitch T0 (initState wire time stime etime) [] := by
  constructor <;> simp [initState, deltas]

theorem hitStep_rejected (sv : Services K) (fTrkPitch T0 : K) (s : PlaneState K) (hit : Hit K)
    (acc : List (Hit K)) (h : Holds sv fTrkPitch T0 s acc) (hr : accepted sv fTrkPitch hit = false) :
    Holds sv fTrkPitch T0 (hitStep sv fTrkPitch T0 s hit) acc := by
  have hr' : (sv.GetPitch hit).xyz3d.z < -100 ∨ usedPitch sv fTrkPitch hit = 0 := by
    simp only [accepted, Bool.and_eq_false_iff, Bool.not_eq_false', decide_eq_true_eq] at hr
    exact hr
  obtain ⟨h1, h2, h3, h4, h5, h6, h7, h8, h9, h10, h11, h12⟩ := h
  cases s
  simp only at h1 h2 h3 h4 h5 h6 h7 h8 h9 h10 h11 h12
  by_cases hz : (sv.GetPitch hit).xyz3d.z < -100
  · simp only [hitStep, hz, if_true]
    constructor <;> assumption
  · have hp : usedPitch sv fTrkPitch hit = 0 := by tauto
    unfold usedPitch at hp
    simp only [hitStep, hz, if_false, hp, if_true]
    constructor <;> assumption

theorem hitStep_accepted (sv : Services K) (fTrkPitch T0 : K) (s : PlaneState K) (hit : Hit K)
    (acc : List (Hit K)) (h : Holds sv fTrkPitch T0 s acc) (ha : accepted sv fTrkPitch hit = true) :
    Holds sv fTrkPitch T0 (hitStep sv fTrkPitch T0 s hit) (acc ++ [hit]) := by
  have ha' : ¬ (sv.GetPitch hit).xyz3d.z < -100 ∧ ¬ usedPitch sv fTrkPitch hit = 0 := by
    simpa [accepted] using ha
  obtain ⟨hz, hp⟩ := ha'
  obtain ⟨h1, h2, h3, h4, h5, h6, h7, h8, h9, h10, h11, h12⟩ := h
  cases s
  simp only at h1 h2 h3 h4 h5 h6 h7 h8 h9 h10 h11 h12
  have e1 : (if (sv.GetPitch hit).pitch ≤ 0 then fTrkPitch else (sv.GetPitch hit).pitch)
      = usedPitch sv fTrkPitch hit := rfl
  have e2 : (if sv.fUseArea = true then hit.Integral else hit.PeakAmplitude) = chargeOf sv hit := rfl
  have e3 : (if sv.fUseArea = true then sv.dEdx_AREA hit (usedPitch sv fTrkPitch hit) T0
      else sv.dEdx_AMP hit (usedPitch sv fTrkPitch hit) T0) = dEdxOf sv fTrkPitch T0 hit := rfl
  cases acc with
  | nil =>
    simp only [List.length_nil] at h1
    subst h1
    simp only [hitStep, hz, e1, e2, e3, hp, if_false, if_true]
    constructor <;> simp_all [deltas, deltasFrom]
  | cons a as =>
    have hne : ¬ (as.length + 1 = 0) := by omega
    simp only [List.length_cons] at h1
    subst h1
    have hl := h10 _ (by
      rw [List.map_cons, List.getLast?_eq_getLast _ (List.cons_ne_nil _ _)])
    simp only [hitStep, hz, e1, e2, e3, hp, hne, if_false, if_true]
    constructor
    · simp
    · simp [h2]
    · simp [h3]
    · simp [h4]
    · simp [h5]
    · simp [h6]
    · simp [h7]
    · simp [h8]
    · simp only [h9, List.map_append, List.map_cons, List.map_nil]
      rw [deltas_append, List.getLast?_eq_getLast _ (List.cons_ne_nil _ _)]
      simp only [Option.getD_some]
      rw [hl]
      simp [dist3D]
    · intro p hp2
      rw [List.getLast?_eq_getLast _ (by simp), Option.some.injEq] at hp2
      rw [← hp2]
      simp
    · simp [h11]
    · simp [h12, add_assoc]

theorem holds_hitLoop (sv : Services K) (fTrkPitch T0 : K) (hits : List (Hit K)) :
    ∀ (s : PlaneState K) (acc : List (Hit K)), Holds sv fTrkPitch T0 s acc →
      Holds sv fTrkPitch T0 (hitLoop sv fTrkPitch T0 s hits)
        (acc ++ acceptedHits sv fTrkPitch hits) := by
  induction hits with
  | nil => intro s acc h; simpa [hitLoop, acceptedHits] using h
  | cons hit hits ih =>
    intro s acc h
    simp only [hitLoop, List.foldl_cons, acceptedHits, List.filter_cons]
    cases ha : accepted sv fTrkPitch hit with
    | false =>
      simpa [hitLoop, acceptedHits] using ih _ _ (hitStep_rejected sv fTrkPitch T0 s hit acc h ha)
    | true =>
      simpa [hitLoop, acceptedHits] using ih _ _ (hitStep_accepted sv fTrkPitch T0 s hit acc h ha)

theorem holds_planeState (sv : Services K) (fTrkPitch T0 : K) (wire : Nat) (time stime etime : K)
    (hits : List (Hit K)) :
    Holds sv fTrkPitch T0 (planeState sv fTrkPitch T0 wire time stime etime hits)
      (acceptedHits sv fTrkPitch hits) := by
  simpa [planeState] using
    holds_hitLoop sv fTrkPitch T0 hits _ [] (holds_init sv fTrkPitch T0 wire time stime etime)

end HitLoop

/-! ## The loops after the hit loop -/

section PointLoop
variable {K : Type} [LinearOrderedField K]

theorem range_reads {α : Type} (junk : α) (l : List α) :
    (List.range l.length).map (fun k => vecRead junk l (0 + k)) = l := by
  apply List.ext_getElem
  · simp
  · intro n h1 h2
    simp [vecRead, List.getElem?_eq_getElem h2]

theorem shift_reads {α : Type} (g : Nat → α) (i todo : Nat) :
    [g i] ++ (List.range todo).map (fun k => g (i + 1 + k))
      = (List.range (todo + 1)).map (fun k => g (i + k)) := by
  rw [List.range_succ_eq_map, List.map_cons, List.map_map]
  simp only [Nat.add_zero, List.singleton_append, List.cons.injEq, true_and]
  apply List.map_congr_left
  intro k _
  simp only [Function.comp_apply, Nat.succ_eq_add_one]
  congr 1
  omega

theorem pointLoop_vresRange (sv : Services K) (junk : K) (s : PlaneState K) (f : List K) :
    ∀ (todo i : Nat) (p : PointLoopState K),
      (pointLoop sv junk s f todo i p).vresRange
        = p.vresRange ++ (List.range todo).map (fun k => vecRead junk f (i + k)) := by
  intro todo
  induction todo with
  | zero => intro i p; simp [pointLoop]
  | succ todo ih =>
    intro i p
    rw [pointLoop, ih, ← shift_reads (fun j => vecRead junk f j)]
    split <;> simp

theorem pointLoop_vdEdx (sv : Services K) (junk : K) (s : PlaneState K) (f : List K) :
    ∀ (todo i : Nat) (p : PointLoopState K),
      (pointLoop sv junk s f todo i p).vdEdx
        = p.vdEdx ++ (List.range todo).map (fun k => vecRead junk s.fdEdx (i + k)) := by
  intro todo
  induction todo with
  | zero => intro i p; simp [pointLoop]
  | succ todo ih =>
    intro i p
    rw [pointLoop, ih, ← shift_reads (fun j => vecRead junk s.fdEdx j)]
    split <;> simp

theorem pointLoop_vdQdx (sv : Services K) (junk : K) (s : PlaneState K) (f : List K) :
    ∀ (todo i : Nat) (p : PointLoopState K),
      (pointLoop sv junk s f todo i p).vdQdx
        = p.vdQdx ++ (List.range todo).map (fun k => vecRead junk s.fdQdx (i + k)) := by
  intro todo
  induction todo with
  | zero => intro i p; simp [pointLoop]
  | succ todo ih =>
    intro i p
    rw [pointLoop, ih, ← shift_reads (fun j => vecRead junk s.fdQdx j)]
    split <;> simp

theorem pointLoop_vXYZ (sv : Services K) (junk : K) (s : PlaneState K) (f : List K) :
    ∀ (todo i : Nat) (p : PointLoopState K),
      (pointLoop sv junk s f todo i p).vXYZ
        = p.vXYZ ++ (List.range todo).map (fun k => vecRead ⟨junk, junk, junk⟩ s.fXYZ (i + k)) := by
  intro todo
  induction todo with
  | zero => intro i p; simp [pointLoop]
  | succ todo ih =>
    intro i p
    rw [pointLoop, ih, ← shift_reads (fun j => vecRead (⟨junk, junk, junk⟩ : TVector3 K) s.fXYZ j)]
    split <;> simp

theorem pointLoop_PIDA (sv : Services K) (junk : K) (s : PlaneState K) (f : List K) :
    ∀ (todo i : Nat) (p : PointLoopState K),
      (pointLoop sv junk s f todo i p).PIDA
        = p.PIDA + ∑ k in Finset.range todo,
            if (i + k ≠ 0 ∧ i + k ≠ s.fnsps - 1) then termAi sv s.fdEdx f junk (i + k) else 0 := by
  intro todo
  induction todo with
  | zero => intro i p; simp [pointLoop]
  | succ todo ih =>
    intro i p
    rw [pointLoop, ih, Finset.sum_range_succ']
    simp only [Nat.add_zero]
    have e : ∀ k, i + 1 + k = i + (k + 1) := by intro k; omega
    simp only [e]
    split <;> simp [termAi, add_assoc, add_comm]

theorem pointLoop_nPIDA (sv : Services K) (junk : K) (s : PlaneState K) (f : List K) :
    ∀ (todo i : Nat) (p : PointLoopState K),
      (pointLoop sv junk s f todo i p).nPIDA
        = p.nPIDA + ∑ k in Finset.range todo,
            if (i + k ≠ 0 ∧ i + k ≠ s.fnsps - 1) then 1 else 0 := by
  intro todo
  induction todo with
  | zero => intro i p; simp [pointLoop]
  | succ todo ih =>
    intro i p
    rw [pointLoop, ih, Finset.sum_range_succ']
    simp only [Nat.add_zero]
    have e : ∀ k, i + 1 + k = i + (k + 1) := by intro k; omega
    simp only [e]
    split <;> simp [add_assoc, add_comm]

end PointLoop

section ResRng
variable {K : Type} [LinearOrderedField K]

theorem resRngDown_length (junk : K) (sp : List K) :
    ∀ (k : Nat) (f : List K), (resRngDown junk sp k f).length = f.length := by
  intro k
  induction k with
  | zero => intro f; rfl
  | succ k ih => intro f; rw [resRngDown, ih, List.length_set]

theorem resRngDown_keep (junk : K) (sp : List K) :
    ∀ (k : Nat) (f : List K) (j : Nat), k ≤ j →
      vecRead junk (resRngDown junk sp k f) j = vecRead junk f j := by
  intro k
  induction k with
  | zero => intro f j _; rfl
  | succ k ih =>
    intro f j hj
    rw [resRngDown, ih _ j (by omega)]
    simp only [vecRead, List.getD_eq_getElem?_getD]
    rw [List.getElem?_set_ne (by omega)]

theorem resRngDown_step (junk : K) (sp : List K) :
    ∀ (k : Nat) (f : List K) (i : Nat), i < k → k < f.length →
      vecRead junk (resRngDown junk sp k f) i
        = vecRead junk (resRngDown junk sp k f) (i + 1) + vecRead junk sp (i + 1) := by
  intro k
  induction k with
  | zero => intro f i hi; omega
  | succ k ih =>
    intro f i hi hk
    rw [resRngDown]
    by_cases hik : i < k
    · exact ih _ i hik (by rw [List.length_set]; omega)
    · have e : i = k := by omega
      subst e
      rw [resRngDown_keep junk sp i _ i (le_refl _), resRngDown_keep junk sp i _ (i + 1) (by omega)]
      simp only [vecRead, List.getD_eq_getElem?_getD]
      rw [List.getElem?_set_self (by omega), List.getElem?_set_ne (by omega)]
      simp

theorem resRngUp_length (junk : K) (sp : List K) :
    ∀ (todo i : Nat) (f : List K), (resRngUp junk sp todo i f).length = f.length := by
  intro todo
  induction todo with
  | zero => intro i f; rfl
  | succ todo ih => intro i f; rw [resRngUp, ih, List.length_set]

theorem resRngUp_keep (junk : K) (sp : List K) :
    ∀ (todo i : Nat) (f : List K) (j : Nat), j < i →
      vecRead junk (resRngUp junk sp todo i f) j = vecRead junk f j := by
  intro todo
  induction todo with
  | zero => intro i f j _; rfl
  | succ todo ih =>
    intro i f j hj
    rw [resRngUp, ih _ _ j (by omega)]
    simp only [vecRead, List.getD_eq_getElem?_getD]
    rw [List.getElem?_set_ne (by omega)]

theorem resRngUp_step (junk : K) (sp : List K) :
    ∀ (todo i : Nat) (f : List K) (j : Nat), 1 ≤ i → i ≤ j → j < i + todo → i + todo ≤ f.length →
      vecRead junk (resRngUp junk sp todo i f) j
        = vecRead junk (resRngUp junk sp todo i f) (j - 1) + vecRead junk sp j := by
  intro todo
  induction todo with
  | zero => intro i f j _ h1 h2; omega
  | succ todo ih =>
    intro i f j hi hij hj hlen
    rw [resRngUp]
    by_cases h : i + 1 ≤ j
    · exact ih _ _ j (by omega) h (by omega) (by rw [List.length_set]; omega)
    · have e : j = i := by omega
      subst e
      rw [resRngUp_keep junk sp todo (j + 1) _ j (by omega),
        resRngUp_keep junk sp todo (j + 1) _ (j - 1) (by omega)]
      simp only [vecRead, List.getD_eq_getElem?_getD]
      rw [List.getElem?_set_self (by omega), List.getElem?_set_ne (by omega)]
      simp

theorem fillResRng_length (junk : K) (g : Bool) (sp : List K) (N : Nat) :
    (fillResRng junk g sp N).length = N := by
  unfold fillResRng
  cases g <;> simp [resRngDown_length, resRngUp_length]

theorem fillResRng_DS_last (junk : K) (sp : List K) (N : Nat) (hN : 1 ≤ N) :
    vecRead junk (fillResRng junk true sp N) (N - 1) = vecRead junk sp (N - 1) / 2 := by
  simp only [fillResRng, if_true]
  rw [resRngDown_keep junk sp (N - 1) _ (N - 1) (le_refl _)]
  simp only [vecRead, List.getD_eq_getElem?_getD]
  rw [List.getElem?_set_self (by simp; omega)]
  simp

theorem fillResRng_DS_step (junk : K) (sp : List K) (N i : Nat) (hi : i + 1 < N) :
    vecRead junk (fillResRng junk true sp N) i
      = vecRead junk (fillResRng junk true sp N) (i + 1) + vecRead junk sp (i + 1) := by
  simp only [fillResRng, if_true]
  exact resRngDown_step junk sp (N - 1) _ i (by omega) (by simp; omega)

theorem fillResRng_US_first (junk : K) (sp : List K) (N : Nat) (hN : 1 ≤ N) :
    vecRead junk (fillResRng junk false sp N) 0 = vecRead junk sp 1 / 2 := by
  simp only [fillResRng, Bool.false_eq_true, if_false]
  rw [resRngUp_keep junk sp (N - 1) 1 _ 0 (by omega)]
  simp only [vecRead, List.getD_eq_getElem?_getD]
  rw [List.getElem?_set_self (by simp; omega)]
  simp

theorem fillResRng_US_step (junk : K) (sp : List K) (N i : Nat) (h1 : 1 ≤ i) (hi : i < N) :
    vecRead junk (fillResRng junk false sp N) i
      = vecRead junk (fillResRng junk false sp N) (i - 1) + vecRead junk sp i := by
  simp only [fillResRng, Bool.false_eq_true, if_false]
  exact resRngUp_step junk sp (N - 1) 1 _ i (le_refl _) h1 (by omega) (by simp; omega)

end ResRng

section Direction
variable {K : Type} [LinearOrderedField K]

theorem USChgLoop_eq (junk : K) (l : List K) :
    ∀ (todo isp : Nat) (acc : K), isp + todo = l.length →
      USChgLoop junk l todo isp acc = acc + ((l.drop isp).take (4 - isp)).sum := by
  intro todo
  induction todo with
  | zero =>
    intro isp acc h
    have : l.drop isp = [] := List.drop_eq_nil_of_le (by omega)
    simp [USChgLoop, this]
  | succ todo ih =>
    intro isp acc h
    rw [USChgLoop]
    by_cases h3 : isp > 3
    · have : 4 - isp = 0 := by omega
      simp [h3, this]
    · have hlt : isp < l.length := by omega
      have e4 : 4 - isp = (4 - (isp + 1)) + 1 := by omega
      rw [if_neg h3, ih (isp + 1) _ (by omega), List.drop_eq_getElem_cons hlt, e4, List.take_succ_cons,
        List.sum_cons]
      simp only [vecRead, List.getD_eq_getElem?_getD, List.getElem?_eq_getElem hlt, Option.getD_some]
      ring

theorem DSChgLoop_eq :
    ∀ (st : List K) (c : Nat) (acc : K), DSChgLoop st c acc = acc + (st.take (4 - c)).sum := by
  intro st
  induction st with
  | nil => intro c acc; simp [DSChgLoop]
  | cons top rest ih =>
    intro c acc
    rw [DSChgLoop]
    by_cases h3 : c > 3
    · have : 4 - c = 0 := by omega
      simp [h3, this]
    · have e4 : 4 - c = (4 - (c + 1)) + 1 := by omega
      rw [if_neg h3, ih, e4, List.take_succ_cons, List.sum_cons]
      ring

omit [LinearOrderedField K] in
theorem take_four_eq (l : List K) : l.take 4 = l.take (min 4 l.length) := by
  rcases Nat.le_total 4 l.length with h | h
  · rw [Nat.min_eq_left h]
  · rw [Nat.min_eq_right h, List.take_length, List.take_of_length_le h]

theorem reverse_take_four_sum (l : List K) :
    (l.reverse.take 4).sum = (l.drop (l.length - min 4 l.length)).sum := by
  have e : l.length - min 4 l.length = l.length - 4 := by omega
  rw [e, List.take_reverse, List.sum_reverse]

end Direction

/-! ## The emitted record -/

section Plane
variable {K : Type} [LinearOrderedField K]

theorem range_reads_of_length {α : Type} (junk : α) (l : List α) (n : Nat) (h : n = l.length) :
    (List.range n).map (fun k => vecRead junk l (0 + k)) = l := by
  subst h
  exact range_reads junk l

theorem deltasFrom_length (sv : Services K) :
    ∀ (ps : List (TVector3 K)) (prev : TVector3 K), (deltasFrom sv prev ps).length = ps.length := by
  intro ps
  induction ps with
  | nil => intro prev; rfl
  | cons p ps ih => intro prev; simp [deltasFrom, ih]

theorem deltas_length (sv : Services K) (ps : List (TVector3 K)) :
    (deltas sv ps).length = ps.length := by
  cases ps with
  | nil => rfl
  | cons p ps => simp [deltas, deltasFrom_length]

theorem producePlane_TrkPitch (sv : Services K) (junk fTrkPitch T0 : K) (wire : Nat)
    (time stime etime : K) (deadwire : List K) (hits : List (Hit K)) :
    (producePlane sv junk fTrkPitch T0 wire time stime etime deadwire hits).TrkPitch
      = (acceptedHits sv fTrkPitch hits).map (usedPitch sv fTrkPitch) := by
  have h := holds_planeState sv fTrkPitch T0 wire time stime etime hits
  unfold producePlane finishPlane
  split <;> exact h.fpitch

theorem producePlane_dEdx (sv : Services K) (junk fTrkPitch T0 : K) (wire : Nat)
    (time stime etime : K) (deadwire : List K) (hits : List (Hit K)) :
    (producePlane sv junk fTrkPitch T0 wire time stime etime deadwire hits).dEdx
      = (acceptedHits sv fTrkPitch hits).map (dEdxOf sv fTrkPitch T0) := by
  have h := holds_planeState sv fTrkPitch T0 wire time stime etime hits
  unfold producePlane finishPlane
  split
  · next h0 =>
    have : acceptedHits sv fTrkPitch hits = [] := by
      rw [h.fnsps] at h0; exact List.length_eq_zero.mp h0
    simp [this]
  · simp only [pointLoop_vdEdx, List.nil_append]
    have e : (planeState sv fTrkPitch T0 wire time stime etime hits).fnsps
        = (planeState sv fTrkPitch T0 wire time stime etime hits).fdEdx.length := by
      rw [h.fnsps, h.fdEdx, List.length_map]
    rw [e, range_reads, h.fdEdx]

theorem producePlane_dQdx (sv : Services K) (junk fTrkPitch T0 : K) (wire : Nat)
    (time stime etime : K) (deadwire : List K) (hits : List (Hit K)) :
    (producePlane sv junk fTrkPitch T0 wire time stime etime deadwire hits).dQdx
      = (acceptedHits sv fTrkPitch hits).map
          (fun h => chargeOf sv h / usedPitch sv fTrkPitch h) := by
  have h := holds_planeState sv fTrkPitch T0 wire time stime etime hits
  unfold producePlane finishPlane
  split
  · next h0 =>
    have : acceptedHits sv fTrkPitch hits = [] := by
      rw [h.fnsps] at h0; exact List.length_eq_zero.mp h0
    simp [this]
  · simp only [pointLoop_vdQdx, List.nil_append]
    have e : (planeState sv fTrkPitch T0 wire time stime etime hits).fnsps
        = (planeState sv fTrkPitch T0 wire time stime etime hits).fdQdx.length := by
      rw [h.fnsps, h.fdQdx, List.length_map]
    rw [e, range_reads, h.fdQdx]

theorem producePlane_XYZ (sv : Services K) (junk fTrkPitch T0 : K) (wire : Nat)
    (time stime etime : K) (deadwire : List K) (hits : List (Hit K)) :
    (producePlane sv junk fTrkPitch T0 wire time stime etime deadwire hits).XYZ
      = (acceptedHits sv fTrkPitch hits).map (fun h => (sv.GetPitch h).xyz3d) := by
  have h := holds_planeState sv fTrkPitch T0 wire time stime etime hits
  unfold producePlane finishPlane
  split
  · next h0 =>
    have : acceptedHits sv fTrkPitch hits = [] := by
      rw [h.fnsps] at h0; exact List.length_eq_zero.mp h0
    simp [this]
  · simp only [pointLoop_vXYZ, List.nil_append]
    have e : (planeState sv fTrkPitch T0 wire time stime etime hits).fnsps
        = (planeState sv fTrkPitch T0 wire time stime etime hits).fXYZ.length := by
      rw [h.fnsps, h.fXYZ, List.length_map]
    rw [e, range_reads, h.fXYZ]

theorem producePlane_ResidualRange (sv : Services K) (junk fTrkPitch T0 : K) (wire : Nat)
    (time stime etime : K) (deadwire : List K) (hits : List (Hit K))
    (hN : (acceptedHits sv fTrkPitch hits) ≠ []) :
    (producePlane sv junk fTrkPitch T0 wire time stime etime deadwire hits).ResidualRange
      = fillResRng junk
          (resolveDirection sv junk (planeState sv fTrkPitch T0 wire time stime etime hits))
          (planeState sv fTrkPitch T0 wire time stime etime hits).spdelta
          (acceptedHits sv fTrkPitch hits).length := by
  have h := holds_planeState sv fTrkPitch T0 wire time stime etime hits
  unfold producePlane finishPlane
  split
  · next h0 =>
    rw [h.fnsps] at h0
    exact absurd (List.length_eq_zero.mp h0) hN
  · simp only [pointLoop_vresRange, List.nil_append]
    rw [range_reads_of_length junk _ _ (fillResRng_length junk _ _ _).symm, h.fnsps]

theorem producePlane_ResidualRange_nil (sv : Services K) (junk fTrkPitch T0 : K) (wire : Nat)
    (time stime etime : K) (deadwire : List K) (hits : List (Hit K))
    (hN : (acceptedHits sv fTrkPitch hits) = []) :
    (producePlane sv junk fTrkPitch T0 wire time stime etime deadwire hits).ResidualRange = [] := by
  have h := holds_planeState sv fTrkPitch T0 wire time stime etime hits
  unfold producePlane finishPlane
  have h0 : (planeState sv fTrkPitch T0 wire time stime etime hits).fnsps = 0 := by
    rw [h.fnsps, hN]; rfl
  simp [h0]

end Plane

/-! ## The claims -/

section PitchSign
variable {K : Type} [LinearOrderedField K]

/-- C1 (counterexample): a plane with one hit whose only space point is `(0, 0, 5)`,
on a track whose plane pitch `fTrkPitch` is `-1`.  `GetPitch` finds a single
candidate, so it reports that point and the pitch `-1`; line 329 substitutes
`fTrkPitch = -1`, line 330 lets it pass, and the emitted pitch sequence holds
the non-positive entry `-1`. -/
theorem C1_negative_pitch_retained :
    ¬ (∀ p ∈ (producePlaneOfHits (testServices false true 0) testPitchServices 0 (-1) 0 0
        0 0 0 0 [] singleHitPlane).TrkPitch, 0 < p) := by
  decide!

theorem accepted_iff (sv : Services K) (fTrkPitch : K) (hit : Hit K) :
    accepted sv fTrkPitch hit = true ↔
      ¬ (sv.GetPitch hit).xyz3d.z < -100 ∧ usedPitch sv fTrkPitch hit ≠ 0 := by
  simp [accepted]

theorem usedPitch_pos (sv : Services K) (fTrkPitch : K) (hit : Hit K) (h0 : 0 ≤ fTrkPitch)
    (hne : usedPitch sv fTrkPitch hit ≠ 0) : 0 < usedPitch sv fTrkPitch hit := by
  unfold usedPitch at *
  split
  · next h => rw [if_pos h] at hne; exact lt_of_le_of_ne h0 (Ne.symm hne)
  · next h => exact not_le.mp h

/-- C1 (amended): every entry of the emitted pitch sequence is non-zero, and is
strictly positive when the plane pitch `fTrkPitch` is not negative; the sequence
holds the pitch used of exactly the hits that pass lines 328 and 330, `fnsps`
counts exactly those hits, and a hit whose pitch used is `0` is not among them. -/
theorem C1_pitch_nonzero (sv : Services K) (junk fTrkPitch T0 : K) (wire : Nat)
    (time stime etime : K) (deadwire : List K) (hits : List (Hit K)) :
    (∀ p ∈ (producePlane sv junk fTrkPitch T0 wire time stime etime deadwire hits).TrkPitch, p ≠ 0)
    ∧ (0 ≤ fTrkPitch →
        ∀ p ∈ (producePlane sv junk fTrkPitch T0 wire time stime etime deadwire hits).TrkPitch,
          0 < p)
    ∧ (producePlane sv junk fTrkPitch T0 wire time stime etime deadwire hits).TrkPitch
        = (hits.filter (fun h => accepted sv fTrkPitch h)).map (usedPitch sv fTrkPitch)
    ∧ (planeState sv fTrkPitch T0 wire time stime etime hits).fnsps
        = (hits.filter (fun h => accepted sv fTrkPitch h)).length
    ∧ (∀ h ∈ hits, usedPitch sv fTrkPitch h = 0 → accepted sv fTrkPitch h = false) := by
  have hs := holds_planeState sv fTrkPitch T0 wire time stime etime hits
  rw [producePlane_TrkPitch]
  refine ⟨?_, ?_, rfl, hs.fnsps, ?_⟩
  · intro p hp
    simp only [acceptedHits, List.mem_map, List.mem_filter] at hp
    obtain ⟨h, ⟨_, ha⟩, rfl⟩ := hp
    exact ((accepted_iff sv fTrkPitch h).mp ha).2
  · intro h0 p hp
    simp only [acceptedHits, List.mem_map, List.mem_filter] at hp
    obtain ⟨h, ⟨_, ha⟩, rfl⟩ := hp
    exact usedPitch_pos sv fTrkPitch h h0 ((accepted_iff sv fTrkPitch h).mp ha).2
  · intro h _ h0
    simp [accepted, h0]

/-- C1 (amended), at Scenario B with plane pitch 0.3 and `GetPitch` pitch `-1`. -/
theorem C1_pitch_nonzero_witness :
    (0 : ℚ) ≤ 3 / 10 ∧
    ∀ p ∈ (producePlane (testServices false true (-1)) 0 (3 / 10) 0 0 0 0 0 [] scenarioB).TrkPitch,
      0 < p :=
  ⟨by norm_num, (C1_pitch_nonzero (testServices false true (-1)) 0 (3 / 10) 0 0 0 0 0 [] scenarioB).2.1
    (by norm_num)⟩

end PitchSign

section Sequences
variable {K : Type} [LinearOrderedField K]

theorem producePlane_ResidualRange_length (sv : Services K) (junk fTrkPitch T0 : K) (wire : Nat)
    (time stime etime : K) (deadwire : List K) (hits : List (Hit K)) :
    (producePlane sv junk fTrkPitch T0 wire time stime etime deadwire hits).ResidualRange.length
      = (acceptedHits sv fTrkPitch hits).length := by
  by_cases hN : acceptedHits sv fTrkPitch hits = []
  · rw [producePlane_ResidualRange_nil sv junk fTrkPitch T0 wire time stime etime deadwire hits hN,
      hN]
    rfl
  · rw [producePlane_ResidualRange sv junk fTrkPitch T0 wire time stime etime deadwire hits hN,
      fillResRng_length]

/-- C2: the emitted sequences `dEdx`, `dQdx`, `ResidualRange`, `TrkPitch` and `XYZ` all have
the length `fnsps`, the number of accepted hits; when `fnsps = 0` all of them are empty. -/
theorem C2_equal_lengths (sv : Services K) (junk fTrkPitch T0 : K) (wire : Nat)
    (time stime etime : K) (deadwire : List K) (hits : List (Hit K)) :
    (planeState sv fTrkPitch T0 wire time stime etime hits).fnsps
        = (acceptedHits sv fTrkPitch hits).length
    ∧ (producePlane sv junk fTrkPitch T0 wire time stime etime deadwire hits).dEdx.length
        = (planeState sv fTrkPitch T0 wire time stime etime hits).fnsps
    ∧ (producePlane sv junk fTrkPitch T0 wire time stime etime deadwire hits).dQdx.length
        = (planeState sv fTrkPitch T0 wire time stime etime hits).fnsps
    ∧ (producePlane sv junk fTrkPitch T0 wire time stime etime deadwire hits).ResidualRange.length
        = (planeState sv fTrkPitch T0 wire time stime etime hits).fnsps
    ∧ (producePlane sv junk fTrkPitch T0 wire time stime etime deadwire hits).TrkPitch.length
        = (planeState sv fTrkPitch T0 wire time stime etime hits).fnsps
    ∧ (producePlane sv junk fTrkPitch T0 wire time stime etime deadwire hits).XYZ.length
        = (planeState sv fTrkPitch T0 wire time stime etime hits).fnsps
    ∧ ((planeState sv fTrkPitch T0 wire time stime etime hits).fnsps = 0 →
        (producePlane sv junk fTrkPitch T0 wire time stime etime deadwire hits).dEdx = []
        ∧ (producePlane sv junk fTrkPitch T0 wire time stime etime deadwire hits).dQdx = []
        ∧ (producePlane sv junk fTrkPitch T0 wire time stime etime deadwire hits).ResidualRange = []
        ∧ (producePlane sv junk fTrkPitch T0 wire time stime etime deadwire hits).TrkPitch = []
        ∧ (producePlane sv junk fTrkPitch T0 wire time stime etime deadwire hits).XYZ = []) := by
  have hs := holds_planeState sv fTrkPitch T0 wire time stime etime hits
  have e1 := producePlane_dEdx sv junk fTrkPitch T0 wire time stime etime deadwire hits
  have e2 := producePlane_dQdx sv junk fTrkPitch T0 wire time stime etime deadwire hits
  have e3 := producePlane_ResidualRange_length sv junk fTrkPitch T0 wire time stime etime deadwire hits
  have e4 := producePlane_TrkPitch sv junk fTrkPitch T0 wire time stime etime deadwire hits
  have e5 := producePlane_XYZ sv junk fTrkPitch T0 wire time stime etime deadwire hits
  refine ⟨hs.fnsps, ?_, ?_, ?_, ?_, ?_, ?_⟩
  · rw [e1, hs.fnsps, List.length_map]
  · rw [e2, hs.fnsps, List.length_map]
  · rw [e3, hs.fnsps]
  · rw [e4, hs.fnsps, List.length_map]
  · rw [e5, hs.fnsps, List.length_map]
  · intro h0
    rw [hs.fnsps] at h0
    have hnil := List.length_eq_zero.mp h0
    refine ⟨?_, ?_, ?_, ?_, ?_⟩
    · rw [e1, hnil]; rfl
    · rw [e2, hnil]; rfl
    · exact List.length_eq_zero.mp (by rw [e3, h0])
    · rw [e4, hnil]; rfl
    · rw [e5, hnil]; rfl

/-- C2, at a plane whose only hit has the pitch used `0` and is dropped. -/
theorem C2_equal_lengths_witness :
    (planeState (testServices false true 0) 0 0 0 0 0 0 [testHit 5 10]).fnsps = 0
    ∧ (producePlane (testServices false true 0) 0 0 0 0 0 0 0 [] [testHit 5 10]).dEdx = []
    ∧ (producePlane (testServices false true 0) 0 0 0 0 0 0 0 [] [testHit 5 10]).dQdx = []
    ∧ (producePlane (testServices false true 0) 0 0 0 0 0 0 0 [] [testHit 5 10]).ResidualRange = []
    ∧ (producePlane (testServices false true 0) 0 0 0 0 0 0 0 [] [testHit 5 10]).TrkPitch = []
    ∧ (producePlane (testServices false true 0) 0 0 0 0 0 0 0 [] [testHit 5 10]).XYZ = [] :=
  ⟨by decide,
    (C2_equal_lengths (testServices false true 0) 0 0 0 0 0 0 0 [] [testHit 5 10]).2.2.2.2.2.2
      (by decide)⟩

/-- C3: the emitted `dQdx` is, point by point, the raw charge of the accepted hit
(`Integral()` when `fUseArea` is set, `PeakAmplitude()` otherwise) divided by the
entry of the emitted pitch sequence at the same index; the three sequences have
the same length. -/
theorem C3_dQdx_is_charge_over_pitch (sv : Services K) (junk fTrkPitch T0 : K) (wire : Nat)
    (time stime etime : K) (deadwire : List K) (hits : List (Hit K)) :
    (producePlane sv junk fTrkPitch T0 wire time stime etime deadwire hits).dQdx
      = List.zipWith (fun charge pitch => charge / pitch)
          ((acceptedHits sv fTrkPitch hits).map
            (fun h => if sv.fUseArea then h.Integral else h.PeakAmplitude))
          (producePlane sv junk fTrkPitch T0 wire time stime etime deadwire hits).TrkPitch
    ∧ (planeState sv fTrkPitch T0 wire time stime etime hits).fMIPs
      = (acceptedHits sv fTrkPitch hits).map
          (fun h => if sv.fUseArea then h.Integral else h.PeakAmplitude)
    ∧ (producePlane sv junk fTrkPitch T0 wire time stime etime deadwire hits).dQdx.length
      = (acceptedHits sv fTrkPitch hits).length
    ∧ (producePlane sv junk fTrkPitch T0 wire time stime etime deadwire hits).TrkPitch.length
      = (acceptedHits sv fTrkPitch hits).length := by
  have hs := holds_planeState sv fTrkPitch T0 wire time stime etime hits
  rw [producePlane_dQdx, producePlane_TrkPitch]
  refine ⟨?_, hs.fMIPs, by simp, by simp⟩
  simp only [List.zipWith_map]
  generalize acceptedHits sv fTrkPitch hits = acc
  induction acc with
  | nil => rfl
  | cons a as ih => simp only [List.map_cons, List.zipWith_cons_cons, ih]; rfl

end Sequences

section Recurrences
variable {K : Type} [LinearOrderedField K]

theorem vecRead_eq_getD {α : Type} (junk d : α) (l : List α) (i : Nat) (h : i < l.length) :
    vecRead junk l i = l.getD i d := by
  simp [vecRead, List.getD_eq_getElem?_getD, List.getElem?_eq_getElem h]

theorem planeState_spdelta_length (sv : Services K) (fTrkPitch T0 : K) (wire : Nat)
    (time stime etime : K) (hits : List (Hit K)) :
    (planeState sv fTrkPitch T0 wire time stime etime hits).spdelta.length
      = (acceptedHits sv fTrkPitch hits).length := by
  rw [(holds_planeState sv fTrkPitch T0 wire time stime etime hits).spdelta, deltas_length,
    List.length_map]

/-- C4: on a plane with at least two accepted points the emitted residual range `R`
obeys the recurrences over `spdelta`: going downstream, `R[N-1] = spdelta[N-1]/2`
and `R[i] = R[i+1] + spdelta[i+1]` for `i = N-2, ..., 0`; otherwise
`R[0] = spdelta[1]/2` and `R[i] = R[i-1] + spdelta[i]` for `i = 1, ..., N-1`.
Both sequences have the length `N`, so every index read is inside them. -/
theorem C4_residual_range_recurrences (sv : Services K) (junk fTrkPitch T0 : K) (wire : Nat)
    (time stime etime : K) (deadwire : List K) (hits : List (Hit K))
    (hN : 2 ≤ (acceptedHits sv fTrkPitch hits).length) :
    (producePlane sv junk fTrkPitch T0 wire time stime etime deadwire hits).ResidualRange.length
        = (acceptedHits sv fTrkPitch hits).length
    ∧ (planeState sv fTrkPitch T0 wire time stime etime hits).spdelta.length
        = (acceptedHits sv fTrkPitch hits).length
    ∧ (resolveDirection sv junk (planeState sv fTrkPitch T0 wire time stime etime hits) = true →
        (producePlane sv junk fTrkPitch T0 wire time stime etime deadwire hits).ResidualRange.getD
            ((acceptedHits sv fTrkPitch hits).length - 1) 0
          = (planeState sv fTrkPitch T0 wire time stime etime hits).spdelta.getD
              ((acceptedHits sv fTrkPitch hits).length - 1) 0 / 2
        ∧ ∀ i, i + 1 < (acceptedHits sv fTrkPitch hits).length →
          (producePlane sv junk fTrkPitch T0 wire time stime etime deadwire hits).ResidualRange.getD i 0
            = (producePlane sv junk fTrkPitch T0 wire time stime etime deadwire hits).ResidualRange.getD
                (i + 1) 0
              + (planeState sv fTrkPitch T0 wire time stime etime hits).spdelta.getD (i + 1) 0)
    ∧ (resolveDirection sv junk (planeState sv fTrkPitch T0 wire time stime etime hits) = false →
        (producePlane sv junk fTrkPitch T0 wire time stime etime deadwire hits).ResidualRange.getD 0 0
          = (planeState sv fTrkPitch T0 wire time stime etime hits).spdelta.getD 1 0 / 2
        ∧ ∀ i, 1 ≤ i → i < (acceptedHits sv fTrkPitch hits).length →
          (producePlane sv junk fTrkPitch T0 wire time stime etime deadwire hits).ResidualRange.getD i 0
            = (producePlane sv junk fTrkPitch T0 wire time stime etime deadwire hits).ResidualRange.getD
                (i - 1) 0
              + (planeState sv fTrkPitch T0 wire time stime etime hits).spdelta.getD i 0) := by
  have hne : acceptedHits sv fTrkPitch hits ≠ [] := by
    intro h; rw [h] at hN; simp at hN
  have hsp := planeState_spdelta_length sv fTrkPitch T0 wire time stime etime hits
  have hR := producePlane_ResidualRange sv junk fTrkPitch T0 wire time stime etime deadwire hits hne
  have hlen := producePlane_ResidualRange_length sv junk fTrkPitch T0 wire time stime etime deadwire hits
  refine ⟨hlen, hsp, ?_, ?_⟩
  · intro hg
    rw [hg] at hR
    constructor
    · rw [← vecRead_eq_getD junk 0 _ _ (by rw [hlen]; omega),
        ← vecRead_eq_getD junk 0 _ _ (by rw [hsp]; omega), hR]
      exact fillResRng_DS_last junk _ _ (by omega)
    · intro i hi
      rw [← vecRead_eq_getD junk 0 _ i (by rw [hlen]; omega),
        ← vecRead_eq_getD junk 0 _ (i + 1) (by rw [hlen]; omega),
        ← vecRead_eq_getD junk 0 _ (i + 1) (by rw [hsp]; omega), hR]
      exact fillResRng_DS_step junk _ _ i hi
  · intro hg
    rw [hg] at hR
    constructor
    · rw [← vecRead_eq_getD junk 0 _ 0 (by rw [hlen]; omega),
        ← vecRead_eq_getD junk 0 _ 1 (by rw [hsp]; omega), hR]
      exact fillResRng_US_first junk _ _ (by omega)
    · intro i h1 hi
      rw [← vecRead_eq_getD junk 0 _ i (by rw [hlen]; omega),
        ← vecRead_eq_getD junk 0 _ (i - 1) (by rw [hlen]; omega),
        ← vecRead_eq_getD junk 0 _ i (by rw [hsp]; omega), hR]
      exact fillResRng_US_step junk _ _ i h1 hi

/-- C4, at Scenario B (five accepted points, going downstream), whose last
residual range is half the last separation. -/
theorem C4_residual_range_recurrences_witness :
    2 ≤ (acceptedHits (testServices false true (3 / 10)) 0 scenarioB).length
    ∧ resolveDirection (testServices false true (3 / 10)) 0
        (planeState (testServices false true (3 / 10)) 0 0 0 0 0 0 scenarioB) = true
    ∧ (producePlane (testServices false true (3 / 10)) 0 0 0 0 0 0 0 [] scenarioB).ResidualRange.getD
          ((acceptedHits (testServices false true (3 / 10)) 0 scenarioB).length - 1) 0
        = (planeState (testServices false true (3 / 10)) 0 0 0 0 0 0 scenarioB).spdelta.getD
            ((acceptedHits (testServices false true (3 / 10)) 0 scenarioB).length - 1) 0 / 2 :=
  ⟨by decide!, by decide!,
    ((C4_residual_range_recurrences (testServices false true (3 / 10)) 0 0 0 0 0 0 0 [] scenarioB
      (by decide!)).2.2.1 (by decide!)).1⟩

end Recurrences

section Monotone
variable {K : Type} [LinearOrderedField K]

theorem vecRead_mem {α : Type} (junk : α) (l : List α) (i : Nat) (h : i < l.length) :
    vecRead junk l i ∈ l := by
  simp only [vecRead, List.getD_eq_getElem?_getD, List.getElem?_eq_getElem h, Option.getD_some]
  exact List.getElem_mem h

theorem deltasFrom_nonneg (sv : Services K) (hsqrt : ∀ x, 0 ≤ sv.sqrt x) :
    ∀ (ps : List (TVector3 K)) (prev : TVector3 K), ∀ x ∈ deltasFrom sv prev ps, 0 ≤ x := by
  intro ps
  induction ps with
  | nil => intro prev x hx; simp [deltasFrom] at hx
  | cons p ps ih =>
    intro prev x hx
    simp only [deltasFrom, List.mem_cons] at hx
    rcases hx with rfl | hx
    · exact hsqrt _
    · exact ih p x hx

theorem deltas_nonneg (sv : Services K) (hsqrt : ∀ x, 0 ≤ sv.sqrt x) (ps : List (TVector3 K)) :
    ∀ x ∈ deltas sv ps, 0 ≤ x := by
  intro x hx
  cases ps with
  | nil => simp [deltas] at hx
  | cons p ps =>
    simp only [deltas, List.mem_cons] at hx
    rcases hx with rfl | hx
    · exact le_refl _
    · exact deltasFrom_nonneg sv hsqrt ps p x hx

theorem fillResRng_DS_nonneg (junk : K) (sp : List K) (N : Nat) (hlen : sp.length = N)
    (hsp : ∀ x ∈ sp, 0 ≤ x) :
    ∀ (d i : Nat), i + d + 1 = N → 0 ≤ vecRead junk (fillResRng junk true sp N) i := by
  intro d
  induction d with
  | zero =>
    intro i hi
    have e : i = N - 1 := by omega
    rw [e, fillResRng_DS_last junk sp N (by omega)]
    exact div_nonneg (hsp _ (vecRead_mem junk sp _ (by omega))) (by norm_num)
  | succ d ih =>
    intro i hi
    rw [fillResRng_DS_step junk sp N i (by omega)]
    exact add_nonneg (ih (i + 1) (by omega)) (hsp _ (vecRead_mem junk sp _ (by omega)))

theorem fillResRng_US_nonneg (junk : K) (sp : List K) (N : Nat) (hlen : sp.length = N)
    (hN : 2 ≤ N) (hsp : ∀ x ∈ sp, 0 ≤ x) :
    ∀ (i : Nat), i < N → 0 ≤ vecRead junk (fillResRng junk false sp N) i := by
  intro i
  induction i with
  | zero =>
    intro _
    rw [fillResRng_US_first junk sp N (by omega)]
    exact div_nonneg (hsp _ (vecRead_mem junk sp _ (by omega))) (by norm_num)
  | succ i ih =>
    intro hi
    rw [fillResRng_US_step junk sp N (i + 1) (by omega) hi]
    exact add_nonneg (ih (by omega)) (hsp _ (vecRead_mem junk sp _ (by omega)))

theorem mem_iff_vecRead {α : Type} (junk : α) (l : List α) (x : α) (h : x ∈ l) :
    ∃ i, i < l.length ∧ vecRead junk l i = x := by
  obtain ⟨i, hi, rfl⟩ := List.getElem_of_mem h
  exact ⟨i, hi, by simp [vecRead, List.getD_eq_getElem?_getD, List.getElem?_eq_getElem hi]⟩

/-- Residual range on the planes where every read of lines 403-414 is inside
`spdelta` (at least two accepted points, or going downstream): with a
non-negative `sqrt`, every entry is non-negative, the sequence does not increase
with the index when going downstream and does not decrease otherwise. -/
theorem residual_range_monotone (sv : Services K) (junk fTrkPitch T0 : K) (wire : Nat)
    (time stime etime : K) (deadwire : List K) (hits : List (Hit K))
    (hsqrt : ∀ x, 0 ≤ sv.sqrt x)
    (hN : 1 ≤ (acceptedHits sv fTrkPitch hits).length)
    (hin : 2 ≤ (acceptedHits sv fTrkPitch hits).length
      ∨ resolveDirection sv junk (planeState sv fTrkPitch T0 wire time stime etime hits) = true) :
    (∀ x ∈ (producePlane sv junk fTrkPitch T0 wire time stime etime deadwire hits).ResidualRange,
        0 ≤ x)
    ∧ (resolveDirection sv junk (planeState sv fTrkPitch T0 wire time stime etime hits) = true →
        ∀ i, i + 1 < (acceptedHits sv fTrkPitch hits).length →
          (producePlane sv junk fTrkPitch T0 wire time stime etime deadwire hits).ResidualRange.getD
              (i + 1) 0
            ≤ (producePlane sv junk fTrkPitch T0 wire time stime etime deadwire hits).ResidualRange.getD
              i 0)
    ∧ (resolveDirection sv junk (planeState sv fTrkPitch T0 wire time stime etime hits) = false →
        ∀ i, i + 1 < (acceptedHits sv fTrkPitch hits).length →
          (producePlane sv junk fTrkPitch T0 wire time stime etime deadwire hits).ResidualRange.getD
              i 0
            ≤ (producePlane sv junk fTrkPitch T0 wire time stime etime deadwire hits).ResidualRange.getD
              (i + 1) 0) := by
  have hne : acceptedHits sv fTrkPitch hits ≠ [] := by
    intro h; rw [h] at hN; simp at hN
  have hs := holds_planeState sv fTrkPitch T0 wire time stime etime hits
  have hsp := planeState_spdelta_length sv fTrkPitch T0 wire time stime etime hits
  have hnn : ∀ x ∈ (planeState sv fTrkPitch T0 wire time stime etime hits).spdelta, 0 ≤ x := by
    rw [hs.spdelta]; exact deltas_nonneg sv hsqrt _
  have hR := producePlane_ResidualRange sv junk fTrkPitch T0 wire time stime etime deadwire hits hne
  have hlen := producePlane_ResidualRange_length sv junk fTrkPitch T0 wire time stime etime deadwire hits
  refine ⟨?_, ?_, ?_⟩
  · intro x hx
    obtain ⟨i, hi, rfl⟩ := mem_iff_vecRead junk _ x hx
    rw [hlen] at hi
    rw [hR]
    cases hg : resolveDirection sv junk (planeState sv fTrkPitch T0 wire time stime etime hits) with
    | true =>
      exact fillResRng_DS_nonneg junk _ _ hsp hnn
        ((acceptedHits sv fTrkPitch hits).length - 1 - i) i (by omega)
    | false =>
      have h2 : 2 ≤ (acceptedHits sv fTrkPitch hits).length := by
        rcases hin with h | h
        · exact h
        · rw [hg] at h; exact absurd h (by simp)
      exact fillResRng_US_nonneg junk _ _ hsp h2 hnn i hi
  · intro hg i hi
    rw [← vecRead_eq_getD junk 0 _ i (by rw [hlen]; omega),
      ← vecRead_eq_getD junk 0 _ (i + 1) (by rw [hlen]; omega), hR, hg,
      fillResRng_DS_step junk _ _ i hi]
    exact le_add_of_nonneg_right (hnn _ (vecRead_mem junk _ _ (by rw [hsp]; omega)))
  · intro hg i hi
    rw [← vecRead_eq_getD junk 0 _ i (by rw [hlen]; omega),
      ← vecRead_eq_getD junk 0 _ (i + 1) (by rw [hlen]; omega), hR, hg,
      fillResRng_US_step junk _ _ (i + 1) (by omega) hi]
    exact le_add_of_nonneg_right (hnn _ (vecRead_mem junk _ _ (by rw [hsp]; omega)))

theorem sqrtQ_nonneg (q : ℚ) : 0 ≤ sqrtQ q :=
  div_nonneg (Nat.cast_nonneg _) (Nat.cast_nonneg _)

/-- Scenario B with the flip enabled: the track goes downstream and the residual
range falls towards index 4. -/
theorem scenarioB_residual_range :
    resolveDirection (testServices false true (3 / 10)) 0
        (planeState (testServices false true (3 / 10)) 0 0 0 0 0 0 scenarioB) = true
    ∧ (producePlane (testServices false true (3 / 10)) 0 0 0 0 0 0 0 [] scenarioB).ResidualRange
        = [9 / 2, 7 / 2, 5 / 2, 3 / 2, 1 / 2] :=
  ⟨by decide!, by decide!⟩

end Monotone

section SinglePoint
variable {K : Type} [LinearOrderedField K]

theorem resolveDirection_planeState (sv : Services K) (junk fTrkPitch T0 : K) (wire : Nat)
    (time stime etime : K) (hits : List (Hit K)) :
    resolveDirection sv junk (planeState sv fTrkPitch T0 wire time stime etime hits)
      = GoingDS ((((acceptedHits sv fTrkPitch hits).map (chargeOf sv)).reverse.take 4).sum)
          ((((acceptedHits sv fTrkPitch hits).map (chargeOf sv)).take 4).sum)
          sv.fFlipTrack_dQdx := by
  have hs := holds_planeState sv fTrkPitch T0 wire time stime etime hits
  unfold resolveDirection
  simp only
  rw [hs.ChargeBeg, hs.ChargeEnd, hs.fnsps, DSChgLoop_eq,
    USChgLoop_eq junk _ _ 0 0 (by simp)]
  simp

theorem single_point_direction (sv : Services K) (junk fTrkPitch T0 : K) (wire : Nat)
    (time stime etime : K) (hits : List (Hit K))
    (h1 : (acceptedHits sv fTrkPitch hits).length = 1) :
    resolveDirection sv junk (planeState sv fTrkPitch T0 wire time stime etime hits)
      = !sv.fFlipTrack_dQdx := by
  rw [resolveDirection_planeState]
  obtain ⟨a, ha⟩ := List.length_eq_one.mp h1
  rw [ha]
  simp [GoingDS]

theorem single_point_spdelta (sv : Services K) (fTrkPitch T0 : K) (wire : Nat)
    (time stime etime : K) (hits : List (Hit K))
    (h1 : (acceptedHits sv fTrkPitch hits).length = 1) :
    (planeState sv fTrkPitch T0 wire time stime etime hits).spdelta = [0] := by
  rw [(holds_planeState sv fTrkPitch T0 wire time stime etime hits).spdelta]
  obtain ⟨a, ha⟩ := List.length_eq_one.mp h1
  rw [ha]
  rfl

theorem single_point_ResidualRange (sv : Services K) (junk fTrkPitch T0 : K) (wire : Nat)
    (time stime etime : K) (deadwire : List K) (hits : List (Hit K))
    (h1 : (acceptedHits sv fTrkPitch hits).length = 1) :
    (producePlane sv junk fTrkPitch T0 wire time stime etime deadwire hits).ResidualRange
      = if sv.fFlipTrack_dQdx then [junk / 2] else [0] := by
  have hne : acceptedHits sv fTrkPitch hits ≠ [] := by
    intro h; rw [h] at h1; simp at h1
  rw [producePlane_ResidualRange sv junk fTrkPitch T0 wire time stime etime deadwire hits hne,
    single_point_direction sv junk fTrkPitch T0 wire time stime etime hits h1,
    single_point_spdelta sv fTrkPitch T0 wire time stime etime hits h1, h1]
  cases sv.fFlipTrack_dQdx <;> simp [fillResRng, resRngUp, resRngDown, vecRead]

/-- C5 (failing input): a plane with one hit whose only space point is `(0, 0, 5)`,
plane pitch 0.3, the direction flip enabled, and the value `-7` in the memory
behind `spdelta`: one point is accepted and the emitted residual range has a
negative entry. -/
theorem C5_single_point_negative_range :
    ∃ x ∈ (producePlaneOfHits (testServices false true 0) testPitchServices (-7) (3 / 10) 0 0
        0 0 0 0 [] singleHitPlane).ResidualRange, x < 0 := by
  decide!

/-- C6 (failing input): on a plane with exactly one accepted point and the
direction flip enabled, line 410 reads `spdelta[1]` of the one-element `spdelta`,
so the emitted residual range is half of whatever lies behind the vector; with
the flip disabled the read is `spdelta[0]` and the residual range is `[0]`. -/
theorem C6_single_point_reads_past_spdelta (sv : Services K) (junk fTrkPitch T0 : K)
    (wire : Nat) (time stime etime : K) (deadwire : List K) (hits : List (Hit K))
    (h1 : (acceptedHits sv fTrkPitch hits).length = 1) :
    (planeState sv fTrkPitch T0 wire time stime etime hits).spdelta = [0]
    ∧ (sv.fFlipTrack_dQdx = true →
        (producePlane sv junk fTrkPitch T0 wire time stime etime deadwire hits).ResidualRange
          = [junk / 2])
    ∧ (sv.fFlipTrack_dQdx = false →
        (producePlane sv junk fTrkPitch T0 wire time stime etime deadwire hits).ResidualRange
          = [0]) := by
  refine ⟨single_point_spdelta sv fTrkPitch T0 wire time stime etime hits h1, ?_, ?_⟩
  · intro hf
    rw [single_point_ResidualRange sv junk fTrkPitch T0 wire time stime etime deadwire hits h1, hf]
    rfl
  · intro hf
    rw [single_point_ResidualRange sv junk fTrkPitch T0 wire time stime etime deadwire hits h1, hf]
    rfl

/-- C6 (failing input), at the plane with one hit whose only space point is
`(0, 0, 5)`, plane pitch 0.3, the flip enabled and the value `3` behind `spdelta`. -/
theorem C6_single_point_reads_past_spdelta_witness :
    (acceptedHits (servicesOfPlane (testServices false true 0) testPitchServices 3 0 singleHitPlane)
        (3 / 10) (singleHitPlane.map (fun ph => ph.hit))).length = 1
    ∧ (servicesOfPlane (testServices false true 0) testPitchServices 3 0
        singleHitPlane).fFlipTrack_dQdx = true
    ∧ (producePlane (servicesOfPlane (testServices false true 0) testPitchServices 3 0 singleHitPlane)
        3 (3 / 10) 0 0 0 0 0 [] (singleHitPlane.map (fun ph => ph.hit))).ResidualRange = [3 / 2] :=
  by
  have h := (C6_single_point_reads_past_spdelta
    (servicesOfPlane (testServices false true 0) testPitchServices 3 0 singleHitPlane)
    3 (3 / 10) 0 0 0 0 0 [] (singleHitPlane.map (fun ph => ph.hit)) (by decide!)).2.1
  exact ⟨by decide!, rfl, h rfl⟩

end SinglePoint

section TrackLength
variable {K : Type} [LinearOrderedField K]

theorem deltasFrom_sum (sv : Services K) :
    ∀ (ps : List (TVector3 K)) (prev : TVector3 K),
      (deltasFrom sv prev ps).sum
        = ∑ i in Finset.range ps.length,
            dist3D sv ((prev :: ps).getD i ⟨0, 0, 0⟩) ((prev :: ps).getD (i + 1) ⟨0, 0, 0⟩) := by
  intro ps
  induction ps with
  | nil => intro prev; simp [deltasFrom]
  | cons p ps ih =>
    intro prev
    rw [deltasFrom, List.sum_cons, ih p, List.length_cons, Finset.sum_range_succ', add_comm]
    rfl

theorem deltas_sum (sv : Services K) (ps : List (TVector3 K)) :
    (deltas sv ps).sum
      = ∑ i in Finset.Ico 1 ps.length,
          dist3D sv (ps.getD (i - 1) ⟨0, 0, 0⟩) (ps.getD i ⟨0, 0, 0⟩) := by
  cases ps with
  | nil => simp [deltas]
  | cons p ps =>
    rw [deltas, List.sum_cons, zero_add, deltasFrom_sum, List.length_cons,
      Finset.sum_Ico_eq_sum_range]
    apply Finset.sum_congr (by simp)
    intro i _
    rw [Nat.add_comm 1 i, Nat.add_sub_cancel]

/-- C7: on a plane with at least one accepted point the emitted track length is the
sum of all entries of `spdelta`, whose first entry is `0`, and it is the sum over
`i = 1, ..., N-1` of the separation `sqrt(dx*dx + dy*dy + dz*dz)` of the emitted
positions `i-1` and `i`. -/
theorem C7_track_length (sv : Services K) (junk fTrkPitch T0 : K) (wire : Nat)
    (time stime etime : K) (deadwire : List K) (hits : List (Hit K))
    (hN : 1 ≤ (acceptedHits sv fTrkPitch hits).length) :
    (producePlane sv junk fTrkPitch T0 wire time stime etime deadwire hits).Range
        = (planeState sv fTrkPitch T0 wire time stime etime hits).spdelta.sum
    ∧ (planeState sv fTrkPitch T0 wire time stime etime hits).spdelta.head? = some 0
    ∧ (producePlane sv junk fTrkPitch T0 wire time stime etime deadwire hits).Range
        = ∑ i in Finset.Ico 1 (acceptedHits sv fTrkPitch hits).length,
            dist3D sv
              ((producePlane sv junk fTrkPitch T0 wire time stime etime deadwire hits).XYZ.getD
                (i - 1) ⟨0, 0, 0⟩)
              ((producePlane sv junk fTrkPitch T0 wire time stime etime deadwire hits).XYZ.getD
                i ⟨0, 0, 0⟩) := by
  have hs := holds_planeState sv fTrkPitch T0 wire time stime etime hits
  have h0 : (planeState sv fTrkPitch T0 wire time stime etime hits).fnsps ≠ 0 := by
    rw [hs.fnsps]; omega
  have hRange : (producePlane sv junk fTrkPitch T0 wire time stime etime deadwire hits).Range
      = (planeState sv fTrkPitch T0 wire time stime etime hits).spdelta.sum := by
    rw [← hs.Trk_Length]
    unfold producePlane finishPlane
    rw [if_neg h0]
  refine ⟨hRange, ?_, ?_⟩
  · rw [hs.spdelta]
    cases hacc : acceptedHits sv fTrkPitch hits with
    | nil => rw [hacc] at hN; simp at hN
    | cons a as => rfl
  · rw [hRange, producePlane_XYZ, hs.spdelta, deltas_sum, List.length_map]

/-- C7, at Scenario B. -/
theorem C7_track_length_witness :
    1 ≤ (acceptedHits (testServices false true (3 / 10)) 0 scenarioB).length
    ∧ (producePlane (testServices false true (3 / 10)) 0 0 0 0 0 0 0 [] scenarioB).Range
        = (planeState (testServices false true (3 / 10)) 0 0 0 0 0 0 scenarioB).spdelta.sum :=
  ⟨by decide!,
    (C7_track_length (testServices false true (3 / 10)) 0 0 0 0 0 0 0 [] scenarioB (by decide!)).1⟩

end TrackLength

section DirectionClaims
variable {K : Type} [LinearOrderedField K]

theorem GoingDS_iff (DSChg USChg : K) (flip : Bool) :
    GoingDS DSChg USChg flip = true ↔ (DSChg > USChg ∨ flip = false) := by
  simp [GoingDS]

theorem charge_sums (junk : K) (charges : List K) :
    DSChgLoop charges.reverse 0 0
        = (charges.drop (charges.length - min 4 charges.length)).sum
    ∧ USChgLoop junk charges charges.length 0 0
        = (charges.take (min 4 charges.length)).sum := by
  constructor
  · rw [DSChgLoop_eq, ← reverse_take_four_sum]
    simp
  · rw [USChgLoop_eq junk charges _ 0 0 (by simp), ← take_four_eq]
    simp

/-- C8: `GoingDS` is true exactly when the sum of the last `min(4, N)` accepted raw
charges is strictly greater than the sum of the first `min(4, N)`, or the flip
heuristic is disabled.  Stated for the two loops of lines 389-399 run on any
sequence of charges (pushed in order onto `ChargeBeg` and the stack
`ChargeEnd`), and for the direction resolved on the plane of any hits. -/
theorem C8_direction_from_charge_sums (sv : Services K) (junk fTrkPitch T0 : K) (wire : Nat)
    (time stime etime : K) (hits : List (Hit K)) (charges : List K) (flip : Bool) :
    (GoingDS (DSChgLoop charges.reverse 0 0) (USChgLoop junk charges charges.length 0 0) flip = true
      ↔ ((charges.drop (charges.length - min 4 charges.length)).sum
            > (charges.take (min 4 charges.length)).sum
          ∨ flip = false))
    ∧ (planeState sv fTrkPitch T0 wire time stime etime hits).ChargeBeg
        = (acceptedHits sv fTrkPitch hits).map (chargeOf sv)
    ∧ (planeState sv fTrkPitch T0 wire time stime etime hits).ChargeEnd
        = ((acceptedHits sv fTrkPitch hits).map (chargeOf sv)).reverse
    ∧ (resolveDirection sv junk (planeState sv fTrkPitch T0 wire time stime etime hits) = true
      ↔ ((((acceptedHits sv fTrkPitch hits).map (chargeOf sv)).drop
              ((acceptedHits sv fTrkPitch hits).length
                - min 4 (acceptedHits sv fTrkPitch hits).length)).sum
            > (((acceptedHits sv fTrkPitch hits).map (chargeOf sv)).take
                (min 4 (acceptedHits sv fTrkPitch hits).length)).sum
          ∨ sv.fFlipTrack_dQdx = false)) := by
  have hs := holds_planeState sv fTrkPitch T0 wire time stime etime hits
  refine ⟨?_, hs.ChargeBeg, hs.ChargeEnd, ?_⟩
  · rw [GoingDS_iff, (charge_sums junk charges).1, (charge_sums junk charges).2]
  · have h := charge_sums junk ((acceptedHits sv fTrkPitch hits).map (chargeOf sv))
    rw [List.length_map] at h
    unfold resolveDirection
    simp only
    rw [GoingDS_iff, hs.ChargeBeg, hs.ChargeEnd, hs.fnsps, h.1, h.2]

/-- C9 (counterexample): with equal charge sums and the flip enabled the direction
is `false` for `(US, DS)` and for `(DS, US)`; it is not negated by the swap. -/
theorem C9_swap_does_not_always_flip :
    ¬ (∀ (US DS : ℚ) (flip : Bool), GoingDS DS US flip = !GoingDS US DS flip) := by
  intro h
  have := h 1 1 true
  simp [GoingDS] at this

/-- C9 (amended): with the flip heuristic enabled and different charge sums, swapping
the two sums negates `GoingDS`; with equal sums both directions are `false`, and
with the heuristic disabled both are `true`.  Reversing the sequence of accepted
charges swaps the two sums computed by the loops of lines 389-399. -/
theorem C9_swap_flips_direction (US DS : K) (flip : Bool) (junk : K) (charges : List K) :
    (flip = true → US ≠ DS → GoingDS DS US flip = !GoingDS US DS flip)
    ∧ (flip = true → US = DS → GoingDS DS US flip = false ∧ GoingDS US DS flip = false)
    ∧ (flip = false → GoingDS DS US flip = true ∧ GoingDS US DS flip = true)
    ∧ USChgLoop junk charges.reverse charges.reverse.length 0 0 = DSChgLoop charges.reverse 0 0
    ∧ DSChgLoop charges.reverse.reverse 0 0 = USChgLoop junk charges charges.length 0 0 := by
  refine ⟨?_, ?_, ?_, ?_, ?_⟩
  · intro hf hne
    subst hf
    rcases lt_or_gt_of_ne hne with h | h
    · have h2 : ¬ DS < US := not_lt.mpr (le_of_lt h)
      simp [GoingDS, h, h2]
    · have h2 : ¬ US < DS := not_lt.mpr (le_of_lt h)
      simp [GoingDS, h, h2]
  · intro hf he
    subst hf he
    simp [GoingDS]
  · intro hf
    subst hf
    simp [GoingDS]
  · rw [USChgLoop_eq junk charges.reverse _ 0 0 (by simp), DSChgLoop_eq]
    simp
  · rw [USChgLoop_eq junk charges _ 0 0 (by simp), DSChgLoop_eq]
    simp

/-- C9 (amended), at the sums 37 and 57 with the flip enabled. -/
theorem C9_swap_flips_direction_witness :
    true = true ∧ (37 : ℚ) ≠ 57 ∧ GoingDS (57 : ℚ) 37 true = !GoingDS (37 : ℚ) 57 true :=
  ⟨rfl, by norm_num,
    (C9_swap_flips_direction (37 : ℚ) 57 true 0 []).1 rfl (by norm_num)⟩

end DirectionClaims

section PIDA
variable {K : Type} [LinearOrderedField K]

theorem interior_filter_plain (N : Nat) (hN : 1 ≤ N) :
    (Finset.range N).filter (fun k => k ≠ 0 ∧ k ≠ N - 1) = Finset.Ico 1 (N - 1) := by
  ext k
  simp only [Finset.mem_filter, Finset.mem_range, Finset.mem_Ico]
  omega

theorem interior_count (N : Nat) (hN : 1 ≤ N) :
    (∑ k in Finset.range N, if (k ≠ 0 ∧ k ≠ N - 1) then 1 else 0) = N - 2 := by
  rw [← Finset.sum_filter, interior_filter_plain N hN]
  simp
  omega

theorem interior_sum (N : Nat) (hN : 1 ≤ N) (f : Nat → K) :
    (∑ k in Finset.range N, if (k ≠ 0 ∧ k ≠ N - 1) then f k else 0)
      = ∑ k in Finset.Ico 1 (N - 1), f k := by
  rw [← Finset.sum_filter, interior_filter_plain N hN]

theorem producePlane_PIDA (sv : Services K) (junk fTrkPitch T0 : K) (wire : Nat)
    (time stime etime : K) (deadwire : List K) (hits : List (Hit K))
    (hN : 1 ≤ (acceptedHits sv fTrkPitch hits).length) :
    (producePlane sv junk fTrkPitch T0 wire time stime etime deadwire hits).PIDA
      = if (acceptedHits sv fTrkPitch hits).length - 2 > 0 then
          (∑ i in Finset.Ico 1 ((acceptedHits sv fTrkPitch hits).length - 1),
            termAi sv (producePlane sv junk fTrkPitch T0 wire time stime etime deadwire hits).dEdx
              (producePlane sv junk fTrkPitch T0 wire time stime etime deadwire hits).ResidualRange
              junk i)
            / (((acceptedHits sv fTrkPitch hits).length - 2 : ℕ) : K)
        else -1 := by
  have hne : acceptedHits sv fTrkPitch hits ≠ [] := by
    intro h; rw [h] at hN; simp at hN
  have hs := holds_planeState sv fTrkPitch T0 wire time stime etime hits
  have h0 : (planeState sv fTrkPitch T0 wire time stime etime hits).fnsps ≠ 0 := by
    rw [hs.fnsps]; omega
  rw [producePlane_dEdx, producePlane_ResidualRange _ _ _ _ _ _ _ _ _ _ hne, ← hs.fdEdx]
  unfold producePlane finishPlane
  rw [if_neg h0]
  simp only [pointLoop_PIDA, pointLoop_nPIDA, zero_add]
  rw [hs.fnsps, interior_count _ hN, interior_sum _ hN]

/-- C10: on a plane with `N >= 1` accepted points, `PIDA` is `-1` when `N < 3`, and
when `N >= 3` it is the sum of `dEdx[i] * pow(R[i], 0.42)` over the interior
indices `i = 1, ..., N-2` divided by their number `N - 2`. -/
theorem C10_PIDA_interior_mean (sv : Services K) (junk fTrkPitch T0 : K) (wire : Nat)
    (time stime etime : K) (deadwire : List K) (hits : List (Hit K))
    (hN : 1 ≤ (acceptedHits sv fTrkPitch hits).length) :
    (3 ≤ (acceptedHits sv fTrkPitch hits).length →
      (producePlane sv junk fTrkPitch T0 wire time stime etime deadwire hits).PIDA
        = (∑ i in Finset.Ico 1 ((acceptedHits sv fTrkPitch hits).length - 1),
            (producePlane sv junk fTrkPitch T0 wire time stime etime deadwire hits).dEdx.getD i 0
              * sv.pow
                  ((producePlane sv junk fTrkPitch T0 wire time stime etime deadwire
                    hits).ResidualRange.getD i 0)
                  0.42)
          / (((acceptedHits sv fTrkPitch hits).length - 2 : ℕ) : K))
    ∧ ((acceptedHits sv fTrkPitch hits).length < 3 →
      (producePlane sv junk fTrkPitch T0 wire time stime etime deadwire hits).PIDA = -1)
    ∧ (Finset.Ico 1 ((acceptedHits sv fTrkPitch hits).length - 1)).card
        = (acceptedHits sv fTrkPitch hits).length - 2 := by
  have hP := producePlane_PIDA sv junk fTrkPitch T0 wire time stime etime deadwire hits hN
  have hl1 : (producePlane sv junk fTrkPitch T0 wire time stime etime deadwire hits).dEdx.length
      = (acceptedHits sv fTrkPitch hits).length := by
    rw [producePlane_dEdx, List.length_map]
  have hl2 := producePlane_ResidualRange_length sv junk fTrkPitch T0 wire time stime etime
    deadwire hits
  refine ⟨?_, ?_, ?_⟩
  · intro h3
    rw [hP, if_pos (by omega)]
    congr 1
    apply Finset.sum_congr rfl
    intro i hi
    rw [Finset.mem_Ico] at hi
    unfold termAi
    rw [vecRead_eq_getD junk 0 _ i (by rw [hl1]; omega),
      vecRead_eq_getD junk 0 _ i (by rw [hl2]; omega)]
  · intro h3
    rw [hP, if_neg (by omega)]
  · simp
    omega

/-- C10, at Scenario B (five accepted points, three interior ones). -/
theorem C10_PIDA_interior_mean_witness :
    1 ≤ (acceptedHits (testServices false true (3 / 10)) 0 scenarioB).length
    ∧ 3 ≤ (acceptedHits (testServices false true (3 / 10)) 0 scenarioB).length
    ∧ (producePlane (testServices false true (3 / 10)) 0 0 0 0 0 0 0 [] scenarioB).PIDA
        = (∑ i in Finset.Ico 1 ((acceptedHits (testServices false true (3 / 10)) 0 scenarioB).length - 1),
            (producePlane (testServices false true (3 / 10)) 0 0 0 0 0 0 0 [] scenarioB).dEdx.getD i 0
              * (testServices false true (3 / 10)).pow
                  ((producePlane (testServices false true (3 / 10)) 0 0 0 0 0 0 0 []
                    scenarioB).ResidualRange.getD i 0)
                  0.42)
          / (((acceptedHits (testServices false true (3 / 10)) 0 scenarioB).length - 2 : ℕ) : ℚ) :=
  ⟨by decide!, by decide!,
    (C10_PIDA_interior_mean (testServices false true (3 / 10)) 0 0 0 0 0 0 0 [] scenarioB
      (by decide!)).1 (by decide!)⟩

end PIDA

section EmptyPlane
variable {K : Type} [LinearOrderedField K]

/-- C11 (counterexample): a plane whose only hit has no space point, so that no hit
is accepted: the emitted kinetic energy and track length are `util::kBogusD`
(here `-999`), not `0`, and the variable `PIDA` holds `0`, not `-1`. -/
theorem C11_empty_plane_is_bogus :
    ¬ ((producePlaneOfHits (testServices false true 0) testPitchServices 0 (3 / 10) 0 0
          0 0 0 0 [] noSpacePointPlane).KineticEnergy = 0
      ∧ (producePlaneOfHits (testServices false true 0) testPitchServices 0 (3 / 10) 0 0
          0 0 0 0 [] noSpacePointPlane).Range = 0
      ∧ (producePlaneOfHits (testServices false true 0) testPitchServices 0 (3 / 10) 0 0
          0 0 0 0 [] noSpacePointPlane).PIDA = -1) := by
  decide!

/-- C11 (amended): on a plane with zero accepted hits the emitted kinetic energy and
track length are both the constant `util::kBogusD`, all six sequences are empty,
and the variable `PIDA` still holds its initial `0`. -/
theorem C11_empty_plane (sv : Services K) (junk fTrkPitch T0 : K) (wire : Nat)
    (time stime etime : K) (deadwire : List K) (hits : List (Hit K))
    (hN : acceptedHits sv fTrkPitch hits = []) :
    (producePlane sv junk fTrkPitch T0 wire time stime etime deadwire hits).KineticEnergy
        = sv.kBogusD
    ∧ (producePlane sv junk fTrkPitch T0 wire time stime etime deadwire hits).Range = sv.kBogusD
    ∧ (producePlane sv junk fTrkPitch T0 wire time stime etime deadwire hits).PIDA = 0
    ∧ (producePlane sv junk fTrkPitch T0 wire time stime etime deadwire hits).dEdx = []
    ∧ (producePlane sv junk fTrkPitch T0 wire time stime etime deadwire hits).dQdx = []
    ∧ (producePlane sv junk fTrkPitch T0 wire time stime etime deadwire hits).ResidualRange = []
    ∧ (producePlane sv junk fTrkPitch T0 wire time stime etime deadwire hits).TrkPitch = []
    ∧ (producePlane sv junk fTrkPitch T0 wire time stime etime deadwire hits).XYZ = []
    ∧ (producePlane sv junk fTrkPitch T0 wire time stime etime deadwire hits).DeadWireResR = [] := by
  have hs := holds_planeState sv fTrkPitch T0 wire time stime etime hits
  have h0 : (planeState sv fTrkPitch T0 wire time stime etime hits).fnsps = 0 := by
    rw [hs.fnsps, hN]; rfl
  have hp : (planeState sv fTrkPitch T0 wire time stime etime hits).fpitch = [] := by
    rw [hs.fpitch, hN]; rfl
  unfold producePlane finishPlane
  rw [if_pos h0]
  exact ⟨rfl, rfl, rfl, rfl, rfl, rfl, hp, rfl, rfl⟩

/-- C11 (amended), at the plane whose only hit has no space point. -/
theorem C11_empty_plane_witness :
    acceptedHits (servicesOfPlane (testServices false true 0) testPitchServices 0 0
        noSpacePointPlane) (3 / 10) (noSpacePointPlane.map (fun ph => ph.hit)) = []
    ∧ (producePlaneOfHits (testServices false true 0) testPitchServices 0 (3 / 10) 0 0
          0 0 0 0 [] noSpacePointPlane).KineticEnergy = -999 := by
  have h := (C11_empty_plane
    (servicesOfPlane (testServices false true 0) testPitchServices 0 0 noSpacePointPlane)
    0 (3 / 10) 0 0 0 0 0 [] (noSpacePointPlane.map (fun ph => ph.hit)) (by decide!)).1
  exact ⟨by decide!, h⟩

end EmptyPlane
section NotOnTrack
variable {K : Type} [LinearOrderedField K]

theorem sptmapInsert_mem (d : K) (i : Nat) :
    ∀ (l : List (K × Nat)) (e : K × Nat), e ∈ sptmapInsert d i l → e = (d, i) ∨ e ∈ l := by
  intro l
  induction l with
  | nil => intro e he; simp [sptmapInsert] at he; exact Or.inl he
  | cons a l ih =>
    intro e he
    obtain ⟨d2, j⟩ := a
    simp only [sptmapInsert] at he
    split at he
    · simp only [List.mem_cons] at he ⊢
      tauto
    · split at he
      · exact Or.inr he
      · simp only [List.mem_cons] at he ⊢
        rcases he with h | h
        · exact Or.inr (Or.inl h)
        · rcases ih e h with h2 | h2
          · exact Or.inl h2
          · exact Or.inr (Or.inr h2)

theorem fillMaps_keys (sqrt : K → K) (ps : PitchServices K) (junk : K) (tp : TrackPoints K)
    (w0 x0 : K) (P : K → Prop) :
    ∀ (todo i : Nat) (m : List (K × Nat)) (sm : List (Nat × Int)),
      (∀ e ∈ m, P e.1) →
      (∀ j, i ≤ j → j < i + todo → P (distanceTo sqrt ps junk tp w0 x0 j)) →
      ∀ e ∈ (fillMaps sqrt ps junk tp w0 x0 todo i m sm).1, P e.1 := by
  intro todo
  induction todo with
  | zero => intro i m sm hm _ e he; exact hm e he
  | succ todo ih =>
    intro i m sm hm hd e he
    rw [fillMaps] at he
    refine ih (i + 1) _ _ ?_ ?_ e he
    · intro e2 he2
      rcases sptmapInsert_mem _ _ _ _ he2 with h | h
      · rw [h]; exact hd i (le_refl _) (by omega)
      · exact hm e2 h
    · intro j hj1 hj2
      exact hd j (by omega) (by omega)

theorem nearLoop_far (junk : K) (tp : TrackPoints K) (sm : List (Nat × Int))
    (m : List (K × Nat)) (hm : ∀ e ∈ m, 30 < e.1) :
    (nearLoop junk tp sm m { vx := [], vy := [], vz := [], vs := [], np := 0 } = none)
    ∨ (nearLoop junk tp sm m { vx := [], vy := [], vz := [], vs := [], np := 0 }
        = some { vx := [], vy := [], vz := [], vs := [], np := 0 }) := by
  cases m with
  | nil => right; rfl
  | cons a rest =>
    left
    obtain ⟨d, j⟩ := a
    have hd : 30 < d := hm (d, j) (List.mem_cons_self _ _)
    simp [nearLoop, hd]

theorem GetPitch_far (sqrt : K → K) (ps : PitchServices K) (junk : K) (tp : TrackPoints K)
    (TickT0 : K) (hit : Hit K)
    (hfar : ∀ i, i < tp.trkx.length →
      30 < distanceTo sqrt ps junk tp (hit.Wire : K)
        (ps.ConvertTicksToX (hit.PeakTime - TickT0) hit.Plane hit.TPC hit.Cryostat) i) :
    GetPitch sqrt ps junk tp TickT0 hit = { xyz3d := ⟨-1000, -1000, -1000⟩, pitch := -1 } := by
  have hk := fillMaps_keys sqrt ps junk tp (hit.Wire : K)
    (ps.ConvertTicksToX (hit.PeakTime - TickT0) hit.Plane hit.TPC hit.Cryostat)
    (fun d => 30 < d) tp.trkx.length 0 [] [] (by simp)
    (by intro j _ hj; exact hfar j (by omega))
  unfold GetPitch selectNearest
  simp only
  rcases nearLoop_far junk tp _ _ hk with h | h
  · rw [h]
  · rw [h]
    simp

theorem hitStep_not_on_track (sv : Services K) (fTrkPitch T0 : K) (s : PlaneState K)
    (hit : Hit K) (hz : (sv.GetPitch hit).xyz3d.z < -100) :
    hitStep sv fTrkPitch T0 s hit
      = { s with
          planeID := if s.planeID.isNone then some ⟨hit.Cryostat, hit.TPC, hit.Plane⟩
            else s.planeID,
          wire := hit.Wire, time := hit.PeakTime, stime := hit.PeakTimeMinusRMS,
          etime := hit.PeakTimePlusRMS } := by
  simp only [hitStep, hz, if_true]

/-- C13: a hit with no candidate track point at all, or whose nearest candidate is
at a distance strictly greater than 30, gets the pitch `-1` and the position
`(-1000, -1000, -1000)` from `GetPitch`; the hit is not accepted, its pass through
the hit loop changes only the scalars `planeID`, `wire`, `time`, `stime`,
`etime` (no buffer, not `fnsps`, `Trk_Length` or `Kin_En`), and the loop goes on
with the remaining hits. -/
theorem C13_hit_not_on_track (sv : Services K) (ps : PitchServices K) (junk : K)
    (fTrkPitch T0 TickT0 : K) (hits : List (PlaneHit K)) (hit : Hit K) (s : PlaneState K)
    (rest : List (Hit K))
    (hfar : (trackPointsOf ps TickT0 hits).trkx = []
      ∨ ∃ i, i < (trackPointsOf ps TickT0 hits).trkx.length
        ∧ 30 < candidateDistance sv.sqrt ps junk (trackPointsOf ps TickT0 hits) TickT0 hit i
        ∧ ∀ j, j < (trackPointsOf ps TickT0 hits).trkx.length →
          candidateDistance sv.sqrt ps junk (trackPointsOf ps TickT0 hits) TickT0 hit i
            ≤ candidateDistance sv.sqrt ps junk (trackPointsOf ps TickT0 hits) TickT0 hit j) :
    GetPitch sv.sqrt ps junk (trackPointsOf ps TickT0 hits) TickT0 hit
        = { xyz3d := ⟨-1000, -1000, -1000⟩, pitch := -1 }
    ∧ accepted (servicesOfPlane sv ps junk TickT0 hits) fTrkPitch hit = false
    ∧ hitStep (servicesOfPlane sv ps junk TickT0 hits) fTrkPitch T0 s hit
        = { s with
            planeID := if s.planeID.isNone then some ⟨hit.Cryostat, hit.TPC, hit.Plane⟩
              else s.planeID,
            wire := hit.Wire, time := hit.PeakTime, stime := hit.PeakTimeMinusRMS,
            etime := hit.PeakTimePlusRMS }
    ∧ hitLoop (servicesOfPlane sv ps junk TickT0 hits) fTrkPitch T0 s (hit :: rest)
        = hitLoop (servicesOfPlane sv ps junk TickT0 hits) fTrkPitch T0
            { s with
              planeID := if s.planeID.isNone then some ⟨hit.Cryostat, hit.TPC, hit.Plane⟩
                else s.planeID,
              wire := hit.Wire, time := hit.PeakTime, stime := hit.PeakTimeMinusRMS,
              etime := hit.PeakTimePlusRMS }
            rest := by
  have hall : ∀ i, i < (trackPointsOf ps TickT0 hits).trkx.length →
      30 < distanceTo sv.sqrt ps junk (trackPointsOf ps TickT0 hits) (hit.Wire : K)
        (ps.ConvertTicksToX (hit.PeakTime - TickT0) hit.Plane hit.TPC hit.Cryostat) i := by
    intro j hj
    rcases hfar with h | ⟨i, _, h30, hmin⟩
    · rw [h] at hj; simp at hj
    · exact lt_of_lt_of_le h30 (hmin j hj)
  have hG := GetPitch_far sv.sqrt ps junk (trackPointsOf ps TickT0 hits) TickT0 hit hall
  have hsv : (servicesOfPlane sv ps junk TickT0 hits).GetPitch hit
      = { xyz3d := ⟨-1000, -1000, -1000⟩, pitch := -1 } := hG
  have hz : ((servicesOfPlane sv ps junk TickT0 hits).GetPitch hit).xyz3d.z < -100 := by
    rw [hsv]; norm_num
  have hstep := hitStep_not_on_track (servicesOfPlane sv ps junk TickT0 hits) fTrkPitch T0 s hit hz
  refine ⟨hG, ?_, hstep, ?_⟩
  · simp [accepted, hz]
  · rw [hitLoop, List.foldl_cons, hstep]
    rfl

/-- C13, at the plane with a space point at the tick 0 and a hit at the tick 100. -/
theorem C13_hit_not_on_track_witness :
    (∃ i, i < (trackPointsOf testPitchServices 0 farPlane).trkx.length
        ∧ 30 < candidateDistance sqrtQ testPitchServices 0 (trackPointsOf testPitchServices 0 farPlane)
            0 (testHitAt 5 100) i
        ∧ ∀ j, j < (trackPointsOf testPitchServices 0 farPlane).trkx.length →
          candidateDistance sqrtQ testPitchServices 0 (trackPointsOf testPitchServices 0 farPlane)
              0 (testHitAt 5 100) i
            ≤ candidateDistance sqrtQ testPitchServices 0
                (trackPointsOf testPitchServices 0 farPlane) 0 (testHitAt 5 100) j)
    ∧ GetPitch sqrtQ testPitchServices 0 (trackPointsOf testPitchServices 0 farPlane) 0
        (testHitAt 5 100) = { xyz3d := ⟨-1000, -1000, -1000⟩, pitch := -1 } := by
  have hfar : ∃ i, i < (trackPointsOf testPitchServices 0 farPlane).trkx.length
        ∧ 30 < candidateDistance sqrtQ testPitchServices 0 (trackPointsOf testPitchServices 0 farPlane)
            0 (testHitAt 5 100) i
        ∧ ∀ j, j < (trackPointsOf testPitchServices 0 farPlane).trkx.length →
          candidateDistance sqrtQ testPitchServices 0 (trackPointsOf testPitchServices 0 farPlane)
              0 (testHitAt 5 100) i
            ≤ candidateDistance sqrtQ testPitchServices 0
                (trackPointsOf testPitchServices 0 farPlane) 0 (testHitAt 5 100) j := by
    refine ⟨0, by decide!, by decide!, ?_⟩
    intro j hj
    have hj1 : j = 0 := by
      have : (trackPointsOf testPitchServices 0 farPlane).trkx.length = 1 := by decide!
      omega
    rw [hj1]
  have h := (C13_hit_not_on_track (testServices false true 0) testPitchServices 0 (3 / 10) 0 0
    farPlane (testHitAt 5 100) (initState 0 0 0 0) [] (Or.inr hfar)).1
  exact ⟨hfar, h⟩

end NotOnTrack
section TwoCandidates
variable {K : Type} [LinearOrderedField K]

/-- C14 (failing input): a hit on wire 5 between two hits on the wires 4 and 6 at
the same tick, whose space points are the two candidates: both are at the
distance 0.3, the second is not inserted into `sptmap`, and `GetPitch` takes the
single point `(0, 0, 4)` with no fit and no direction. -/
theorem C14_equal_distances_drop_candidate :
    (trackPointsOf testPitchServices 0 symmetricPlane).trkx.length = 2
    ∧ candidateDistance sqrtQ testPitchServices 0 (trackPointsOf testPitchServices 0 symmetricPlane)
        0 (testHitAt 5 0) 0 = 3 / 10
    ∧ candidateDistance sqrtQ testPitchServices 0 (trackPointsOf testPitchServices 0 symmetricPlane)
        0 (testHitAt 5 0) 1 = 3 / 10
    ∧ (selectNearest sqrtQ testPitchServices 0 (trackPointsOf testPitchServices 0 symmetricPlane)
        0 (testHitAt 5 0)).map (fun n => n.np) = some 1
    ∧ GetPitch sqrtQ testPitchServices 0 (trackPointsOf testPitchServices 0 symmetricPlane) 0
        (testHitAt 5 0) = { xyz3d := ⟨0, 0, 4⟩, pitch := -1 } := by
  decide!

/-- C15 (counterexample): a hit on wire 5 at the tick 4 with exactly two candidates,
the space points of two hits on the same wire at the ticks 0 and 10 (distances 4
and 6): the fitted direction is along the drift, `cosgamma` is `0`, `GetPitch`
reports the pitch `-1`, and the pitch used for the hit is the track pitch 0.3. -/
theorem C15_two_candidates_fallback :
    (trackPointsOf testPitchServices 0 driftPlane).trkx.length = 2
    ∧ candidateDistance sqrtQ testPitchServices 0 (trackPointsOf testPitchServices 0 driftPlane)
        0 (testHitAt 5 4) 0 = 4
    ∧ candidateDistance sqrtQ testPitchServices 0 (trackPointsOf testPitchServices 0 driftPlane)
        0 (testHitAt 5 4) 1 = 6
    ∧ GetPitch sqrtQ testPitchServices 0 (trackPointsOf testPitchServices 0 driftPlane) 0
        (testHitAt 5 4) = { xyz3d := ⟨-20, 0, 5⟩, pitch := -1 }
    ∧ usedPitch (servicesOfPlane (testServices false true 0) testPitchServices 0 0 driftPlane)
        (3 / 10) (testHitAt 5 4) = 3 / 10 := by
  decide!

end TwoCandidates
section TwoCandidates2
variable {K : Type} [LinearOrderedField K]

theorem selectNearest_two_near_first (sqrt : K → K) (ps : PitchServices K) (junk : K)
    (tp : TrackPoints K) (TickT0 : K) (hit : Hit K) (hlen : tp.trkx.length = 2)
    (hd : candidateDistance sqrt ps junk tp TickT0 hit 0
      < candidateDistance sqrt ps junk tp TickT0 hit 1)
    (h30 : candidateDistance sqrt ps junk tp TickT0 hit 0 ≤ 30) :
    selectNearest sqrt ps junk tp TickT0 hit
      = some { vx := [vecRead junk tp.trkx 0, vecRead junk tp.trkx 1],
               vy := [vecRead junk tp.trky 0, vecRead junk tp.trky 1],
               vz := [vecRead junk tp.trkz 0, vecRead junk tp.trkz 1],
               vs := [candidateDistance sqrt ps junk tp TickT0 hit 0
                        * ((signTo junk tp (hit.Wire : K) 0 : Int) : K),
                      candidateDistance sqrt ps junk tp TickT0 hit 1
                        * ((signTo junk tp (hit.Wire : K) 1 : Int) : K)],
               np := 2 } := by
  unfold candidateDistance at hd h30 ⊢
  have h1 : ¬ (30 < distanceTo sqrt ps junk tp (hit.Wire : K)
      (ps.ConvertTicksToX (hit.PeakTime - TickT0) hit.Plane hit.TPC hit.Cryostat) 0) :=
    not_lt.mpr h30
  have h2 : ¬ (distanceTo sqrt ps junk tp (hit.Wire : K)
      (ps.ConvertTicksToX (hit.PeakTime - TickT0) hit.Plane hit.TPC hit.Cryostat) 1
      < distanceTo sqrt ps junk tp (hit.Wire : K)
      (ps.ConvertTicksToX (hit.PeakTime - TickT0) hit.Plane hit.TPC hit.Cryostat) 0) :=
    not_lt.mpr (le_of_lt hd)
  have h3 : ¬ (distanceTo sqrt ps junk tp (hit.Wire : K)
      (ps.ConvertTicksToX (hit.PeakTime - TickT0) hit.Plane hit.TPC hit.Cryostat) 1
      = distanceTo sqrt ps junk tp (hit.Wire : K)
      (ps.ConvertTicksToX (hit.PeakTime - TickT0) hit.Plane hit.TPC hit.Cryostat) 0) :=
    fun h => absurd hd (by rw [h]; exact lt_irrefl _)
  simp only [selectNearest, hlen, fillMaps, sptmapInsert, h2, h3, if_false, nearLoop, h1,
    and_false, List.nil_append, sptsignmapAt, List.find?, zero_add]
  simp

theorem selectNearest_two_near_second (sqrt : K → K) (ps : PitchServices K) (junk : K)
    (tp : TrackPoints K) (TickT0 : K) (hit : Hit K) (hlen : tp.trkx.length = 2)
    (hd : candidateDistance sqrt ps junk tp TickT0 hit 1
      < candidateDistance sqrt ps junk tp TickT0 hit 0)
    (h30 : candidateDistance sqrt ps junk tp TickT0 hit 1 ≤ 30) :
    selectNearest sqrt ps junk tp TickT0 hit
      = some { vx := [vecRead junk tp.trkx 1, vecRead junk tp.trkx 0],
               vy := [vecRead junk tp.trky 1, vecRead junk tp.trky 0],
               vz := [vecRead junk tp.trkz 1, vecRead junk tp.trkz 0],
               vs := [candidateDistance sqrt ps junk tp TickT0 hit 1
                        * ((signTo junk tp (hit.Wire : K) 1 : Int) : K),
                      candidateDistance sqrt ps junk tp TickT0 hit 0
                        * ((signTo junk tp (hit.Wire : K) 0 : Int) : K)],
               np := 2 } := by
  unfold candidateDistance at hd h30 ⊢
  have h1 : ¬ (30 < distanceTo sqrt ps junk tp (hit.Wire : K)
      (ps.ConvertTicksToX (hit.PeakTime - TickT0) hit.Plane hit.TPC hit.Cryostat) 1) :=
    not_lt.mpr h30
  simp only [selectNearest, hlen, fillMaps, sptmapInsert, hd, if_true, nearLoop, h1,
    and_false, if_false, List.nil_append, sptsignmapAt, List.find?, zero_add]
  simp

end TwoCandidates2

section PitchFormula
variable {K : Type} [LinearOrderedField K]

theorem fitCoordinate_two (ps : PitchServices K) (junk : K) (vs v : List K) :
    fitCoordinate ps junk 2 vs v = (ps.Fit 1 vs v).getD (vecRead junk v 0, 0) := by
  unfold fitCoordinate
  simp only [gt_iff_lt, lt_self_iff_false, if_false]
  cases ps.Fit 1 vs v <;> rfl

theorem GetPitch_of_two (sqrt : K → K) (ps : PitchServices K) (junk : K) (tp : TrackPoints K)
    (TickT0 : K) (hit : Hit K) (n : NearPoints K)
    (hn : selectNearest sqrt ps junk tp TickT0 hit = some n) (h2 : n.np = 2) :
    GetPitch sqrt ps junk tp TickT0 hit
      = { xyz3d := ⟨((ps.Fit 1 n.vs n.vx).getD (vecRead junk n.vx 0, 0)).1,
                    ((ps.Fit 1 n.vs n.vy).getD (vecRead junk n.vy 0, 0)).1,
                    ((ps.Fit 1 n.vs n.vz).getD (vecRead junk n.vz 0, 0)).1⟩,
          pitch := pitchFromSlopes sqrt ps hit
            ((ps.Fit 1 n.vs n.vx).getD (vecRead junk n.vx 0, 0)).2
            ((ps.Fit 1 n.vs n.vy).getD (vecRead junk n.vy 0, 0)).2
            ((ps.Fit 1 n.vs n.vz).getD (vecRead junk n.vz 0, 0)).2 } := by
  unfold GetPitch
  rw [hn]
  simp only [h2, ge_iff_le, le_refl, if_true, fitCoordinate_two]

end PitchFormula

section PitchClaims
variable {K : Type} [LinearOrderedField K]

/-- C15 (amended): for a hit with exactly two candidate track points at different
distances, the nearer within the threshold 30, `GetPitch` takes both points in
the order of their distance, obtains each coordinate from the linear fit
`Fit 1` over them (its value at signed distance 0; the coordinate of the nearer
point when the fit throws), and computes the pitch from the three fitted
slopes; the pitch used for the hit is that pitch when it is positive, and the
track pitch `fTrkPitch` otherwise. -/
theorem C15_two_candidates_linear_fit (sv : Services K) (ps : PitchServices K) (junk : K)
    (fTrkPitch TickT0 : K) (hits : List (PlaneHit K)) (hit : Hit K)
    (hlen : (trackPointsOf ps TickT0 hits).trkx.length = 2)
    (hne : candidateDistance sv.sqrt ps junk (trackPointsOf ps TickT0 hits) TickT0 hit 0
      ≠ candidateDistance sv.sqrt ps junk (trackPointsOf ps TickT0 hits) TickT0 hit 1)
    (h30 : min (candidateDistance sv.sqrt ps junk (trackPointsOf ps TickT0 hits) TickT0 hit 0)
        (candidateDistance sv.sqrt ps junk (trackPointsOf ps TickT0 hits) TickT0 hit 1) ≤ 30) :
    ∃ n : NearPoints K,
      selectNearest sv.sqrt ps junk (trackPointsOf ps TickT0 hits) TickT0 hit = some n
      ∧ n.np = 2
      ∧ (candidateDistance sv.sqrt ps junk (trackPointsOf ps TickT0 hits) TickT0 hit 0
          < candidateDistance sv.sqrt ps junk (trackPointsOf ps TickT0 hits) TickT0 hit 1 →
        n.vx = [vecRead junk (trackPointsOf ps TickT0 hits).trkx 0,
                vecRead junk (trackPointsOf ps TickT0 hits).trkx 1]
        ∧ n.vy = [vecRead junk (trackPointsOf ps TickT0 hits).trky 0,
                  vecRead junk (trackPointsOf ps TickT0 hits).trky 1]
        ∧ n.vz = [vecRead junk (trackPointsOf ps TickT0 hits).trkz 0,
                  vecRead junk (trackPointsOf ps TickT0 hits).trkz 1]
        ∧ n.vs = [candidateDistance sv.sqrt ps junk (trackPointsOf ps TickT0 hits) TickT0 hit 0
                    * ((signTo junk (trackPointsOf ps TickT0 hits) (hit.Wire : K) 0 : Int) : K),
                  candidateDistance sv.sqrt ps junk (trackPointsOf ps TickT0 hits) TickT0 hit 1
                    * ((signTo junk (trackPointsOf ps TickT0 hits) (hit.Wire : K) 1 : Int) : K)])
      ∧ (candidateDistance sv.sqrt ps junk (trackPointsOf ps TickT0 hits) TickT0 hit 1
          < candidateDistance sv.sqrt ps junk (trackPointsOf ps TickT0 hits) TickT0 hit 0 →
        n.vx = [vecRead junk (trackPointsOf ps TickT0 hits).trkx 1,
                vecRead junk (trackPointsOf ps TickT0 hits).trkx 0]
        ∧ n.vy = [vecRead junk (trackPointsOf ps TickT0 hits).trky 1,
                  vecRead junk (trackPointsOf ps TickT0 hits).trky 0]
        ∧ n.vz = [vecRead junk (trackPointsOf ps TickT0 hits).trkz 1,
                  vecRead junk (trackPointsOf ps TickT0 hits).trkz 0]
        ∧ n.vs = [candidateDistance sv.sqrt ps junk (trackPointsOf ps TickT0 hits) TickT0 hit 1
                    * ((signTo junk (trackPointsOf ps TickT0 hits) (hit.Wire : K) 1 : Int) : K),
                  candidateDistance sv.sqrt ps junk (trackPointsOf ps TickT0 hits) TickT0 hit 0
                    * ((signTo junk (trackPointsOf ps TickT0 hits) (hit.Wire : K) 0 : Int) : K)])
      ∧ GetPitch sv.sqrt ps junk (trackPointsOf ps TickT0 hits) TickT0 hit
          = { xyz3d := ⟨((ps.Fit 1 n.vs n.vx).getD (vecRead junk n.vx 0, 0)).1,
                        ((ps.Fit 1 n.vs n.vy).getD (vecRead junk n.vy 0, 0)).1,
                        ((ps.Fit 1 n.vs n.vz).getD (vecRead junk n.vz 0, 0)).1⟩,
              pitch := pitchFromSlopes sv.sqrt ps hit
                ((ps.Fit 1 n.vs n.vx).getD (vecRead junk n.vx 0, 0)).2
                ((ps.Fit 1 n.vs n.vy).getD (vecRead junk n.vy 0, 0)).2
                ((ps.Fit 1 n.vs n.vz).getD (vecRead junk n.vz 0, 0)).2 }
      ∧ usedPitch (servicesOfPlane sv ps junk TickT0 hits) fTrkPitch hit
          = if (GetPitch sv.sqrt ps junk (trackPointsOf ps TickT0 hits) TickT0 hit).pitch ≤ 0
            then fTrkPitch
            else (GetPitch sv.sqrt ps junk (trackPointsOf ps TickT0 hits) TickT0 hit).pitch := by
  rcases lt_or_gt_of_ne hne with hd | hd
  · have h30b : candidateDistance sv.sqrt ps junk (trackPointsOf ps TickT0 hits) TickT0 hit 0
        ≤ 30 := by
      rwa [min_eq_left (le_of_lt hd)] at h30
    have hsel := selectNearest_two_near_first sv.sqrt ps junk (trackPointsOf ps TickT0 hits)
      TickT0 hit hlen hd h30b
    refine ⟨_, hsel, rfl, fun _ => ⟨rfl, rfl, rfl, rfl⟩, fun h => absurd h (not_lt.mpr (le_of_lt hd)),
      GetPitch_of_two sv.sqrt ps junk _ TickT0 hit _ hsel rfl, rfl⟩
  · have h30b : candidateDistance sv.sqrt ps junk (trackPointsOf ps TickT0 hits) TickT0 hit 1
        ≤ 30 := by
      rwa [min_eq_right (le_of_lt hd)] at h30
    have hsel := selectNearest_two_near_second sv.sqrt ps junk (trackPointsOf ps TickT0 hits)
      TickT0 hit hlen hd h30b
    refine ⟨_, hsel, rfl, fun h => absurd h (not_lt.mpr (le_of_lt hd)), fun _ => ⟨rfl, rfl, rfl, rfl⟩,
      GetPitch_of_two sv.sqrt ps junk _ TickT0 hit _ hsel rfl, rfl⟩

/-- C15 (amended), at the hit on wire 5 at the tick 4 of the track along the drift
direction, whose two candidates are at the distances 4 and 6. -/
theorem C15_two_candidates_linear_fit_witness :
    (trackPointsOf testPitchServices 0 driftPlane).trkx.length = 2
    ∧ candidateDistance (testServices false true 0).sqrt testPitchServices 0
        (trackPointsOf testPitchServices 0 driftPlane) 0 (testHitAt 5 4) 0
      ≠ candidateDistance (testServices false true 0).sqrt testPitchServices 0
        (trackPointsOf testPitchServices 0 driftPlane) 0 (testHitAt 5 4) 1
    ∧ min (candidateDistance (testServices false true 0).sqrt testPitchServices 0
          (trackPointsOf testPitchServices 0 driftPlane) 0 (testHitAt 5 4) 0)
        (candidateDistance (testServices false true 0).sqrt testPitchServices 0
          (trackPointsOf testPitchServices 0 driftPlane) 0 (testHitAt 5 4) 1) ≤ 30
    ∧ ∃ n : NearPoints ℚ,
        selectNearest (testServices false true 0).sqrt testPitchServices 0
          (trackPointsOf testPitchServices 0 driftPlane) 0 (testHitAt 5 4) = some n
        ∧ n.np = 2 := by
  obtain ⟨n, h1, h2, _⟩ := C15_two_candidates_linear_fit (testServices false true 0)
    testPitchServices 0 (3 / 10) 0 driftPlane (testHitAt 5 4) (by decide!) (by decide!)
    (by decide!)
  exact ⟨by decide!, by decide!, by decide!, n, h1, h2⟩

end PitchClaims

section DeadWires
variable {K : Type} [LinearOrderedField K]

theorem deadWireLoop_eq (cs : ChannelServices) (sqrt : K → K) (fTrkPitch : K)
    (larEnd : TVector3 K) (wire : Nat) (first : Hit K) (hits : List (PlaneHit K)) :
    ∀ (todo iw : Nat) (deadwire : List K),
      deadWireLoop cs sqrt fTrkPitch larEnd wire first hits todo iw deadwire
        = deadwire ++ (List.range' iw todo).flatMap
            (deadWireAt cs sqrt fTrkPitch larEnd wire first hits) := by
  intro todo
  induction todo with
  | zero => intro iw deadwire; simp [deadWireLoop]
  | succ todo ih =>
    intro iw deadwire
    rw [deadWireLoop, ih, List.range'_succ, List.flatMap_cons, ← List.append_assoc]
    congr 1
    unfold deadWireAt
    split <;> simp

theorem deadWireEntry_length_le (fTrkPitch : K) (iw : Nat) (st : ScanState K) :
    (deadWireEntry fTrkPitch iw st).length ≤ 1 := by
  unfold deadWireEntry
  split
  · split <;> simp
  · simp

theorem flatMap_deadWireAt_length (cs : ChannelServices) (sqrt : K → K) (fTrkPitch : K)
    (larEnd : TVector3 K) (wire : Nat) (first : Hit K) (hits : List (PlaneHit K)) :
    ∀ (l : List Nat),
      (l.flatMap (deadWireAt cs sqrt fTrkPitch larEnd wire first hits)).length
        ≤ (l.filter (fun iw =>
            cs.IsBad (cs.PlaneWireToChannel first.Plane iw first.TPC first.Cryostat))).length := by
  intro l
  induction l with
  | nil => simp
  | cons iw l ih =>
    rw [List.flatMap_cons, List.length_append, List.filter_cons]
    cases hb : cs.IsBad (cs.PlaneWireToChannel first.Plane iw first.TPC first.Cryostat) with
    | false =>
      have e : deadWireAt cs sqrt fTrkPitch larEnd wire first hits iw = [] := by
        unfold deadWireAt; rw [hb]; rfl
      rw [e]
      simpa using ih
    | true =>
      have e : deadWireAt cs sqrt fTrkPitch larEnd wire first hits iw
          = deadWireEntry fTrkPitch iw (scanHits cs sqrt larEnd wire iw hits) := by
        unfold deadWireAt; rw [hb]; rfl
      have h1 := deadWireEntry_length_le fTrkPitch iw (scanHits cs sqrt larEnd wire iw hits)
      rw [e]
      simp only [if_true, List.length_cons]
      omega

end DeadWires
section WireRange
variable {K : Type} [LinearOrderedField K]

theorem hitStep_wire0 (sv : Services K) (fTrkPitch T0 : K) (s : PlaneState K) (hit : Hit K) :
    (hitStep sv fTrkPitch T0 s hit).wire0
      = if accepted sv fTrkPitch hit then (if hit.Wire < s.wire0 then hit.Wire else s.wire0)
        else s.wire0 := by
  have e1 : (if (sv.GetPitch hit).pitch ≤ 0 then fTrkPitch else (sv.GetPitch hit).pitch)
      = usedPitch sv fTrkPitch hit := rfl
  by_cases hz : (sv.GetPitch hit).xyz3d.z < -100
  · simp [hitStep, accepted, hz]
  · by_cases hp : usedPitch sv fTrkPitch hit = 0
    · simp only [hitStep, hz, if_false, e1, hp, if_true, accepted]
      simp
    · simp only [hitStep, hz, if_false, e1, hp, accepted]
      split <;> simp

theorem hitStep_wire1 (sv : Services K) (fTrkPitch T0 : K) (s : PlaneState K) (hit : Hit K) :
    (hitStep sv fTrkPitch T0 s hit).wire1
      = if accepted sv fTrkPitch hit then (if hit.Wire > s.wire1 then hit.Wire else s.wire1)
        else s.wire1 := by
  have e1 : (if (sv.GetPitch hit).pitch ≤ 0 then fTrkPitch else (sv.GetPitch hit).pitch)
      = usedPitch sv fTrkPitch hit := rfl
  by_cases hz : (sv.GetPitch hit).xyz3d.z < -100
  · simp [hitStep, accepted, hz]
  · by_cases hp : usedPitch sv fTrkPitch hit = 0
    · simp only [hitStep, hz, if_false, e1, hp, if_true, accepted]
      simp
    · simp only [hitStep, hz, if_false, e1, hp, accepted]
      split <;> simp

theorem hitLoop_wire_range (sv : Services K) (fTrkPitch T0 : K) (hits : List (Hit K)) :
    ∀ (s : PlaneState K),
      (∀ h ∈ acceptedHits sv fTrkPitch hits,
          (hitLoop sv fTrkPitch T0 s hits).wire0 ≤ h.Wire
          ∧ h.Wire ≤ (hitLoop sv fTrkPitch T0 s hits).wire1)
      ∧ (hitLoop sv fTrkPitch T0 s hits).wire0 ≤ s.wire0
      ∧ s.wire1 ≤ (hitLoop sv fTrkPitch T0 s hits).wire1
      ∧ ((hitLoop sv fTrkPitch T0 s hits).wire0 = s.wire0
          ∨ ∃ h ∈ acceptedHits sv fTrkPitch hits, h.Wire = (hitLoop sv fTrkPitch T0 s hits).wire0)
      ∧ ((hitLoop sv fTrkPitch T0 s hits).wire1 = s.wire1
          ∨ ∃ h ∈ acceptedHits sv fTrkPitch hits,
              h.Wire = (hitLoop sv fTrkPitch T0 s hits).wire1) := by
  induction hits with
  | nil => intro s; simp [hitLoop, acceptedHits]
  | cons hit hits ih =>
    intro s
    have e : hitLoop sv fTrkPitch T0 s (hit :: hits)
        = hitLoop sv fTrkPitch T0 (hitStep sv fTrkPitch T0 s hit) hits := rfl
    obtain ⟨i1, i2, i3, i4, i5⟩ := ih (hitStep sv fTrkPitch T0 s hit)
    have w0 := hitStep_wire0 sv fTrkPitch T0 s hit
    have w1 := hitStep_wire1 sv fTrkPitch T0 s hit
    rw [e]
    cases ha : accepted sv fTrkPitch hit with
    | false =>
      have hacc : acceptedHits sv fTrkPitch (hit :: hits) = acceptedHits sv fTrkPitch hits := by
        simp [acceptedHits, List.filter_cons, ha]
      rw [ha] at w0 w1
      simp only [Bool.false_eq_true, if_false] at w0 w1
      rw [hacc]
      rw [w0] at i2 i4
      rw [w1] at i3 i5
      exact ⟨i1, i2, i3, i4, i5⟩
    | true =>
      have hacc : acceptedHits sv fTrkPitch (hit :: hits)
          = hit :: acceptedHits sv fTrkPitch hits := by
        simp [acceptedHits, List.filter_cons, ha]
      rw [ha] at w0 w1
      simp only [if_true] at w0 w1
      rw [hacc]
      have b0 : (hitStep sv fTrkPitch T0 s hit).wire0 ≤ hit.Wire
          ∧ (hitStep sv fTrkPitch T0 s hit).wire0 ≤ s.wire0 := by
        rw [w0]; split <;> omega
      have b1 : hit.Wire ≤ (hitStep sv fTrkPitch T0 s hit).wire1
          ∧ s.wire1 ≤ (hitStep sv fTrkPitch T0 s hit).wire1 := by
        rw [w1]; split <;> omega
      refine ⟨?_, by omega, by omega, ?_, ?_⟩
      · intro h hh
        rcases List.mem_cons.mp hh with rfl | hh
        · exact ⟨by omega, by omega⟩
        · exact i1 h hh
      · rcases i4 with h4 | ⟨h, hh, hw⟩
        · by_cases hc : hit.Wire < s.wire0
          · right
            refine ⟨hit, List.mem_cons_self _ _, ?_⟩
            rw [h4, w0, if_pos hc]
          · left
            rw [h4, w0, if_neg hc]
        · right
          exact ⟨h, List.mem_cons_of_mem _ hh, hw⟩
      · rcases i5 with h5 | ⟨h, hh, hw⟩
        · by_cases hc : hit.Wire > s.wire1
          · right
            refine ⟨hit, List.mem_cons_self _ _, ?_⟩
            rw [h5, w1, if_pos hc]
          · left
            rw [h5, w1, if_neg hc]
        · right
          exact ⟨h, List.mem_cons_of_mem _ hh, hw⟩

end WireRange
section DeadWireClaims
variable {K : Type} [LinearOrderedField K]

theorem producePlaneFull_DeadWireResR (sv : Services K) (cs : ChannelServices) (junk : K)
    (fTrkPitch T0 : K) (wire : Nat) (time stime etime : K) (larEnd : TVector3 K)
    (first : PlaneHit K) (rest : List (PlaneHit K))
    (hN : acceptedHits sv fTrkPitch ((first :: rest).map (fun ph => ph.hit)) ≠ []) :
    (producePlaneFull sv cs junk fTrkPitch T0 wire time stime etime larEnd
        (first :: rest)).DeadWireResR
      = (List.range'
          (planeState sv fTrkPitch T0 wire time stime etime
            ((first :: rest).map (fun ph => ph.hit))).wire0
          ((planeState sv fTrkPitch T0 wire time stime etime
            ((first :: rest).map (fun ph => ph.hit))).wire1 + 1
            - (planeState sv fTrkPitch T0 wire time stime etime
                ((first :: rest).map (fun ph => ph.hit))).wire0)).flatMap
          (deadWireAt cs sv.sqrt fTrkPitch larEnd
            (planeState sv fTrkPitch T0 wire time stime etime
              ((first :: rest).map (fun ph => ph.hit))).wire first.hit (first :: rest)) := by
  have hs := holds_planeState sv fTrkPitch T0 wire time stime etime
    ((first :: rest).map (fun ph => ph.hit))
  have h0 : (planeState sv fTrkPitch T0 wire time stime etime
      ((first :: rest).map (fun ph => ph.hit))).fnsps ≠ 0 := by
    rw [hs.fnsps]
    intro h
    exact hN (List.length_eq_zero.mp h)
  unfold producePlaneFull producePlane finishPlane
  rw [if_neg h0]
  simp only [deadWireScan]
  rw [deadWireLoop_eq]
  simp

/-- C17 (failing input): a track whose hits on the plane are on the wires 9, 6, 4
and 10 in this order, with space points `(0, 0, wire)` on the wires 9, 6 and 10
and none on wire 4, the channel of wire 5 bad, the track end at `(0, 0, 10)` and
the track pitch 0.3.  The hit loop leaves `wire = 10`, and the scan for the dead
wire 5 takes wire 9 as its anchor, with the distance 1 of that hit to the track
end; the hit on wire 6 is on a good channel, has a space point, and is nearer to
the dead wire.  The entry appended is `1 + (9 - 5) * 0.3`. -/
theorem C17_anchor_is_not_the_nearest_hit :
    (planeStateOfTrack (testServices false true 0) testPitchServices testEventServices (-7)
        (testTrack ⟨0, 0, 10⟩ scanPlane) 0 ⟨0, 0, 0, 0⟩).wire = 10
    ∧ ((testChannelServices [5]).IsBad
        ((testChannelServices [5]).PlaneWireToChannel 0 5 0 0) = true)
    ∧ (scanHits (testChannelServices [5]) sqrtQ ⟨0, 0, 10⟩ 10 5 scanPlane).closestwire = 9
    ∧ (scanHits (testChannelServices [5]) sqrtQ ⟨0, 0, 10⟩ 10 5 scanPlane).goodresrange = 1
    ∧ (∃ ph ∈ hitsOnPlane (testTrack ⟨0, 0, 10⟩ scanPlane) 0,
        (testChannelServices [5]).IsBad ph.hit.Channel = false ∧ ph.sptv ≠ []
        ∧ ph.hit.Wire = 6
        ∧ Int.natAbs ((ph.hit.Wire : Int) - 5) < Int.natAbs ((9 : Int) - 5))
    ∧ (planeOfTrack (testServices false true 0) testPitchServices (testChannelServices [5])
        testEventServices (-7) (testTrack ⟨0, 0, 10⟩ scanPlane) 0 ⟨0, 0, 0, 0⟩).DeadWireResR
        = [11 / 5] := by
  refine ⟨by decide!, by decide!, by decide!, by decide!, ?_, by decide!⟩
  refine ⟨{ hit := testHit 6 10, sptv := [⟨0, 0, 6⟩] }, ?_, by decide!, by simp, rfl, by decide⟩
  simp [hitsOnPlane, testTrack, scanPlane, testHit]

/-- C18 (counterexample): a track with hits on the wires 6, 4 and 7 in this order,
each with the space point `(0, 0, wire)`, the channel of wire 5 bad, the track end
at `(0, 0, 4)` and the track pitch 0.3.  The dead wire 5 lies between the live
hits on the wires 4 and 6; the anchor is wire 6 at wire separation 1, with
`goodresrange = 2`, and the entry appended is `2 - 1 * 0.3`, not `2 + 1 * 0.3`. -/
theorem C18_gap_is_subtracted :
    ((testChannelServices [5]).IsBad
        ((testChannelServices [5]).PlaneWireToChannel 0 5 0 0) = true)
    ∧ (scanHits (testChannelServices [5]) sqrtQ ⟨0, 0, 4⟩ 7 5 gapPlane).closestwire = 6
    ∧ (scanHits (testChannelServices [5]) sqrtQ ⟨0, 0, 4⟩ 7 5 gapPlane).goodresrange = 2
    ∧ (planeStateOfTrack (testServices false true 0) testPitchServices testEventServices (-7)
        (testTrack ⟨0, 0, 4⟩ gapPlane) 0 ⟨0, 0, 0, 0⟩).wire = 7
    ∧ (planeOfTrack (testServices false true 0) testPitchServices (testChannelServices [5])
        testEventServices (-7) (testTrack ⟨0, 0, 4⟩ gapPlane) 0 ⟨0, 0, 0, 0⟩).DeadWireResR
        = [2 - 1 * (3 / 10)]
    ∧ (2 - 1 * (3 / 10) : ℚ) ≠ 2 + 1 * (3 / 10) := by
  refine ⟨by decide!, by decide!, by decide!, by decide!, by decide!, by norm_num⟩

/-- C18 (amended): for a wire `iw` on a bad channel for which the scan found an
anchor (`closestwire` is not 0), the entry appended is `goodresrange + d * p` when
the anchor lies on the side of `iw` that the comparison with `endwire` selects
(`iw < endwire` and `iw <= closestwire`, or `endwire <= iw` and
`closestwire <= iw`), and `goodresrange - d * p` otherwise, where `d` is the wire
separation between `iw` and the anchor and `p` is the track pitch of the plane. -/
theorem C18_signed_gap (cs : ChannelServices) (sqrt : K → K) (fTrkPitch : K)
    (larEnd : TVector3 K) (wire : Nat) (first : Hit K) (hits : List (PlaneHit K)) (iw : Nat)
    (hbad : cs.IsBad (cs.PlaneWireToChannel first.Plane iw first.TPC first.Cryostat) = true)
    (hanchor : (scanHits cs sqrt larEnd wire iw hits).closestwire ≠ 0) :
    deadWireAt cs sqrt fTrkPitch larEnd wire first hits iw
      = [if (iw < (scanHits cs sqrt larEnd wire iw hits).endwire
              ∧ iw ≤ (scanHits cs sqrt larEnd wire iw hits).closestwire)
            ∨ ((scanHits cs sqrt larEnd wire iw hits).endwire ≤ iw
              ∧ (scanHits cs sqrt larEnd wire iw hits).closestwire ≤ iw) then
          (scanHits cs sqrt larEnd wire iw hits).goodresrange
            + ((Int.natAbs (((scanHits cs sqrt larEnd wire iw hits).closestwire : Int) - (iw : Int))
                : Nat) : K) * fTrkPitch
         else
          (scanHits cs sqrt larEnd wire iw hits).goodresrange
            - ((Int.natAbs (((scanHits cs sqrt larEnd wire iw hits).closestwire : Int) - (iw : Int))
                : Nat) : K) * fTrkPitch] := by
  unfold deadWireAt
  rw [hbad, if_pos rfl]
  unfold deadWireEntry
  rw [if_pos hanchor]
  generalize (scanHits cs sqrt larEnd wire iw hits) = st
  have cast_abs : ∀ z : Int, 0 ≤ z → ((Int.natAbs z : Nat) : K) = ((z : Int) : K) := by
    intro z hz
    have : ((Int.natAbs z : Nat) : Int) = z := Int.natAbs_of_nonneg hz
    rw [← Int.cast_natCast, this]
  have cast_abs_neg : ∀ z : Int, z ≤ 0 → ((Int.natAbs z : Nat) : K) = -((z : Int) : K) := by
    intro z hz
    have : ((Int.natAbs z : Nat) : Int) = -z := Int.ofNat_natAbs_of_nonpos hz
    rw [← Int.cast_natCast, this, Int.cast_neg]
  by_cases h1 : iw < st.endwire
  · rw [if_pos h1]
    by_cases h2 : iw ≤ st.closestwire
    · rw [if_pos (Or.inl ⟨h1, h2⟩), cast_abs _ (by omega)]
    · rw [if_neg (by omega), cast_abs_neg _ (by omega)]
      congr 1
      ring
  · rw [if_neg h1]
    by_cases h2 : st.closestwire ≤ iw
    · rw [if_pos (Or.inr ⟨by omega, h2⟩), cast_abs_neg _ (by omega)]
      congr 1
      have : (((iw : Int) - (st.closestwire : Int) : Int) : K)
          = -((((st.closestwire : Int) - (iw : Int) : Int)) : K) := by
        push_cast; ring
      rw [this]
    · rw [if_neg (by omega), cast_abs _ (by omega)]
      congr 1
      have : (((iw : Int) - (st.closestwire : Int) : Int) : K)
          = -((((st.closestwire : Int) - (iw : Int) : Int)) : K) := by
        push_cast; ring
      rw [this]
      ring

/-- C18 (witness): the plane with hits on the wires 9, 6, 4, 10 and the bad wire 5:
the anchor 9 is on the side of the track-end-facing wire 10, and the entry is
`1 + 4 * 0.3`. -/
theorem C18_signed_gap_witness :
    (testChannelServices [5]).IsBad
        ((testChannelServices [5]).PlaneWireToChannel (testHit 9 10).Plane 5 (testHit 9 10).TPC
          (testHit 9 10).Cryostat) = true
    ∧ (scanHits (testChannelServices [5]) sqrtQ ⟨0, 0, 10⟩ 10 5 scanPlane).closestwire ≠ 0
    ∧ deadWireAt (testChannelServices [5]) sqrtQ (3 / 10) ⟨0, 0, 10⟩ 10 (testHit 9 10) scanPlane 5
        = [1 + 4 * (3 / 10)] := by
  have h := C18_signed_gap (testChannelServices [5]) sqrtQ (3 / 10 : ℚ) ⟨0, 0, 10⟩ 10
    (testHit 9 10) scanPlane 5 (by decide!) (by decide!)
  refine ⟨by decide!, by decide!, ?_⟩
  rw [h]
  decide!

/-- C19 (counterexample): a track with a hit on wire 4 without a space point and a
hit on wire 6 with a space point, the channel of wire 6 bad.  Both hits are
accepted, the scanned range is `[4, 6]` and holds one bad wire, and the dead-wire
sequence is empty: the scan for wire 6 finds no hit on a good channel with a space
point, so no entry is appended. -/
theorem C19_bad_wire_without_entry :
    (planeOfTrack (testServices false true 0) testPitchServices (testChannelServices [6])
        testEventServices (-7) (testTrack ⟨0, 0, 4⟩ badChannelPlane) 0 ⟨0, 0, 0, 0⟩).TrkPitch.length
        = 2
    ∧ (planeStateOfTrack (testServices false true 0) testPitchServices testEventServices (-7)
        (testTrack ⟨0, 0, 4⟩ badChannelPlane) 0 ⟨0, 0, 0, 0⟩).wire0 = 4
    ∧ (planeStateOfTrack (testServices false true 0) testPitchServices testEventServices (-7)
        (testTrack ⟨0, 0, 4⟩ badChannelPlane) 0 ⟨0, 0, 0, 0⟩).wire1 = 6
    ∧ ((List.range' 4 3).filter (fun iw => (testChannelServices [6]).IsBad
        ((testChannelServices [6]).PlaneWireToChannel 0 iw 0 0))).length = 1
    ∧ (planeOfTrack (testServices false true 0) testPitchServices (testChannelServices [6])
        testEventServices (-7) (testTrack ⟨0, 0, 4⟩ badChannelPlane) 0 ⟨0, 0, 0, 0⟩).DeadWireResR
        = [] := by
  refine ⟨by decide!, by decide!, by decide!, by decide!, by decide!⟩

/-- C19 (amended): on a plane with `N >= 1` accepted hits the scanned range
`[wire0, wire1]` runs from the smallest wire of the accepted hits (or 100000 if
that is smaller) to their largest wire, and the dead-wire sequence is the
concatenation over the wires of that range, in increasing order, of what each
wire contributes: one entry when the channel of the wire is bad and the scan
found an anchor (`closestwire` is not 0), nothing otherwise.  Its length is at
most the number of wires of the range on a bad channel. -/
theorem C19_dead_wire_sequence (sv : Services K) (cs : ChannelServices) (junk : K)
    (fTrkPitch T0 : K) (wire : Nat) (time stime etime : K) (larEnd : TVector3 K)
    (first : PlaneHit K) (rest : List (PlaneHit K))
    (hN : acceptedHits sv fTrkPitch ((first :: rest).map (fun ph => ph.hit)) ≠ []) :
    (∀ h ∈ acceptedHits sv fTrkPitch ((first :: rest).map (fun ph => ph.hit)),
        (planeState sv fTrkPitch T0 wire time stime etime
            ((first :: rest).map (fun ph => ph.hit))).wire0 ≤ h.Wire
        ∧ h.Wire ≤ (planeState sv fTrkPitch T0 wire time stime etime
            ((first :: rest).map (fun ph => ph.hit))).wire1)
    ∧ ((planeState sv fTrkPitch T0 wire time stime etime
            ((first :: rest).map (fun ph => ph.hit))).wire0 = 100000
        ∨ ∃ h ∈ acceptedHits sv fTrkPitch ((first :: rest).map (fun ph => ph.hit)),
            h.Wire = (planeState sv fTrkPitch T0 wire time stime etime
              ((first :: rest).map (fun ph => ph.hit))).wire0)
    ∧ (∃ h ∈ acceptedHits sv fTrkPitch ((first :: rest).map (fun ph => ph.hit)),
            h.Wire = (planeState sv fTrkPitch T0 wire time stime etime
              ((first :: rest).map (fun ph => ph.hit))).wire1)
    ∧ (producePlaneFull sv cs junk fTrkPitch T0 wire time stime etime larEnd
          (first :: rest)).DeadWireResR
        = (List.range'
            (planeState sv fTrkPitch T0 wire time stime etime
              ((first :: rest).map (fun ph => ph.hit))).wire0
            ((planeState sv fTrkPitch T0 wire time stime etime
              ((first :: rest).map (fun ph => ph.hit))).wire1 + 1
              - (planeState sv fTrkPitch T0 wire time stime etime
                  ((first :: rest).map (fun ph => ph.hit))).wire0)).flatMap
            (fun iw =>
              if cs.IsBad (cs.PlaneWireToChannel first.hit.Plane iw first.hit.TPC
                    first.hit.Cryostat) = true
                  ∧ (scanHits cs sv.sqrt larEnd
                      (planeState sv fTrkPitch T0 wire time stime etime
                        ((first :: rest).map (fun ph => ph.hit))).wire iw
                      (first :: rest)).closestwire ≠ 0 then
                deadWireAt cs sv.sqrt fTrkPitch larEnd
                  (planeState sv fTrkPitch T0 wire time stime etime
                    ((first :: rest).map (fun ph => ph.hit))).wire first.hit (first :: rest) iw
              else [])
    ∧ (∀ iw, (deadWireAt cs sv.sqrt fTrkPitch larEnd
                (planeState sv fTrkPitch T0 wire time stime etime
                  ((first :: rest).map (fun ph => ph.hit))).wire first.hit (first :: rest)
                iw).length
          = if cs.IsBad (cs.PlaneWireToChannel first.hit.Plane iw first.hit.TPC
                    first.hit.Cryostat) = true
                ∧ (scanHits cs sv.sqrt larEnd
                    (planeState sv fTrkPitch T0 wire time stime etime
                      ((first :: rest).map (fun ph => ph.hit))).wire iw
                    (first :: rest)).closestwire ≠ 0 then 1 else 0)
    ∧ (producePlaneFull sv cs junk fTrkPitch T0 wire time stime etime larEnd
          (first :: rest)).DeadWireResR.length
        ≤ ((List.range'
            (planeState sv fTrkPitch T0 wire time stime etime
              ((first :: rest).map (fun ph => ph.hit))).wire0
            ((planeState sv fTrkPitch T0 wire time stime etime
              ((first :: rest).map (fun ph => ph.hit))).wire1 + 1
              - (planeState sv fTrkPitch T0 wire time stime etime
                  ((first :: rest).map (fun ph => ph.hit))).wire0)).filter
            (fun iw => cs.IsBad (cs.PlaneWireToChannel first.hit.Plane iw first.hit.TPC
              first.hit.Cryostat))).length := by
  have hr := hitLoop_wire_range sv fTrkPitch T0 ((first :: rest).map (fun ph => ph.hit))
    (initState wire time stime etime)
  obtain ⟨r1, _, _, r4, r5⟩ := hr
  have hD := producePlaneFull_DeadWireResR sv cs junk fTrkPitch T0 wire time stime etime larEnd
    first rest hN
  have hAt : ∀ (w iw : Nat),
      deadWireAt cs sv.sqrt fTrkPitch larEnd w first.hit (first :: rest) iw
        = if cs.IsBad (cs.PlaneWireToChannel first.hit.Plane iw first.hit.TPC
                first.hit.Cryostat) = true
              ∧ (scanHits cs sv.sqrt larEnd w iw (first :: rest)).closestwire ≠ 0 then
            deadWireAt cs sv.sqrt fTrkPitch larEnd w first.hit (first :: rest) iw
          else [] := by
    intro w iw
    split
    · rfl
    · next hc =>
      unfold deadWireAt deadWireEntry
      by_cases hb : cs.IsBad (cs.PlaneWireToChannel first.hit.Plane iw first.hit.TPC
          first.hit.Cryostat) = true
      · have hz : ¬ (scanHits cs sv.sqrt larEnd w iw (first :: rest)).closestwire ≠ 0 :=
          fun h => hc ⟨hb, h⟩
        rw [if_pos hb, if_neg hz]
      · rw [if_neg hb]
  refine ⟨r1, ?_, ?_, ?_, ?_, ?_⟩
  · rcases r4 with h | h
    · left; exact h
    · right; exact h
  · rcases r5 with h | h
    · obtain ⟨a, l, hal⟩ := List.exists_cons_of_ne_nil hN
      have hmem : a ∈ acceptedHits sv fTrkPitch ((first :: rest).map (fun ph => ph.hit)) := by
        rw [hal]; exact List.mem_cons_self _ _
      have ha := (r1 a hmem).2
      refine ⟨a, hmem, ?_⟩
      have h0 : (initState wire time stime etime : PlaneState K).wire1 = 0 := rfl
      rw [h0] at h
      have e : planeState sv fTrkPitch T0 wire time stime etime
          ((first :: rest).map (fun ph => ph.hit))
          = hitLoop sv fTrkPitch T0 (initState wire time stime etime)
              ((first :: rest).map (fun ph => ph.hit)) := rfl
      rw [e]
      omega
    · exact h
  · rw [hD]
    congr 1
    funext iw
    exact hAt _ iw
  · intro iw
    split
    · next hc =>
      unfold deadWireAt deadWireEntry
      rw [if_pos hc.1, if_pos hc.2]
      split <;> rfl
    · next hc =>
      rw [hAt, if_neg hc]
      rfl
  · rw [hD]
    exact flatMap_deadWireAt_length cs sv.sqrt fTrkPitch larEnd _ first.hit (first :: rest) _

/-- C19 (witness): the plane with hits on the wires 6, 4, 7 and the bad wire 5, with
track pitch 0.3: the dead-wire sequence has at most as many entries as the range
has bad wires. -/
theorem C19_dead_wire_sequence_witness :
    acceptedHits (testServices false true (3 / 10)) (3 / 10)
        ((({ hit := testHit 6 10, sptv := [⟨0, 0, 6⟩] } : PlaneHit ℚ) :: [{ hit := testHit 4 10, sptv := [⟨0, 0, 4⟩] }, { hit := testHit 7 10, sptv := [⟨0, 0, 7⟩] }]).map (fun ph => ph.hit)) ≠ []
    ∧ (producePlaneFull (testServices false true (3 / 10)) (testChannelServices [5]) (-7)
          (3 / 10) 0 0 0 0 0 ⟨0, 0, 4⟩
          (({ hit := testHit 6 10, sptv := [⟨0, 0, 6⟩] } : PlaneHit ℚ) :: [{ hit := testHit 4 10, sptv := [⟨0, 0, 4⟩] }, { hit := testHit 7 10, sptv := [⟨0, 0, 7⟩] }])).DeadWireResR.length
        ≤ ((List.range'
            (planeState (testServices false true (3 / 10)) (3 / 10) 0 0 0 0 0
              ((({ hit := testHit 6 10, sptv := [⟨0, 0, 6⟩] } : PlaneHit ℚ) :: [{ hit := testHit 4 10, sptv := [⟨0, 0, 4⟩] }, { hit := testHit 7 10, sptv := [⟨0, 0, 7⟩] }]).map (fun ph => ph.hit))).wire0
            ((planeState (testServices false true (3 / 10)) (3 / 10) 0 0 0 0 0
              ((({ hit := testHit 6 10, sptv := [⟨0, 0, 6⟩] } : PlaneHit ℚ) :: [{ hit := testHit 4 10, sptv := [⟨0, 0, 4⟩] }, { hit := testHit 7 10, sptv := [⟨0, 0, 7⟩] }]).map (fun ph => ph.hit))).wire1 + 1
              - (planeState (testServices false true (3 / 10)) (3 / 10) 0 0 0 0 0
              ((({ hit := testHit 6 10, sptv := [⟨0, 0, 6⟩] } : PlaneHit ℚ) :: [{ hit := testHit 4 10, sptv := [⟨0, 0, 4⟩] }, { hit := testHit 7 10, sptv := [⟨0, 0, 7⟩] }]).map (fun ph => ph.hit))).wire0)).filter
            (fun iw => (testChannelServices [5]).IsBad
              ((testChannelServices [5]).PlaneWireToChannel
                ({ hit := testHit 6 10, sptv := [⟨0, 0, 6⟩] } : PlaneHit ℚ).hit.Plane iw
                ({ hit := testHit 6 10, sptv := [⟨0, 0, 6⟩] } : PlaneHit ℚ).hit.TPC
                ({ hit := testHit 6 10, sptv := [⟨0, 0, 6⟩] } : PlaneHit ℚ).hit.Cryostat))).length := by
  have h := C19_dead_wire_sequence (testServices false true (3 / 10)) (testChannelServices [5])
    (-7) (3 / 10) 0 0 0 0 0 ⟨0, 0, 4⟩ { hit := testHit 6 10, sptv := [⟨0, 0, 6⟩] }
    [{ hit := testHit 4 10, sptv := [⟨0, 0, 4⟩] }, { hit := testHit 7 10, sptv := [⟨0, 0, 7⟩] }] (by decide!)
  exact ⟨by decide!, h.2.2.2.2.2⟩

end DeadWireClaims
section Scalars
variable {K : Type} [LinearOrderedField K]

theorem hitStep_scalars (sv : Services K) (fTrkPitch T0 : K) (s : PlaneState K) (hit : Hit K)
    (w : Nat) (t st et : K) :
    hitStep sv fTrkPitch T0 { s with wire := w, time := t, stime := st, etime := et } hit
      = hitStep sv fTrkPitch T0 s hit := by
  cases s
  rfl

theorem planeState_scalars (sv : Services K) (fTrkPitch T0 : K) (w1 w2 : Nat)
    (t1 st1 et1 t2 st2 et2 : K) (hit : Hit K) (hits : List (Hit K)) :
    planeState sv fTrkPitch T0 w1 t1 st1 et1 (hit :: hits)
      = planeState sv fTrkPitch T0 w2 t2 st2 et2 (hit :: hits) := by
  have e : ∀ (w : Nat) (t st et : K), planeState sv fTrkPitch T0 w t st et (hit :: hits)
      = hitLoop sv fTrkPitch T0 (hitStep sv fTrkPitch T0 (initState w t st et) hit) hits :=
    fun _ _ _ _ => rfl
  rw [e, e]
  have i : (initState w1 t1 st1 et1 : PlaneState K)
      = { (initState w2 t2 st2 et2 : PlaneState K) with
          wire := w1, time := t1, stime := st1, etime := et1 } := rfl
  rw [i, hitStep_scalars]

theorem producePlaneFull_scalars (sv : Services K) (cs : ChannelServices) (junk : K)
    (fTrkPitch T0 : K) (w1 w2 : Nat) (t1 st1 et1 t2 st2 et2 : K) (larEnd : TVector3 K)
    (hits : List (PlaneHit K)) :
    producePlaneFull sv cs junk fTrkPitch T0 w1 t1 st1 et1 larEnd hits
      = producePlaneFull sv cs junk fTrkPitch T0 w2 t2 st2 et2 larEnd hits := by
  cases hits with
  | nil => rfl
  | cons first rest =>
    unfold producePlaneFull producePlane
    rw [List.map_cons, planeState_scalars sv fTrkPitch T0 w1 w2 t1 st1 et1 t2 st2 et2]

theorem planeOfTrack_scalars (sv : Services K) (ps : PitchServices K) (cs : ChannelServices)
    (es : EventServices K) (junk : K) (trk : Track K) (ipl : Nat) (sc1 sc2 : HitScalars K) :
    planeOfTrack sv ps cs es junk trk ipl sc1 = planeOfTrack sv ps cs es junk trk ipl sc2 := by
  unfold planeOfTrack
  exact producePlaneFull_scalars _ cs junk _ _ _ _ _ _ _ _ _ _ _ _

theorem planeLoop_length (sv : Services K) (ps : PitchServices K) (cs : ChannelServices)
    (es : EventServices K) (junk : K) (trk : Track K) :
    ∀ (todo ipl : Nat) (sc : HitScalars K),
      (planeLoop sv ps cs es junk trk todo ipl sc).length = todo := by
  intro todo
  induction todo with
  | zero => intro ipl sc; rfl
  | succ n ih =>
    intro ipl sc
    simp only [planeLoop, List.length_cons, ih]

theorem planeLoop_get (sv : Services K) (ps : PitchServices K) (cs : ChannelServices)
    (es : EventServices K) (junk : K) (trk : Track K) (sc0 : HitScalars K) :
    ∀ (todo ipl : Nat) (sc : HitScalars K) (p : Nat), p < todo →
      (planeLoop sv ps cs es junk trk todo ipl sc)[p]?
        = some (planeOfTrack sv ps cs es junk trk (ipl + p) sc0) := by
  intro todo
  induction todo with
  | zero => intro ipl sc p hp; omega
  | succ n ih =>
    intro ipl sc p hp
    cases p with
    | zero =>
      simp only [planeLoop, List.getElem?_cons_zero, Nat.add_zero]
      rw [planeOfTrack_scalars sv ps cs es junk trk ipl sc sc0]
    | succ q =>
      simp only [planeLoop, List.getElem?_cons_succ]
      rw [ih (ipl + 1) _ q (by omega)]
      congr 2
      omega

theorem trackLoop_length (sv : Services K) (ps : PitchServices K) (cs : ChannelServices)
    (es : EventServices K) (junk : K) :
    ∀ (tracks : List (Track K)) (trkIter : Nat),
      (trackLoop sv ps cs es junk tracks trkIter).length = tracks.length * es.nplanes := by
  intro tracks
  induction tracks with
  | nil => intro k; simp [trackLoop]
  | cons trk rest ih =>
    intro k
    simp only [trackLoop, List.length_append, List.length_map, planeLoop_length, ih,
      List.length_cons]
    ring

theorem trackLoop_get (sv : Services K) (ps : PitchServices K) (cs : ChannelServices)
    (es : EventServices K) (junk : K) (sc0 : HitScalars K) :
    ∀ (tracks : List (Track K)) (trkIter t p : Nat) (trk : Track K),
      tracks[t]? = some trk → p < es.nplanes →
      (trackLoop sv ps cs es junk tracks trkIter)[t * es.nplanes + p]?
        = some (trkIter + t, planeOfTrack sv ps cs es junk trk p sc0) := by
  intro tracks
  induction tracks with
  | nil => intro k t p trk h; simp at h
  | cons trk0 rest ih =>
    intro k t p trk h hp
    cases t with
    | zero =>
      simp only [List.getElem?_cons_zero, Option.some.injEq] at h
      subst h
      simp only [trackLoop, Nat.zero_mul, Nat.zero_add, Nat.add_zero]
      rw [List.getElem?_append_left (by simp [planeLoop_length]; exact hp)]
      rw [List.getElem?_map, planeLoop_get sv ps cs es junk trk0 sc0 _ _ _ p hp]
      simp
    | succ u =>
      simp only [List.getElem?_cons_succ] at h
      simp only [trackLoop]
      have hl : ((planeLoop sv ps cs es junk trk0 es.nplanes 0
          { wire := 0, time := junk, stime := junk, etime := junk }).map
            (fun r => (k, r))).length = es.nplanes := by
        simp [planeLoop_length]
      rw [List.getElem?_append_right (by rw [hl]; nlinarith)]
      rw [hl]
      have e : (u + 1) * es.nplanes + p - es.nplanes = u * es.nplanes + p := by
        rw [Nat.succ_mul]; omega
      rw [e, ih (k + 1) u p trk h hp]
      congr 2
      omega

theorem trackPitchLoop_eq (es : EventServices K) (trk : Track K) (ipl : Nat) :
    ∀ (points : List (TVector3 K)) (itp : Nat),
      trackPitchLoop es trk ipl points itp
        = match points.findIdx? es.FindTPCAtPosition itp with
          | none => 0
          | some i => (es.TrackPitchInView trk ipl i).getD 0 := by
  intro points
  induction points with
  | nil => intro itp; rfl
  | cons pos rest ih =>
    intro itp
    rw [trackPitchLoop, List.findIdx?_cons]
    by_cases h : es.FindTPCAtPosition pos = true
    · rw [if_pos h, if_pos h]
      show (match es.TrackPitchInView trk ipl itp with
        | some pitch => pitch
        | none => 0) = (es.TrackPitchInView trk ipl itp).getD 0
      cases es.TrackPitchInView trk ipl itp <;> rfl
    · rw [if_neg h, if_neg h]
      exact ih (itp + 1)

end Scalars
section EventClaims
variable {K : Type} [LinearOrderedField K]

theorem hitStep_planeID (sv : Services K) (fTrkPitch T0 : K) (s : PlaneState K) (hit : Hit K) :
    (hitStep sv fTrkPitch T0 s hit).planeID
      = if s.planeID.isNone then some ⟨hit.Cryostat, hit.TPC, hit.Plane⟩ else s.planeID := by
  have e1 : (if (sv.GetPitch hit).pitch ≤ 0 then fTrkPitch else (sv.GetPitch hit).pitch)
      = usedPitch sv fTrkPitch hit := rfl
  by_cases hz : (sv.GetPitch hit).xyz3d.z < -100
  · simp only [hitStep, hz, if_true]
  · by_cases hp : usedPitch sv fTrkPitch hit = 0
    · simp only [hitStep, hz, if_false, e1, hp, if_true]
    · simp only [hitStep, hz, if_false, e1, hp]
      split <;> rfl

theorem hitLoop_planeID (sv : Services K) (fTrkPitch T0 : K) (hits : List (Hit K)) :
    ∀ (s : PlaneState K) (id : PlaneID), s.planeID = some id →
      (hitLoop sv fTrkPitch T0 s hits).planeID = some id := by
  induction hits with
  | nil => intro s id h; exact h
  | cons hit hits ih =>
    intro s id h
    have e : hitLoop sv fTrkPitch T0 s (hit :: hits)
        = hitLoop sv fTrkPitch T0 (hitStep sv fTrkPitch T0 s hit) hits := rfl
    rw [e]
    apply ih
    rw [hitStep_planeID, h]
    rfl

theorem planeState_planeID (sv : Services K) (fTrkPitch T0 : K) (wire : Nat)
    (time stime etime : K) (hits : List (Hit K)) :
    (planeState sv fTrkPitch T0 wire time stime etime hits).planeID
      = hits.head?.map (fun h => ⟨h.Cryostat, h.TPC, h.Plane⟩) := by
  cases hits with
  | nil => rfl
  | cons hit hits =>
    have e : planeState sv fTrkPitch T0 wire time stime etime (hit :: hits)
        = hitLoop sv fTrkPitch T0
            (hitStep sv fTrkPitch T0 (initState wire time stime etime) hit) hits := rfl
    rw [e]
    apply hitLoop_planeID
    rw [hitStep_planeID]
    rfl

theorem producePlaneFull_planeID (sv : Services K) (cs : ChannelServices) (junk : K)
    (fTrkPitch T0 : K) (wire : Nat) (time stime etime : K) (larEnd : TVector3 K)
    (hits : List (PlaneHit K)) :
    (producePlaneFull sv cs junk fTrkPitch T0 wire time stime etime larEnd hits).planeID
      = hits.head?.map (fun ph => ⟨ph.hit.Cryostat, ph.hit.TPC, ph.hit.Plane⟩) := by
  have h := planeState_planeID sv fTrkPitch T0 wire time stime etime
    (hits.map (fun ph => ph.hit))
  unfold producePlaneFull producePlane finishPlane
  split
  · simp only
    rw [h]
    cases hits <;> rfl
  · simp only
    rw [h]
    cases hits <;> rfl

omit [LinearOrderedField K] in
theorem head_filter_plane (hits : List (PlaneHit K)) (p : Nat) :
    (hits.filter (fun ph => ph.hit.Plane == p)).head?.map
        (fun ph => (⟨ph.hit.Cryostat, ph.hit.TPC, ph.hit.Plane⟩ : PlaneID))
      = (hits.filter (fun ph => ph.hit.Plane == p)).head?.map
        (fun ph => (⟨ph.hit.Cryostat, ph.hit.TPC, p⟩ : PlaneID)) := by
  cases hf : hits.filter (fun ph => ph.hit.Plane == p) with
  | nil => rfl
  | cons ph rest =>
    have hm : ph ∈ hits.filter (fun ph => ph.hit.Plane == p) := by
      rw [hf]; exact List.mem_cons_self _ _
    have hp : ph.hit.Plane = p := by
      have := (List.mem_filter.mp hm).2
      simpa using this
    simp only [List.head?_cons, Option.map_some']
    rw [hp]

/-- C12: `produce` emits one record per (track, plane) pair, whatever the hits of
the pair are: for `T` tracks and `P` planes the collection has `T * P` records.
The record at position `t * P + p` is associated with the track `t` and is the
record of the plane `p` of that track: it is computed from those hits of the
track whose `WireID().Plane` is `p`, in the order of the hits of the track; its
plane identifier is taken from the first of them and has the plane `p` (it is
left invalid when the track has no hit on the plane); and its pitch sequence
holds the pitch used for each accepted hit among them. -/
theorem C12_one_record_per_track_and_plane (sv : Services K) (ps : PitchServices K)
    (cs : ChannelServices) (es : EventServices K) (junk : K) (tracklist : List (Track K)) :
    (produce sv ps cs es junk tracklist).length = tracklist.length * es.nplanes
    ∧ ∀ (t p : Nat) (trk : Track K), tracklist[t]? = some trk → p < es.nplanes →
        ∃ r : Calorimetry K,
          (produce sv ps cs es junk tracklist)[t * es.nplanes + p]? = some (t, r)
          ∧ r = planeOfTrack sv ps cs es junk trk p
              { wire := 0, time := junk, stime := junk, etime := junk }
          ∧ r = producePlaneFull
              (servicesOfPlane sv ps junk (trk.T0 / es.SamplingRate)
                (trk.allHits.filter (fun ph => ph.hit.Plane == p)))
              cs junk (trackPitchLoop es trk p trk.LocationAtPoint 0) trk.T0
              0 junk junk junk trk.larEnd
              (trk.allHits.filter (fun ph => ph.hit.Plane == p))
          ∧ r.planeID
              = (trk.allHits.filter (fun ph => ph.hit.Plane == p)).head?.map
                  (fun ph => (⟨ph.hit.Cryostat, ph.hit.TPC, p⟩ : PlaneID))
          ∧ r.TrkPitch
              = ((((trk.allHits.filter (fun ph => ph.hit.Plane == p)).map
                    (fun ph => ph.hit)).filter
                  (accepted
                    (servicesOfPlane sv ps junk (trk.T0 / es.SamplingRate)
                      (trk.allHits.filter (fun ph => ph.hit.Plane == p)))
                    (trackPitchLoop es trk p trk.LocationAtPoint 0))).map
                  (usedPitch
                    (servicesOfPlane sv ps junk (trk.T0 / es.SamplingRate)
                      (trk.allHits.filter (fun ph => ph.hit.Plane == p)))
                    (trackPitchLoop es trk p trk.LocationAtPoint 0))) := by
  refine ⟨trackLoop_length sv ps cs es junk tracklist 0, ?_⟩
  intro t p trk ht hp
  have h := trackLoop_get sv ps cs es junk
    { wire := 0, time := junk, stime := junk, etime := junk } tracklist 0 t p trk ht hp
  rw [Nat.zero_add] at h
  refine ⟨_, h, rfl, rfl, ?_, ?_⟩
  · have e : planeOfTrack sv ps cs es junk trk p
          { wire := 0, time := junk, stime := junk, etime := junk }
        = producePlaneFull
            (servicesOfPlane sv ps junk (trk.T0 / es.SamplingRate)
              (trk.allHits.filter (fun ph => ph.hit.Plane == p)))
            cs junk (trackPitchLoop es trk p trk.LocationAtPoint 0) trk.T0
            0 junk junk junk trk.larEnd
            (trk.allHits.filter (fun ph => ph.hit.Plane == p)) := rfl
    rw [e, producePlaneFull_planeID, head_filter_plane]
  · have e : planeOfTrack sv ps cs es junk trk p
          { wire := 0, time := junk, stime := junk, etime := junk }
        = producePlane
            (servicesOfPlane sv ps junk (trk.T0 / es.SamplingRate)
              (trk.allHits.filter (fun ph => ph.hit.Plane == p)))
            junk (trackPitchLoop es trk p trk.LocationAtPoint 0) trk.T0
            0 junk junk junk
            (deadWireScan cs
              (servicesOfPlane sv ps junk (trk.T0 / es.SamplingRate)
                (trk.allHits.filter (fun ph => ph.hit.Plane == p))).sqrt
              (trackPitchLoop es trk p trk.LocationAtPoint 0) trk.larEnd
              (planeState
                (servicesOfPlane sv ps junk (trk.T0 / es.SamplingRate)
                  (trk.allHits.filter (fun ph => ph.hit.Plane == p)))
                (trackPitchLoop es trk p trk.LocationAtPoint 0) trk.T0 0 junk junk junk
                ((trk.allHits.filter (fun ph => ph.hit.Plane == p)).map (fun ph => ph.hit)))
              (trk.allHits.filter (fun ph => ph.hit.Plane == p)))
            ((trk.allHits.filter (fun ph => ph.hit.Plane == p)).map (fun ph => ph.hit)) := rfl
    rw [e, producePlane_TrkPitch]
    rfl

/-- C12 (witness): one track with hits on two planes, in the order wire 4 of
plane 0, wire 7 of plane 1, wire 5 of plane 0, and two planes.  The collection has
two records; the record at position `0 * 2 + 1` has the plane 1 and holds the one
point of the hit on wire 7, and the record at position `0 * 2 + 0` has the plane 0
and holds the points of the hits on the wires 4 and 5. -/
theorem C12_one_record_per_track_and_plane_witness :
    ([twoPlaneTrack][0]? = some twoPlaneTrack)
    ∧ 1 < ({ testEventServices with nplanes := 2 } : EventServices ℚ).nplanes
    ∧ (produce (testServices false true 0) testPitchServices (testChannelServices [])
        { testEventServices with nplanes := 2 } (-7) [twoPlaneTrack]).length = 1 * 2
    ∧ (∃ r : Calorimetry ℚ,
        (produce (testServices false true 0) testPitchServices (testChannelServices [])
          { testEventServices with nplanes := 2 } (-7) [twoPlaneTrack])[
            0 * ({ testEventServices with nplanes := 2 } : EventServices ℚ).nplanes + 1]?
          = some (0, r)
        ∧ r.planeID = some ⟨0, 0, 1⟩ ∧ r.XYZ = [⟨0, 0, 7⟩])
    ∧ (∃ r : Calorimetry ℚ,
        (produce (testServices false true 0) testPitchServices (testChannelServices [])
          { testEventServices with nplanes := 2 } (-7) [twoPlaneTrack])[
            0 * ({ testEventServices with nplanes := 2 } : EventServices ℚ).nplanes + 0]?
          = some (0, r)
        ∧ r.planeID = some ⟨0, 0, 0⟩ ∧ r.XYZ = [⟨0, 0, 4⟩, ⟨0, 0, 5⟩]) := by
  have h := C12_one_record_per_track_and_plane (testServices false true 0) testPitchServices
    (testChannelServices []) { testEventServices with nplanes := 2 } (-7) [twoPlaneTrack]
  obtain ⟨r1, a1, b1, _, _, _⟩ := h.2 0 1 twoPlaneTrack rfl (by decide)
  obtain ⟨r0, a0, b0, _, _, _⟩ := h.2 0 0 twoPlaneTrack rfl (by decide)
  refine ⟨rfl, by decide, h.1, ⟨r1, a1, ?_, ?_⟩, ⟨r0, a0, ?_, ?_⟩⟩
  · rw [b1]; decide!
  · rw [b1]; decide!
  · rw [b0]; decide!
  · rw [b0]; decide!

theorem trackPitchLoop_none (es : EventServices K) (trk : Track K) (ipl : Nat) :
    ∀ (points : List (TVector3 K)) (itp : Nat),
      (∀ pos ∈ points, es.FindTPCAtPosition pos = false) →
      trackPitchLoop es trk ipl points itp = 0 := by
  intro points
  induction points with
  | nil => intro itp _; rfl
  | cons pos rest ih =>
    intro itp h
    rw [trackPitchLoop, h pos (List.mem_cons_self _ _)]
    simp only [Bool.false_eq_true, if_false]
    exact ih (itp + 1) (fun q hq => h q (List.mem_cons_of_mem _ hq))

theorem trackPitchLoop_first (es : EventServices K) (trk : Track K) (ipl : Nat) :
    ∀ (points : List (TVector3 K)) (itp0 i : Nat) (pos : TVector3 K),
      points[i]? = some pos → es.FindTPCAtPosition pos = true →
      (∀ j q, j < i → points[j]? = some q → es.FindTPCAtPosition q = false) →
      trackPitchLoop es trk ipl points itp0
        = match es.TrackPitchInView trk ipl (itp0 + i) with
          | some pitch => pitch
          | none => 0 := by
  intro points
  induction points with
  | nil => intro itp0 i pos h; simp at h
  | cons pt rest ih =>
    intro itp0 i pos h hv hbefore
    cases i with
    | zero =>
      simp only [List.getElem?_cons_zero, Option.some.injEq] at h
      subst h
      rw [trackPitchLoop, if_pos hv]
      rfl
    | succ k =>
      simp only [List.getElem?_cons_succ] at h
      have h0 : es.FindTPCAtPosition pt = false := hbefore 0 pt (by omega) (by simp)
      rw [trackPitchLoop, h0]
      simp only [Bool.false_eq_true, if_false]
      rw [ih (itp0 + 1) k pos h hv
        (fun j q hj hq => hbefore (j + 1) q (by omega) (by simpa using hq))]
      have e : itp0 + 1 + k = itp0 + (k + 1) := by omega
      rw [e]

/-- C20: the track pitch of the plane is `0` when no trajectory point lies in a
valid TPC; otherwise it is what the pitch query returns at the first trajectory
point in a valid TPC, or `0` when that query throws.  In every case the plane
loop pushes the record of the plane, computed with that pitch, and goes on to
the next plane. -/
theorem C20_track_pitch (sv : Services K) (ps : PitchServices K) (cs : ChannelServices)
    (es : EventServices K) (junk : K) (trk : Track K) (ipl : Nat) (sc : HitScalars K) :
    ((∀ pos ∈ trk.LocationAtPoint, es.FindTPCAtPosition pos = false) →
        trackPitchLoop es trk ipl trk.LocationAtPoint 0 = 0)
    ∧ (∀ (itp : Nat) (pos : TVector3 K), trk.LocationAtPoint[itp]? = some pos →
        es.FindTPCAtPosition pos = true →
        (∀ j q, j < itp → trk.LocationAtPoint[j]? = some q → es.FindTPCAtPosition q = false) →
        trackPitchLoop es trk ipl trk.LocationAtPoint 0
          = match es.TrackPitchInView trk ipl itp with
            | some pitch => pitch
            | none => 0)
    ∧ (∀ todo : Nat, planeLoop sv ps cs es junk trk (todo + 1) ipl sc
        = producePlaneFull
            (servicesOfPlane sv ps junk (trk.T0 / es.SamplingRate) (hitsOnPlane trk ipl))
            cs junk (trackPitchLoop es trk ipl trk.LocationAtPoint 0) trk.T0
            sc.wire sc.time sc.stime sc.etime trk.larEnd (hitsOnPlane trk ipl)
          :: planeLoop sv ps cs es junk trk todo (ipl + 1)
              { wire := (planeStateOfTrack sv ps es junk trk ipl sc).wire,
                time := (planeStateOfTrack sv ps es junk trk ipl sc).time,
                stime := (planeStateOfTrack sv ps es junk trk ipl sc).stime,
                etime := (planeStateOfTrack sv ps es junk trk ipl sc).etime }) := by
  refine ⟨trackPitchLoop_none es trk ipl _ 0, ?_, fun _ => rfl⟩
  intro itp pos h hv hb
  have e := trackPitchLoop_first es trk ipl trk.LocationAtPoint 0 itp pos h hv hb
  rw [Nat.zero_add] at e
  exact e

/-- C20 (witness): a track with two trajectory points of which only the second is
in a valid TPC, and a pitch query that throws: the track pitch is `0`. -/
theorem C20_track_pitch_witness :
    trackPitchLoop
        { testEventServices with
          FindTPCAtPosition := fun pos => decide (pos.z = 1),
          TrackPitchInView := fun _ _ _ => none }
        { testTrack ⟨0, 0, 10⟩ scanPlane with LocationAtPoint := [⟨0, 0, 0⟩, ⟨0, 0, 1⟩] } 0
        ({ testTrack ⟨0, 0, 10⟩ scanPlane with
            LocationAtPoint := [⟨0, 0, 0⟩, ⟨0, 0, 1⟩] } : Track ℚ).LocationAtPoint 0
      = 0 := by
  have h := (C20_track_pitch (testServices false true 0) testPitchServices
    (testChannelServices [5])
    { testEventServices with
      FindTPCAtPosition := fun pos => decide (pos.z = 1),
      TrackPitchInView := fun _ _ _ => none } (-7)
    { testTrack ⟨0, 0, 10⟩ scanPlane with LocationAtPoint := [⟨0, 0, 0⟩, ⟨0, 0, 1⟩] } 0
    ⟨0, 0, 0, 0⟩).2.1 1 ⟨0, 0, 1⟩ rfl (by decide!) (by
      intro j q hj hq
      have hj0 : j = 0 := by omega
      subst hj0
      simp only [List.getElem?_cons_zero, Option.some.injEq] at hq
      subst hq
      decide!)
  exact h

end EventClaims

section Independence
variable {K : Type} [LinearOrderedField K]

/-- C21 (failing input): a track whose only hit on the plane is on wire 5 with the
space point `(0, 0, 5)`, track pitch 0.3, the direction flip enabled.  Two runs
on the same track, plane, hits, geometry and calibration, and the same incoming
scalars, which differ only in the value found behind the one-element vector
`spdelta` (`-7` and `3`), emit different records: the residual range is `[-7/2]`
in one and `[3/2]` in the other. -/
theorem C21_single_point_record_depends_on_memory :
    (planeOfTrack (testServices false true 0) testPitchServices (testChannelServices [])
        testEventServices (-7) (testTrack ⟨0, 0, 5⟩ singleHitPlane) 0
        ⟨0, 0, 0, 0⟩).ResidualRange = [-7 / 2]
    ∧ (planeOfTrack (testServices false true 0) testPitchServices (testChannelServices [])
        testEventServices 3 (testTrack ⟨0, 0, 5⟩ singleHitPlane) 0
        ⟨0, 0, 0, 0⟩).ResidualRange = [3 / 2]
    ∧ (planeOfTrack (testServices false true 0) testPitchServices (testChannelServices [])
        testEventServices (-7) (testTrack ⟨0, 0, 5⟩ singleHitPlane) 0
        ⟨0, 0, 0, 0⟩).TrkPitch.length = 1 := by
  refine ⟨by decide!, by decide!, by decide!⟩

end Independence

section Energy
variable {K : Type} [LinearOrderedField K]

theorem zipWith_mul_map {α : Type} (f g : α → K) (l : List α) :
    List.zipWith (fun a b => a * b) (l.map f) (l.map g) = l.map (fun h => f h * g h) := by
  induction l with
  | nil => rfl
  | cons a l ih => simp [ih]

/-- C22: on a plane with `N >= 1` accepted points the emitted kinetic energy is
the sum over the retained points of `dEdx[i] * pitch[i]`, where `dEdx[i]` is what
the calibration function returns (`dEdx_AREA` when `fUseArea` is set, `dEdx_AMP`
otherwise) for the hit, the pitch used for it and the time `T0` of the track. -/
theorem C22_kinetic_energy (sv : Services K) (junk fTrkPitch T0 : K) (wire : Nat)
    (time stime etime : K) (deadwire : List K) (hits : List (Hit K))
    (hN : 1 ≤ (acceptedHits sv fTrkPitch hits).length) :
    (producePlane sv junk fTrkPitch T0 wire time stime etime deadwire hits).KineticEnergy
        = (List.zipWith (fun a b => a * b)
            (producePlane sv junk fTrkPitch T0 wire time stime etime deadwire hits).dEdx
            (producePlane sv junk fTrkPitch T0 wire time stime etime deadwire hits).TrkPitch).sum
    ∧ (producePlane sv junk fTrkPitch T0 wire time stime etime deadwire hits).dEdx
        = (acceptedHits sv fTrkPitch hits).map (fun h =>
            if sv.fUseArea then sv.dEdx_AREA h (usedPitch sv fTrkPitch h) T0
            else sv.dEdx_AMP h (usedPitch sv fTrkPitch h) T0)
    ∧ (producePlane sv junk fTrkPitch T0 wire time stime etime deadwire hits).TrkPitch
        = (acceptedHits sv fTrkPitch hits).map (usedPitch sv fTrkPitch) := by
  have hs := holds_planeState sv fTrkPitch T0 wire time stime etime hits
  have h0 : (planeState sv fTrkPitch T0 wire time stime etime hits).fnsps ≠ 0 := by
    rw [hs.fnsps]; omega
  refine ⟨?_, producePlane_dEdx sv junk fTrkPitch T0 wire time stime etime deadwire hits,
    producePlane_TrkPitch sv junk fTrkPitch T0 wire time stime etime deadwire hits⟩
  rw [producePlane_dEdx, producePlane_TrkPitch, zipWith_mul_map]
  unfold producePlane finishPlane
  rw [if_neg h0]
  exact hs.Kin_En

/-- C22 (witness): scenario B with pitch 0.3 and the amplitude calibration
`amplitude / pitch`: the kinetic energy is the sum of the five products. -/
theorem C22_kinetic_energy_witness :
    1 ≤ (acceptedHits (testServices false true (3 / 10)) 0 scenarioB).length
    ∧ (producePlane (testServices false true (3 / 10)) 0 0 0 0 0 0 0 [] scenarioB).KineticEnergy
        = (List.zipWith (fun a b => a * b)
            (producePlane (testServices false true (3 / 10)) 0 0 0 0 0 0 0 [] scenarioB).dEdx
            (producePlane (testServices false true (3 / 10)) 0 0 0 0 0 0 0 []
              scenarioB).TrkPitch).sum :=
  ⟨by decide!,
    (C22_kinetic_energy (testServices false true (3 / 10)) 0 0 0 0 0 0 0 [] scenarioB
      (by decide!)).1⟩

/-- C23: with the direction flip enabled, on a plane with `1 <= N <= 4` accepted
points the loops of lines 389-399 both sum the charges of all accepted points,
so the two sums are equal, `GoingDS` is false, and the residual range is filled
from index 0 upwards. -/
theorem C23_short_plane_not_flipped (sv : Services K) (junk fTrkPitch T0 : K) (wire : Nat)
    (time stime etime : K) (deadwire : List K) (hits : List (Hit K))
    (hflip : sv.fFlipTrack_dQdx = true)
    (h1 : 1 ≤ (acceptedHits sv fTrkPitch hits).length)
    (h4 : (acceptedHits sv fTrkPitch hits).length ≤ 4) :
    USChgLoop junk (planeState sv fTrkPitch T0 wire time stime etime hits).ChargeBeg
        (planeState sv fTrkPitch T0 wire time stime etime hits).fnsps 0 0
      = ((acceptedHits sv fTrkPitch hits).map (chargeOf sv)).sum
    ∧ DSChgLoop (planeState sv fTrkPitch T0 wire time stime etime hits).ChargeEnd 0 0
      = ((acceptedHits sv fTrkPitch hits).map (chargeOf sv)).sum
    ∧ resolveDirection sv junk (planeState sv fTrkPitch T0 wire time stime etime hits) = false
    ∧ (producePlane sv junk fTrkPitch T0 wire time stime etime deadwire hits).ResidualRange
      = fillResRng junk false
          (planeState sv fTrkPitch T0 wire time stime etime hits).spdelta
          (acceptedHits sv fTrkPitch hits).length := by
  have hs := holds_planeState sv fTrkPitch T0 wire time stime etime hits
  have hne : acceptedHits sv fTrkPitch hits ≠ [] := by
    intro h; rw [h] at h1; simp at h1
  have hlen : ((acceptedHits sv fTrkPitch hits).map (chargeOf sv)).length ≤ 4 := by
    rw [List.length_map]; exact h4
  have hU : USChgLoop junk (planeState sv fTrkPitch T0 wire time stime etime hits).ChargeBeg
        (planeState sv fTrkPitch T0 wire time stime etime hits).fnsps 0 0
      = ((acceptedHits sv fTrkPitch hits).map (chargeOf sv)).sum := by
    rw [hs.ChargeBeg, hs.fnsps, USChgLoop_eq junk _ _ 0 0 (by simp)]
    simp only [List.drop_zero, Nat.sub_zero, zero_add]
    rw [List.take_of_length_le hlen]
  have hD : DSChgLoop (planeState sv fTrkPitch T0 wire time stime etime hits).ChargeEnd 0 0
      = ((acceptedHits sv fTrkPitch hits).map (chargeOf sv)).sum := by
    rw [hs.ChargeEnd, DSChgLoop_eq]
    simp only [Nat.sub_zero, zero_add]
    rw [List.take_of_length_le (by rw [List.length_reverse]; exact hlen), List.sum_reverse]
  have hG : resolveDirection sv junk (planeState sv fTrkPitch T0 wire time stime etime hits)
      = false := by
    unfold resolveDirection
    simp only
    rw [hU, hD, hflip]
    simp [GoingDS]
  refine ⟨hU, hD, hG, ?_⟩
  rw [producePlane_ResidualRange sv junk fTrkPitch T0 wire time stime etime deadwire hits hne, hG]

/-- C23 (witness): three hits with the charges 10, 12, 50: the direction is not
flipped. -/
theorem C23_short_plane_not_flipped_witness :
    (testServices false true (3 / 10)).fFlipTrack_dQdx = true
    ∧ 1 ≤ (acceptedHits (testServices false true (3 / 10)) 0
        [testHit 1 10, testHit 2 12, testHit 3 50]).length
    ∧ (acceptedHits (testServices false true (3 / 10)) 0
        [testHit 1 10, testHit 2 12, testHit 3 50]).length ≤ 4
    ∧ resolveDirection (testServices false true (3 / 10)) 0
        (planeState (testServices false true (3 / 10)) 0 0 0 0 0 0
          [testHit 1 10, testHit 2 12, testHit 3 50]) = false :=
  ⟨rfl, by decide!, by decide!,
    (C23_short_plane_not_flipped (testServices false true (3 / 10)) 0 0 0 0 0 0 0 []
      [testHit 1 10, testHit 2 12, testHit 3 50] rfl (by decide!) (by decide!)).2.2.1⟩

end Energy
section PitchBounds
variable {K : Type} [LinearOrderedField K]

end PitchBounds
section Memory
variable {K : Type} [LinearOrderedField K]

theorem vecRead_junk {α : Type} (j1 j2 : α) (l : List α) (i : Nat) (h : i < l.length) :
    vecRead j1 l i = vecRead j2 l i := by
  rw [vecRead_eq_getD j1 j2 l i h]
  rfl

theorem list_eq_of_vecRead {α : Type} (j1 j2 : α) (l1 l2 : List α) (hl : l1.length = l2.length)
    (h : ∀ i, i < l1.length → vecRead j1 l1 i = vecRead j2 l2 i) : l1 = l2 := by
  apply List.ext_getElem hl
  intro i h1 h2
  have := h i h1
  simpa [vecRead, List.getD_eq_getElem?_getD, List.getElem?_eq_getElem h1,
    List.getElem?_eq_getElem h2] using this

theorem fillResRng_US_junk (j1 j2 : K) (sp : List K) (N : Nat) (hlen : sp.length = N)
    (hN : 2 ≤ N) : fillResRng j1 false sp N = fillResRng j2 false sp N := by
  apply list_eq_of_vecRead j1 j2
  · rw [fillResRng_length, fillResRng_length]
  · intro i hi
    rw [fillResRng_length] at hi
    induction i with
    | zero =>
      rw [fillResRng_US_first j1 sp N (by omega), fillResRng_US_first j2 sp N (by omega),
        vecRead_junk j1 j2 sp 1 (by omega)]
    | succ k ih =>
      rw [fillResRng_US_step j1 sp N (k + 1) (by omega) hi,
        fillResRng_US_step j2 sp N (k + 1) (by omega) hi, Nat.add_sub_cancel,
        ih (by omega), vecRead_junk j1 j2 sp (k + 1) (by omega)]

theorem fillResRng_DS_junk (j1 j2 : K) (sp : List K) (N : Nat) (hlen : sp.length = N)
    (hN : 1 ≤ N) : fillResRng j1 true sp N = fillResRng j2 true sp N := by
  apply list_eq_of_vecRead j1 j2
  · rw [fillResRng_length, fillResRng_length]
  · have key : ∀ d i, i + d + 1 = N →
        vecRead j1 (fillResRng j1 true sp N) i = vecRead j2 (fillResRng j2 true sp N) i := by
      intro d
      induction d with
      | zero =>
        intro i hi
        have e : i = N - 1 := by omega
        rw [e, fillResRng_DS_last j1 sp N hN, fillResRng_DS_last j2 sp N hN,
          vecRead_junk j1 j2 sp (N - 1) (by omega)]
      | succ d ih =>
        intro i hi
        rw [fillResRng_DS_step j1 sp N i (by omega), fillResRng_DS_step j2 sp N i (by omega),
          ih (i + 1) (by omega), vecRead_junk j1 j2 sp (i + 1) (by omega)]
    intro i hi
    rw [fillResRng_length] at hi
    exact key (N - 1 - i) i (by omega)

omit [LinearOrderedField K] in
theorem calorimetry_eq (r1 r2 : Calorimetry K)
    (h1 : r1.KineticEnergy = r2.KineticEnergy) (h2 : r1.dEdx = r2.dEdx)
    (h3 : r1.dQdx = r2.dQdx) (h4 : r1.ResidualRange = r2.ResidualRange)
    (h5 : r1.DeadWireResR = r2.DeadWireResR) (h6 : r1.Range = r2.Range)
    (h7 : r1.TrkPitch = r2.TrkPitch) (h8 : r1.XYZ = r2.XYZ) (h9 : r1.planeID = r2.planeID)
    (h10 : r1.PIDA = r2.PIDA) : r1 = r2 := by
  cases r1
  cases r2
  simp only at h1 h2 h3 h4 h5 h6 h7 h8 h9 h10
  subst h1 h2 h3 h4 h5 h6 h7 h8 h9 h10
  rfl

theorem producePlane_memory (sv : Services K) (j1 j2 fTrkPitch T0 : K) (wire : Nat)
    (time stime etime : K) (deadwire : List K) (hits : List (Hit K))
    (h : (acceptedHits sv fTrkPitch hits).length ≠ 1 ∨ sv.fFlipTrack_dQdx = false) :
    producePlane sv j1 fTrkPitch T0 wire time stime etime deadwire hits
      = producePlane sv j2 fTrkPitch T0 wire time stime etime deadwire hits := by
  have hs := holds_planeState sv fTrkPitch T0 wire time stime etime hits
  by_cases h0 : acceptedHits sv fTrkPitch hits = []
  · have hf : (planeState sv fTrkPitch T0 wire time stime etime hits).fnsps = 0 := by
      rw [hs.fnsps, h0]; rfl
    unfold producePlane finishPlane
    rw [if_pos hf, if_pos hf]
  · have hN : 1 ≤ (acceptedHits sv fTrkPitch hits).length := by
      rcases Nat.eq_zero_or_pos (acceptedHits sv fTrkPitch hits).length with hz | hz
      · exact absurd (List.length_eq_zero.mp hz) h0
      · exact hz
    have hf : (planeState sv fTrkPitch T0 wire time stime etime hits).fnsps ≠ 0 := by
      rw [hs.fnsps]; omega
    have hsp := planeState_spdelta_length sv fTrkPitch T0 wire time stime etime hits
    have hdir : resolveDirection sv j1 (planeState sv fTrkPitch T0 wire time stime etime hits)
        = resolveDirection sv j2 (planeState sv fTrkPitch T0 wire time stime etime hits) := by
      rw [resolveDirection_planeState, resolveDirection_planeState]
    have hR : (producePlane sv j1 fTrkPitch T0 wire time stime etime deadwire hits).ResidualRange
        = (producePlane sv j2 fTrkPitch T0 wire time stime etime deadwire hits).ResidualRange := by
      rw [producePlane_ResidualRange sv j1 fTrkPitch T0 wire time stime etime deadwire hits h0,
        producePlane_ResidualRange sv j2 fTrkPitch T0 wire time stime etime deadwire hits h0,
        hdir]
      cases hg : resolveDirection sv j2
          (planeState sv fTrkPitch T0 wire time stime etime hits) with
      | true => exact fillResRng_DS_junk j1 j2 _ _ hsp hN
      | false =>
        have hN2 : 2 ≤ (acceptedHits sv fTrkPitch hits).length := by
          rcases h with h | h
          · omega
          · exfalso
            rw [resolveDirection_planeState, h] at hg
            simp [GoingDS] at hg
        exact fillResRng_US_junk j1 j2 _ _ hsp hN2
    have hE : (producePlane sv j1 fTrkPitch T0 wire time stime etime deadwire hits).dEdx
        = (producePlane sv j2 fTrkPitch T0 wire time stime etime deadwire hits).dEdx := by
      rw [producePlane_dEdx, producePlane_dEdx]
    apply calorimetry_eq
    · unfold producePlane finishPlane
      rw [if_neg hf, if_neg hf]
    · exact hE
    · rw [producePlane_dQdx, producePlane_dQdx]
    · exact hR
    · unfold producePlane finishPlane
      rw [if_neg hf, if_neg hf]
    · unfold producePlane finishPlane
      rw [if_neg hf, if_neg hf]
    · rw [producePlane_TrkPitch, producePlane_TrkPitch]
    · rw [producePlane_XYZ, producePlane_XYZ]
    · unfold producePlane finishPlane
      rw [if_neg hf, if_neg hf]
    · rw [producePlane_PIDA sv j1 fTrkPitch T0 wire time stime etime deadwire hits hN,
        producePlane_PIDA sv j2 fTrkPitch T0 wire time stime etime deadwire hits hN, ← hE, ← hR]
      have hlenE : (producePlane sv j1 fTrkPitch T0 wire time stime etime deadwire hits).dEdx.length
          = (acceptedHits sv fTrkPitch hits).length := by
        rw [producePlane_dEdx, List.length_map]
      have hlenR :
          (producePlane sv j1 fTrkPitch T0 wire time stime etime deadwire hits).ResidualRange.length
          = (acceptedHits sv fTrkPitch hits).length :=
        producePlane_ResidualRange_length sv j1 fTrkPitch T0 wire time stime etime deadwire hits
      have hsum : ∀ i ∈ Finset.Ico 1 ((acceptedHits sv fTrkPitch hits).length - 1),
          termAi sv (producePlane sv j1 fTrkPitch T0 wire time stime etime deadwire hits).dEdx
            (producePlane sv j1 fTrkPitch T0 wire time stime etime deadwire hits).ResidualRange
            j1 i
          = termAi sv (producePlane sv j1 fTrkPitch T0 wire time stime etime deadwire hits).dEdx
            (producePlane sv j1 fTrkPitch T0 wire time stime etime deadwire hits).ResidualRange
            j2 i := by
        intro i hi
        have hi2 := (Finset.mem_Ico.mp hi).2
        unfold termAi
        rw [vecRead_junk j1 j2 _ i (by rw [hlenE]; omega),
          vecRead_junk j1 j2 _ i (by rw [hlenR]; omega)]
      rw [Finset.sum_congr rfl hsum]

theorem producePlaneFull_memory (sv : Services K) (cs : ChannelServices) (j1 j2 : K)
    (fTrkPitch T0 : K) (w1 w2 : Nat) (t1 st1 et1 t2 st2 et2 : K) (larEnd : TVector3 K)
    (hits : List (PlaneHit K))
    (h : (acceptedHits sv fTrkPitch (hits.map (fun ph => ph.hit))).length ≠ 1
      ∨ sv.fFlipTrack_dQdx = false) :
    producePlaneFull sv cs j1 fTrkPitch T0 w1 t1 st1 et1 larEnd hits
      = producePlaneFull sv cs j2 fTrkPitch T0 w2 t2 st2 et2 larEnd hits := by
  rw [producePlaneFull_scalars sv cs j1 fTrkPitch T0 w1 w2 t1 st1 et1 t2 st2 et2 larEnd hits]
  unfold producePlaneFull
  exact producePlane_memory sv j1 j2 fTrkPitch T0 w2 t2 st2 et2 _ _ h

end Memory
end calo

/-! ## The module `TrajCluster` -/

namespace cluster

section Comparator

theorem SortHits_iff (h1 h2 : HitLoc) :
    SortHits h1 h2 = true ↔
      (h1.ctp < h2.ctp ∨ (h1.ctp = h2.ctp ∧ (h1.wire < h2.wire ∨ (h1.wire = h2.wire ∧
        (h1.tick < h2.tick ∨ (h1.tick = h2.tick ∧ h1.localIndex < h2.localIndex)))))) := by
  unfold SortHits
  by_cases hc : h1.ctp = h2.ctp
  · by_cases hw : h1.wire = h2.wire
    · by_cases ht : h1.tick = h2.tick
      · simp [hc, hw, ht]
      · simp [hc, hw, ht]
    · simp [hc, hw]
  · simp [hc]

theorem sortKey_lt_iff (h1 h2 : HitLoc) :
    sortKey h1 < sortKey h2 ↔
      (h1.ctp < h2.ctp ∨ (h1.ctp = h2.ctp ∧ (h1.wire < h2.wire ∨ (h1.wire = h2.wire ∧
        (h1.tick < h2.tick ∨ (h1.tick = h2.tick ∧ h1.localIndex < h2.localIndex)))))) := by
  unfold sortKey
  simp only [Prod.Lex.lt_iff, ofLex_toLex]

theorem SortHits_iff_key (h1 h2 : HitLoc) : SortHits h1 h2 = true ↔ sortKey h1 < sortKey h2 := by
  rw [SortHits_iff, sortKey_lt_iff]

theorem SortHits_false_iff_key (h1 h2 : HitLoc) :
    SortHits h1 h2 = false ↔ sortKey h2 ≤ sortKey h1 := by
  rw [← not_lt, ← SortHits_iff_key]
  simp

theorem sortKey_eq_iff (h1 h2 : HitLoc) :
    sortKey h1 = sortKey h2 ↔
      (h1.ctp = h2.ctp ∧ h1.wire = h2.wire ∧ h1.tick = h2.tick
        ∧ h1.localIndex = h2.localIndex) := by
  unfold sortKey
  simp only [EmbeddingLike.apply_eq_iff_eq, Prod.mk.injEq]

/-- C25: `SortHits(h1, h2)` is true exactly when the key
`(ctp, wire, tick, localIndex)` of `h1` is below that of `h2` in the lexicographic
order.  It is irreflexive, asymmetric and transitive, incomparability is
transitive, and two entries are incomparable exactly when their four key fields
are equal; the field `index` is not read. -/
theorem C25_SortHits_strict_weak_ordering :
    (∀ h1 h2 : HitLoc, SortHits h1 h2 = true ↔ sortKey h1 < sortKey h2)
    ∧ (∀ h : HitLoc, SortHits h h = false)
    ∧ (∀ h1 h2 : HitLoc, SortHits h1 h2 = true → SortHits h2 h1 = false)
    ∧ (∀ h1 h2 h3 : HitLoc, SortHits h1 h2 = true → SortHits h2 h3 = true →
        SortHits h1 h3 = true)
    ∧ (∀ h1 h2 h3 : HitLoc, (SortHits h1 h2 = false ∧ SortHits h2 h1 = false) →
        (SortHits h2 h3 = false ∧ SortHits h3 h2 = false) →
        (SortHits h1 h3 = false ∧ SortHits h3 h1 = false))
    ∧ (∀ h1 h2 : HitLoc, (SortHits h1 h2 = false ∧ SortHits h2 h1 = false) ↔
        (h1.ctp = h2.ctp ∧ h1.wire = h2.wire ∧ h1.tick = h2.tick
          ∧ h1.localIndex = h2.localIndex))
    ∧ (∀ (h1 h2 : HitLoc) (i j : Nat),
        SortHits { h1 with index := i } { h2 with index := j } = SortHits h1 h2) := by
  refine ⟨SortHits_iff_key, ?_, ?_, ?_, ?_, ?_, ?_⟩
  · intro h
    rw [SortHits_false_iff_key]
  · intro h1 h2 h
    rw [SortHits_false_iff_key]
    exact le_of_lt ((SortHits_iff_key h1 h2).mp h)
  · intro h1 h2 h3 h12 h23
    rw [SortHits_iff_key] at *
    exact lt_trans h12 h23
  · intro h1 h2 h3 h12 h23
    simp only [SortHits_false_iff_key] at *
    have e12 := le_antisymm h12.2 h12.1
    have e23 := le_antisymm h23.2 h23.1
    rw [e12, e23]
    exact ⟨le_refl _, le_refl _⟩
  · intro h1 h2
    simp only [SortHits_false_iff_key]
    rw [← sortKey_eq_iff]
    constructor
    · intro h
      exact le_antisymm h.2 h.1
    · intro h
      rw [h]
      exact ⟨le_refl _, le_refl _⟩
  · intro h1 h2 i j
    rfl

/-- C25 (witness): entries on the same plane and wire are ordered by their tick,
and the order is transitive on them. -/
theorem C25_SortHits_strict_weak_ordering_witness :
    SortHits ⟨2, 0, 3, 2, 0⟩ ⟨1, 0, 3, 8, 0⟩ = true
    ∧ SortHits ⟨1, 0, 3, 8, 0⟩ ⟨0, 0, 7, 5, 0⟩ = true
    ∧ SortHits ⟨2, 0, 3, 2, 0⟩ ⟨0, 0, 7, 5, 0⟩ = true :=
  ⟨by decide, by decide,
    C25_SortHits_strict_weak_ordering.2.2.2.1 ⟨2, 0, 3, 2, 0⟩ ⟨1, 0, 3, 8, 0⟩ ⟨0, 0, 7, 5, 0⟩
      (by decide) (by decide)⟩

end Comparator
section Loops

theorem loopU16_none {σ : Type} (n : Nat) (body : Nat → σ → σ × Bool) (hn : 65536 ≤ n)
    (hb : ∀ i s, i < 65536 → (body i s).2 = false) :
    ∀ (fuel i : Nat) (s : σ), i < 65536 → loopU16 n body fuel i s = none := by
  intro fuel
  induction fuel with
  | zero => intro i s _; rfl
  | succ fuel ih =>
    intro i s hi
    rw [loopU16, if_pos (by omega), hb i s hi]
    simp only [Bool.false_eq_true, if_false]
    exact ih _ _ (Nat.mod_lt _ (by norm_num))

theorem loopU16_small {σ : Type} (n : Nat) (body : Nat → σ → σ × Bool) (hn : n ≤ 65535)
    (hb : ∀ i s, i < n → (body i s).2 = false) :
    ∀ (fuel i : Nat) (s : σ), i ≤ n → n - i < fuel →
      loopU16 n body fuel i s
        = some ((List.range' i (n - i)).foldl (fun s j => (body j s).1) s) := by
  intro fuel
  induction fuel with
  | zero => intro i s _ h; omega
  | succ fuel ih =>
    intro i s hi hf
    rw [loopU16]
    by_cases hlt : i < n
    · rw [if_pos hlt, hb i s hlt]
      simp only [Bool.false_eq_true, if_false]
      have e : (i + 1) % 65536 = i + 1 := Nat.mod_eq_of_lt (by omega)
      have e2 : n - i = (n - (i + 1)) + 1 := by omega
      rw [e, ih (i + 1) _ (by omega) (by omega), e2, List.range'_succ, List.foldl_cons]
    · have e : n - i = 0 := by omega
      rw [if_neg hlt, e]
      rfl

theorem foldl_set_range {α : Type} (f : Nat → α) :
    ∀ (k : Nat) (l : List α), k ≤ l.length →
      (List.range k).foldl (fun v j => v.set j (f j)) l = (List.range k).map f ++ l.drop k := by
  intro k
  induction k with
  | zero => intro l _; simp
  | succ k ih =>
    intro l hk
    rw [List.range_succ, List.foldl_append, ih l (by omega), List.map_append]
    simp only [List.foldl_cons, List.foldl_nil, List.map_cons, List.map_nil]
    have hlen : ((List.range k).map f).length = k := by simp
    have hd := List.drop_eq_getElem_cons (by omega : k < l.length)
    rw [List.set_append_right _ _ (by rw [hlen]), hlen, Nat.sub_self, hd, List.set_cons_zero]
    simp

theorem foldl_set_all {α : Type} (f : Nat → α) (l : List α) :
    (List.range' 0 (l.length - 0)).foldl (fun v j => v.set j (f j)) l
      = (List.range l.length).map f := by
  rw [Nat.sub_zero, ← List.range_eq_range', foldl_set_range f l.length l (le_refl _)]
  simp

theorem foldl_fillBody (sv : SortServices) (junk : SortJunk) (nInputHits : Nat)
    (inputHits : List InputHit) (slhits : List Nat) :
    ∀ (l : List Nat) (v : List HitLoc) (b : Bool),
      (∀ j ∈ l, ¬ calo.vecRead junk.idx slhits j > calo.u32sub nInputHits 1) →
      l.foldl (fun s j => (fillBody sv junk nInputHits inputHits slhits j s).1) (v, b)
        = (l.foldl (fun v j => v.set j (hitLocOf sv junk inputHits slhits j)) v, b) := by
  intro l
  induction l with
  | nil => intro v b _; rfl
  | cons j l ih =>
    intro v b h
    rw [List.foldl_cons, List.foldl_cons]
    have hj := h j (List.mem_cons_self _ _)
    have e : (fillBody sv junk nInputHits inputHits slhits j (v, b)).1
        = (v.set j (hitLocOf sv junk inputHits slhits j), b) := by
      unfold fillBody
      rw [if_neg hj]
    rw [e]
    exact ih _ _ (fun i hi => h i (List.mem_cons_of_mem _ hi))

theorem vecRead_mem_of_lt {α : Type} (junk : α) (l : List α) (i : Nat) (h : i < l.length) :
    calo.vecRead junk l i ∈ l := by
  simp only [calo.vecRead, List.getD_eq_getElem?_getD, List.getElem?_eq_getElem h,
    Option.getD_some]
  exact List.getElem_mem h

theorem valid_reference (nInputHits x : Nat) (hx : x < nInputHits) (hin : nInputHits < 2 ^ 32) :
    ¬ x > calo.u32sub nInputHits 1 := by
  unfold calo.u32sub
  omega

theorem range_map_vecRead {α : Type} (junk : α) (l : List α) :
    (List.range l.length).map (fun k => calo.vecRead junk l k) = l := by
  have h := calo.range_reads junk l
  simpa using h

theorem sortSlice_sorted (sv : SortServices) (junk : SortJunk) (inputHits : List InputHit)
    (slhits : List Nat) (fuel : Nat)
    (hsort : ∀ l, (sv.stdSort l).Perm l
      ∧ (sv.stdSort l).Pairwise (fun a b => SortHits b a = false))
    (hvalid : ∀ x ∈ slhits, x < inputHits.length)
    (hin : inputHits.length < 2 ^ 32)
    (hsmall : slhits.length ≤ 65535) (hfuel : slhits.length < fuel) :
    ∃ out, sortSlice sv junk inputHits.length inputHits fuel slhits = some (false, out)
      ∧ out.Perm slhits
      ∧ (out.map (fun x => hitKey sv (calo.vecRead junk.hit inputHits x))).Pairwise
          (fun a b => a ≤ b) := by
  have hv : ∀ j, j < slhits.length →
      ¬ calo.vecRead junk.idx slhits j > calo.u32sub inputHits.length 1 := by
    intro j hj
    exact valid_reference _ _ (hvalid _ (vecRead_mem_of_lt junk.idx slhits j hj)) hin
  have hb1 : ∀ i (s : List HitLoc × Bool), i < slhits.length →
      (fillBody sv junk inputHits.length inputHits slhits i s).2 = false := by
    intro i s hi
    unfold fillBody
    rw [if_neg (hv i hi)]
  have h1 := loopU16_small slhits.length (fillBody sv junk inputHits.length inputHits slhits)
    hsmall hb1 fuel 0 (List.replicate slhits.length ⟨0, 0, 0, 0, 0⟩, false) (Nat.zero_le _)
    (by omega)
  rw [foldl_fillBody sv junk inputHits.length inputHits slhits _ _ _
    (by
      intro j hj
      have := (List.mem_range'_1.mp hj).2
      exact hv j (by omega))] at h1
  have hrep : (List.replicate slhits.length (⟨0, 0, 0, 0, 0⟩ : HitLoc)).length
      = slhits.length := List.length_replicate _ _
  have h1b : (List.range' 0 (slhits.length - 0)).foldl
      (fun v j => v.set j (hitLocOf sv junk inputHits slhits j))
      (List.replicate slhits.length (⟨0, 0, 0, 0, 0⟩ : HitLoc))
      = (List.range slhits.length).map (hitLocOf sv junk inputHits slhits) := by
    have h := foldl_set_all (hitLocOf sv junk inputHits slhits)
      (List.replicate slhits.length (⟨0, 0, 0, 0, 0⟩ : HitLoc))
    rw [hrep] at h
    exact h
  rw [h1b] at h1
  have hperm := (hsort ((List.range slhits.length).map (hitLocOf sv junk inputHits slhits))).1
  have hpair := (hsort ((List.range slhits.length).map (hitLocOf sv junk inputHits slhits))).2
  have hlen : (sv.stdSort ((List.range slhits.length).map
      (hitLocOf sv junk inputHits slhits))).length = slhits.length := by
    rw [hperm.length_eq]; simp
  have h2 := loopU16_small slhits.length
    (reorderBody junk slhits (sv.stdSort ((List.range slhits.length).map
      (hitLocOf sv junk inputHits slhits))))
    hsmall (fun _ _ _ => rfl) fuel 0 slhits (Nat.zero_le _) (by omega)
  have h2b : (List.range' 0 (slhits.length - 0)).foldl
      (fun s j => (reorderBody junk slhits (sv.stdSort ((List.range slhits.length).map
        (hitLocOf sv junk inputHits slhits))) j s).1) slhits
      = (sv.stdSort ((List.range slhits.length).map
          (hitLocOf sv junk inputHits slhits))).map
          (fun loc => calo.vecRead junk.idx slhits loc.index) := by
    have h := foldl_set_all (fun ii => calo.vecRead junk.idx slhits
      (calo.vecRead junk.loc (sv.stdSort ((List.range slhits.length).map
        (hitLocOf sv junk inputHits slhits))) ii).index) slhits
    have e : (fun (s : List Nat) (j : Nat) => (reorderBody junk slhits
        (sv.stdSort ((List.range slhits.length).map
          (hitLocOf sv junk inputHits slhits))) j s).1)
        = (fun v j => v.set j (calo.vecRead junk.idx slhits
            (calo.vecRead junk.loc (sv.stdSort ((List.range slhits.length).map
              (hitLocOf sv junk inputHits slhits))) j).index)) := rfl
    rw [e, h]
    have r := range_map_vecRead junk.loc (sv.stdSort ((List.range slhits.length).map
      (hitLocOf sv junk inputHits slhits)))
    rw [hlen] at r
    conv_rhs => rw [← r]
    rw [List.map_map]
    rfl
  rw [h2b] at h2
  refine ⟨(sv.stdSort ((List.range slhits.length).map
      (hitLocOf sv junk inputHits slhits))).map
      (fun loc => calo.vecRead junk.idx slhits loc.index), ?_, ?_, ?_⟩
  · unfold sortSlice
    rw [h1]
    simp only [Bool.false_eq_true, if_false]
    rw [h2]
  · have hp := hperm.map (fun loc => calo.vecRead junk.idx slhits loc.index)
    have e : ((List.range slhits.length).map (hitLocOf sv junk inputHits slhits)).map
        (fun loc => calo.vecRead junk.idx slhits loc.index) = slhits := by
      rw [List.map_map]
      exact range_map_vecRead junk.idx slhits
    rw [e] at hp
    exact hp
  · rw [List.map_map]
    have hkey : ∀ loc ∈ sv.stdSort ((List.range slhits.length).map
        (hitLocOf sv junk inputHits slhits)),
        ((fun x => hitKey sv (calo.vecRead junk.hit inputHits x))
          ∘ (fun loc => calo.vecRead junk.idx slhits loc.index)) loc = sortKey loc := by
      intro loc hloc
      have hm := hperm.mem_iff.mp hloc
      obtain ⟨i, _, rfl⟩ := List.mem_map.mp hm
      rfl
    rw [List.map_congr_left hkey, List.pairwise_map]
    exact hpair.imp (fun h => (SortHits_false_iff_key _ _).mp h)

theorem testSortServices_contract (l : List HitLoc) :
    (testSortServices.stdSort l).Perm l
    ∧ (testSortServices.stdSort l).Pairwise (fun a b => SortHits b a = false) := by
  haveI : IsTotal HitLoc (fun a b => SortHits b a = false) :=
    ⟨fun a b => by
      simp only [SortHits_false_iff_key]
      exact le_total _ _⟩
  haveI : IsTrans HitLoc (fun a b => SortHits b a = false) :=
    ⟨fun a b c hab hbc => by
      simp only [SortHits_false_iff_key] at *
      exact le_trans hab hbc⟩
  exact ⟨List.perm_insertionSort _ l, List.sorted_insertionSort _ l⟩

theorem sortSlice_sorted_example :
    sortSlice testSortServices testSortJunk 3 testInputHits 10 [0, 1, 2]
      = some (false, [2, 1, 0])
    ∧ ∃ out, sortSlice testSortServices testSortJunk testInputHits.length testInputHits 10
          [0, 1, 2] = some (false, out)
        ∧ out.Perm [0, 1, 2]
        ∧ (out.map (fun x => hitKey testSortServices
            (calo.vecRead testSortJunk.hit testInputHits x))).Pairwise (fun a b => a ≤ b) :=
  ⟨by decide,
    sortSlice_sorted testSortServices testSortJunk testInputHits [0, 1, 2] 10
      testSortServices_contract
      (by
        intro x hx
        simp only [List.mem_cons, List.mem_singleton, List.not_mem_nil, or_false] at hx
        rcases hx with rfl | rfl | rfl <;> decide)
      (by decide) (by decide) (by decide)⟩

/-- C26 (failing input): a slice of 65536 or more hit references, all within the
input hit collection.  The counter `indx` of the loop of lines 283-294 is an
`unsigned short`; it returns to 0 after 65535 and stays below `slhits.size()`,
so the loop has not ended after any number of passes and the slice is never
sorted. -/
theorem C26_large_slice_is_never_sorted (sv : SortServices) (junk : SortJunk)
    (nInputHits : Nat) (inputHits : List InputHit) (slhits : List Nat)
    (hvalid : ∀ x ∈ slhits, x < nInputHits) (hin : nInputHits < 2 ^ 32)
    (hbig : 65536 ≤ slhits.length) :
    ∀ fuel : Nat, sortSlice sv junk nInputHits inputHits fuel slhits = none := by
  intro fuel
  have hb : ∀ i (s : List HitLoc × Bool), i < 65536 →
      (fillBody sv junk nInputHits inputHits slhits i s).2 = false := by
    intro i s hi
    unfold fillBody
    rw [if_neg (valid_reference _ _
      (hvalid _ (vecRead_mem_of_lt junk.idx slhits i (by omega))) hin)]
  unfold sortSlice
  rw [loopU16_none slhits.length _ hbig hb fuel 0 _ (by norm_num)]

/-- C26 (witness): the slice of all the hits of a collection of 65536 hits. -/
theorem C26_large_slice_is_never_sorted_witness :
    65536 ≤ (List.range 65536).length
    ∧ sortSlice testSortServices testSortJunk 65536 (List.replicate 65536 ⟨0, 0, 0, 0, 0, 0⟩)
        1000000 (List.range 65536) = none :=
  ⟨by simp,
    C26_large_slice_is_never_sorted testSortServices testSortJunk 65536
      (List.replicate 65536 ⟨0, 0, 0, 0, 0, 0⟩) (List.range 65536)
      (fun x hx => List.mem_range.mp hx) (by norm_num) (by simp) 1000000⟩

end Loops

section Conversion
variable {K : Type} [LinearOrderedField K]

theorem pointsLoop_hitCol (sv : ClusterServices K) (junk : Nat) (slHits : List Nat)
    (nInputHits fuel : Nat) :
    ∀ (pts : List (TrajPoint K)) (s t : TjState K),
      pointsLoop sv junk slHits nInputHits fuel pts s = some t → t.badSlice = false →
      t.hitCol.length
        = s.hitCol.length + (pts.filter (fun tp => decide (0 < tp.Chg))).length := by
  intro pts
  induction pts with
  | nil =>
    intro s t h _
    simp only [pointsLoop, Option.some.injEq] at h
    subst h
    simp
  | cons tp rest ih =>
    intro s t h hb
    rw [pointsLoop] at h
    by_cases hc : tp.Chg ≤ 0
    · rw [if_pos hc] at h
      rw [List.filter_cons_of_neg (by simpa using hc)]
      exact ih s t h hb
    · rw [if_neg hc] at h
      rw [List.filter_cons_of_pos (by simpa using hc)]
      cases hl : loopU16 tp.Hits.length
          (useHitsBody junk slHits nInputHits tp s.hitCol.length) fuel 0
          ([], s.newIndex, false) with
      | none => rw [hl] at h; simp at h
      | some r =>
        obtain ⟨tpHits, newIndex, bad⟩ := r
        rw [hl] at h
        simp only at h
        by_cases hbad : bad = true
        · rw [if_pos hbad] at h
          simp only [Option.some.injEq] at h
          subst h
          simp at hb
        · rw [if_neg hbad] at h
          by_cases hch : (sv.MergeTPHits tpHits).Channel = sv.InvalidChannelID
          · rw [if_pos hch] at h
            simp only [Option.some.injEq] at h
            subst h
            simp at hb
          · rw [if_neg hch] at h
            have := ih _ t h hb
            rw [this]
            simp only [List.length_append, List.length_cons, List.length_nil]
            omega

/-- C27 (failing input, any trajectory): whenever the pass for a trajectory appends
a cluster, the hits associated with it are the entries `[b, e)` of the output
collection, one for each trajectory point with positive charge, and the `n hits`
argument of the cluster is `(e - b + 1) mod 2^16`: it is never the number
`e - b` of hits appended. -/
theorem C27_stored_hit_count_is_one_more (sv : ClusterServices K) (junk : Nat)
    (slHits : List Nat) (nInputHits fuel : Nat) (hitCol : List (OutHit K))
    (newIndex : List Nat) (tj : Trajectory K) (rec : ClusterRecord K) (b e : Nat)
    (hc : List (OutHit K)) (ni : List Nat)
    (h : convertTj sv junk slHits nInputHits fuel hitCol newIndex tj
      = some (TjResult.cluster rec b e hc ni))
    (hsize : hitCol.length < 2 ^ 32) :
    b = hitCol.length ∧ e = hc.length
    ∧ e - b = (tj.Pts.filter (fun tp => decide (0 < tp.Chg))).length
    ∧ rec.nHits = (e - b + 1) % 65536
    ∧ rec.nHits ≠ e - b := by
  unfold convertTj at h
  by_cases hk : tj.Killed = true
  · rw [if_pos hk] at h
    simp at h
  · rw [if_neg hk] at h
    simp only at h
    cases hp : pointsLoop sv junk slHits nInputHits fuel tj.Pts
        { hitCol := hitCol, newIndex := newIndex, sumChg := 0, sumADC := 0,
          badSlice := false } with
    | none => rw [hp] at h; simp at h
    | some s =>
      rw [hp] at h
      simp only at h
      by_cases hbad : s.badSlice = true
      · rw [if_pos hbad] at h
        simp at h
      · rw [if_neg hbad] at h
        by_cases ha : sv.CreateAssn (hitCol.length % 2 ^ 32) s.hitCol.length = true
        · rw [if_pos ha] at h
          simp only [Option.some.injEq, TjResult.cluster.injEq] at h
          obtain ⟨hrec, hb, he, hhc, _⟩ := h
          have hcount := pointsLoop_hitCol sv junk slHits nInputHits fuel tj.Pts _ s hp
            (by simpa using hbad)
          simp only at hcount
          have hmod : hitCol.length % 2 ^ 32 = hitCol.length := Nat.mod_eq_of_lt hsize
          rw [hmod] at hb hrec
          subst hb he hhc
          rw [← hrec]
          simp only
          refine ⟨trivial, trivial, by omega, by omega, by omega⟩
        · rw [if_neg ha] at h
          simp at h

/-- C27 (witness): a trajectory with two points of positive charge, each with one
used hit, converted with an empty output collection: two hits are appended and
associated with the cluster, and the cluster stores `n hits = 3`. -/
theorem C27_stored_hit_count_is_one_more_witness :
    convertTj testClusterServices 9 [0, 1, 2] 3 10 [] [4294967295, 4294967295, 4294967295]
        testTrajectory
      = some (TjResult.cluster ⟨20, 40, 3⟩ 0 2 [⟨0, 10, 20⟩, ⟨1, 10, 20⟩] [0, 1, 4294967295])
    ∧ (3 : Nat) ≠ 2 - 0 := by
  have h : convertTj testClusterServices 9 [0, 1, 2] 3 10 [] [4294967295, 4294967295, 4294967295]
        testTrajectory
      = some (TjResult.cluster ⟨20, 40, 3⟩ 0 2 [⟨0, 10, 20⟩, ⟨1, 10, 20⟩] [0, 1, 4294967295]) := by
    decide!
  exact ⟨h, (C27_stored_hit_count_is_one_more testClusterServices 9 [0, 1, 2] 3 10 []
    [4294967295, 4294967295, 4294967295] testTrajectory ⟨20, 40, 3⟩ 0 2
    [⟨0, 10, 20⟩, ⟨1, 10, 20⟩] [0, 1, 4294967295] h (by norm_num)).2.2.2.2⟩

end Conversion
end cluster
